import Mathlib

/-!
Verification of terminal-chat: the session/room directory of `server/server.go`

A shallow embedding of the chat server's shared directory (`Server`, `Room`,
`Client`), of its five directory operations, of the command dispatcher
`handleCommand`, of `handleClient` one loop iteration at a time, and of the
server as a directory shared by its connection handlers, followed by theorems
about them.

Modelling conventions.

* A Go `map[string]T` is an association list `List (String × T)`.  A key that
  is absent and a key that maps to `nil` are the same thing for the code
  (every test is `m[k] == nil`), and the embedding has only the former.
  `GoMap.put` overwrites in place or appends, `GoMap.del` removes the key, so
  the operations never produce a repeated key; `range m` visits the entries in
  list order (Go leaves the order unspecified).
* `Server.Clients[name]` is a pointer to the `Client` object allocated by the
  `AddClient` call that registered `name`; that object is stored under no other
  key of `Server.Clients`, so the map is embedded by value.
* An entry of `Room.Clients` is a pointer to a `Client` object as well.  Through
  such a pointer the code only tests for `nil`, counts, and calls
  `client.Conn.Write`; `Conn` is never reassigned after allocation.  The entry
  is therefore embedded as the `Conn` of the object it points to.
* A connection is identified by a number.  Everything done to a connection is
  recorded, in order, in a list of `Event`s.  A `Write` whose result the code
  ignores is recorded as attempted; the `fmt.Println` server log is left out.
* The mutex is not modelled: every operation is one atomic step, and a loop
  iteration of a handler is one step of the server (`System.step`).  A read on
  a connection the server has closed fails.
-/

namespace TerminalChat

/-! ## Go maps -/

namespace GoMap

/-- Reading `m[k]`: `none` stands for the `nil` of a missing key. -/
def get {V : Type} (m : List (String × V)) (k : String) : Option V :=
  match m with
  | [] => none
  | (k', v) :: rest => if k' = k then some v else get rest k

/-- Assignment `m[k] = v`. -/
def put {V : Type} (m : List (String × V)) (k : String) (v : V) : List (String × V) :=
  match m with
  | [] => [(k, v)]
  | (k', v') :: rest => if k' = k then (k, v) :: rest else (k', v') :: put rest k v

/-- The builtin `delete(m, k)`. -/
def del {V : Type} (m : List (String × V)) (k : String) : List (String × V) :=
  match m with
  | [] => []
  | (k', v') :: rest => if k' = k then del rest k else (k', v') :: del rest k

/-- The keys of the map, in iteration order. -/
def keys {V : Type} (m : List (String × V)) : List String :=
  m.map Prod.fst

end GoMap

/-! ## Data model -/

/-- Identity of a `net.Conn`. -/
abbrev Conn := Nat

/-- Go `type Client struct`. -/
structure Client where
  Name : String
  Conn : Conn
  CurrentRoom : String
deriving DecidableEq

/-- Go `type Room struct`; a member entry is the connection of the pointed-to client. -/
structure Room where
  Name : String
  Clients : List (String × Conn)
deriving DecidableEq

/-- Go `type Server struct` (without the mutex). -/
structure Server where
  Rooms : List (String × Room)
  Clients : List (String × Client)
deriving DecidableEq

/-- What the server does to a connection. -/
inductive Event where
  | write (c : Conn) (text : String)
  | close (c : Conn)
deriving DecidableEq

/-! ## Error values (`fmt.Errorf` texts) -/

def errRoomNotFound : String := "Room Not Found!"

def errClientExists : String := "Client already Exists"

def errClientNotFoundRemove : String := "Client not found"

def errClientNotFound : String := "Client Not Found"

/-! ## Directory operations -/

/-- Go `func (s *Server) AddClient`.  The pair `(Client, error)` is `.ok c` for
`(c, nil)` and `.error e` for `(Client{}, e)`; the first component is the
directory after the call. -/
def AddClient (s : Server) (name : String) (conn : Conn) (roomName : String) :
    Server × Except String Client :=
  match GoMap.get s.Rooms roomName with
  | none => (s, .error errRoomNotFound)
  | some room =>
    match GoMap.get s.Clients name with
    | some _ => (s, .error errClientExists)
    | none =>
      let c : Client := { Name := name, Conn := conn, CurrentRoom := roomName }
      let room1 : Room := { room with Clients := GoMap.put room.Clients c.Name c.Conn }
      ({ Rooms := GoMap.put s.Rooms roomName room1,
         Clients := GoMap.put s.Clients c.Name c }, .ok c)

/-- The statement `delete(s.Rooms[currentRoom].Clients, name)` guarded by
`currentRoom != "" && s.Rooms[currentRoom] != nil`. -/
def dropFromRoom (rooms : List (String × Room)) (currentRoom name : String) :
    List (String × Room) :=
  if currentRoom ≠ "" then
    match GoMap.get rooms currentRoom with
    | some old => GoMap.put rooms currentRoom { old with Clients := GoMap.del old.Clients name }
    | none => rooms
  else rooms

/-- Go `func (s *Server) RemoveClient`; `none` is the `nil` error. -/
def RemoveClient (s : Server) (name : String) : Server × Option String :=
  match GoMap.get s.Clients name with
  | none => (s, some errClientNotFoundRemove)
  | some c =>
    ({ Rooms := dropFromRoom s.Rooms c.CurrentRoom name,
       Clients := GoMap.del s.Clients name }, none)

/-- Go `func (s *Server) JoinRoom`. -/
def JoinRoom (s : Server) (clientName roomName : String) : Server × Option String :=
  match GoMap.get s.Rooms roomName with
  | none => (s, some errRoomNotFound)
  | some r =>
    match GoMap.get s.Clients clientName with
    | none => (s, some errClientNotFound)
    | some c =>
      match GoMap.get r.Clients clientName with
      | some _ => (s, none)
      | none =>
        let rooms1 := dropFromRoom s.Rooms c.CurrentRoom clientName
        -- the pointer r still designates the object stored under roomName
        let rooms2 :=
          match GoMap.get rooms1 roomName with
          | some r1 =>
            GoMap.put rooms1 roomName { r1 with Clients := GoMap.put r1.Clients clientName c.Conn }
          | none => rooms1
        ({ Rooms := rooms2,
           Clients := GoMap.put s.Clients clientName { c with CurrentRoom := roomName } }, none)

/-- Go `func (s *Server) LeaveRoom`. -/
def LeaveRoom (s : Server) (clientName : String) : Server × Option String :=
  match GoMap.get s.Clients clientName with
  | none => (s, some errClientNotFound)
  | some client =>
    if client.CurrentRoom = "" then (s, none)
    else
      match GoMap.get s.Rooms client.CurrentRoom with
      | none => (s, some errRoomNotFound)
      | some r =>
        match GoMap.get r.Clients clientName with
        | none => (s, none)
        | some _ =>
          ({ Rooms := GoMap.put s.Rooms client.CurrentRoom
                        { r with Clients := GoMap.del r.Clients clientName },
             Clients := GoMap.put s.Clients clientName { client with CurrentRoom := "" } }, none)

/-- The loop `for name, client := range members { if name != except { client.Conn.Write(text) } }`
shared by the broadcast and by the room notifications. -/
def writeToOthers (members : List (String × Conn)) (except : String) (text : String) :
    List Event :=
  match members with
  | [] => []
  | (name, conn) :: rest =>
    if except ≠ name then Event.write conn text :: writeToOthers rest except text
    else writeToOthers rest except text

/-- The text `fmt.Sprintf("<%s> %s\n", clientName, message)`. -/
def formatMessage (clientName message : String) : String :=
  "<" ++ clientName ++ "> " ++ message ++ "\n"

/-- Go `func (s *Server) BroadcastToRoom`: the error value and the writes it performs.
The directory is only read. -/
def BroadcastToRoom (s : Server) (clientName message : String) :
    Option String × List Event :=
  match GoMap.get s.Clients clientName with
  | none => (some errClientNotFound, [])
  | some client =>
    if client.CurrentRoom = "" then (some errRoomNotFound, [])
    else
      match GoMap.get s.Rooms client.CurrentRoom with
      | none => (some errRoomNotFound, [])
      | some r => (none, writeToOthers r.Clients clientName (formatMessage clientName message))

/-- Go `func initRoom`. -/
def initRoom : Room := { Name := "general", Clients := [] }

/-- Go `func initServer`. -/
def initServer : Server :=
  { Rooms := GoMap.put [] initRoom.Name initRoom, Clients := [] }


/-! ## Text helpers (Go `strings` and `fmt`) -/

/-- Go `unicode.IsSpace`. -/
def isSpace (c : Char) : Bool :=
  let n := c.toNat
  (9 ≤ n && n ≤ 13) || n = 32 || n = 133 || n = 160 || n = 5760 ||
  (8192 ≤ n && n ≤ 8202) || n = 8232 || n = 8233 || n = 8239 || n = 8287 || n = 12288

/-- Removes the leading white space of a character list. -/
def dropSpace : List Char → List Char
  | [] => []
  | c :: cs => if isSpace c then dropSpace cs else c :: cs

/-- Go `strings.TrimSpace`. -/
def TrimSpace (s : String) : String :=
  String.mk (dropSpace (dropSpace s.data).reverse).reverse

/-- Go `strings.HasPrefix(s, "/")`. -/
def startsWithSlash (s : String) : Bool :=
  match s.data with
  | c :: _ => c = '/'
  | [] => false

/-- Go `strings.Split(s, " ")` on the characters of `s`. -/
def splitSpaces : List Char → List (List Char)
  | [] => [[]]
  | c :: cs =>
    if c = ' ' then [] :: splitSpaces cs
    else
      match splitSpaces cs with
      | [] => [[c]]
      | w :: ws => (c :: w) :: ws

/-- Go `strings.Split(command, " ")`. -/
def Split (command : String) : List String :=
  (splitSpaces command.data).map String.mk

/-- The verb `%d` of `fmt.Sprintf` on a length. -/
def fmtInt (n : Nat) : String := Nat.repr n

/-! ## Command dispatcher -/

/-- Result of running handler code: the directory afterwards, what was done to
connections, and whether the code hit a nil dereference (a Go panic). -/
structure Outcome where
  server : Server
  events : List Event
  panicked : Bool
deriving DecidableEq

/-- The member list loop of `/join` and `/who`: one line per entry, the requester marked. -/
def memberLines (members : List (String × Conn)) (username : String) (conn : Conn) :
    List Event :=
  match members with
  | [] => []
  | (clientName, _) :: rest =>
    (if clientName = username then Event.write conn ("* " ++ clientName ++ " (you)\n")
     else Event.write conn ("* " ++ clientName ++ "\n")) :: memberLines rest username conn

/-- The loop of `/rooms`: one line per room with its number of members. -/
def roomLines (rooms : List (String × Room)) (conn : Conn) : List Event :=
  match rooms with
  | [] => []
  | (roomName, room) :: rest =>
    Event.write conn ("* " ++ roomName ++ " (" ++ fmtInt room.Clients.length ++ " users)\n")
      :: roomLines rest conn

/-- The `/rooms` case. -/
def cmdRooms (conn : Conn) (s : Server) : Outcome :=
  { server := s,
    events := [Event.write conn "Available Rooms:\n", Event.write conn "================\n"]
      ++ roomLines s.Rooms conn ++ [Event.write conn "================\n"],
    panicked := false }

/-- The room creation of the `/join` case:
`if s.Rooms[roomName] == nil { s.Rooms[roomName] = &Room{Name: roomName, Clients: ...}; conn.Write(...) }`. -/
def createRoom (roomName : String) (conn : Conn) (s : Server) : Server × List Event :=
  match GoMap.get s.Rooms roomName with
  | none =>
    ({ s with Rooms := GoMap.put s.Rooms roomName { Name := roomName, Clients := [] } },
     [Event.write conn ("[Server] Created new room: " ++ roomName ++ "\n")])
  | some _ => (s, [])

/-- The `/join` case. -/
def cmdJoin (parts : List String) (username : String) (conn : Conn) (s : Server) : Outcome :=
  match parts with
  | _ :: roomName :: _ =>
    let created := createRoom roomName conn s
    let joined := JoinRoom created.1 username roomName
    match joined.2 with
    | some err =>
      { server := joined.1,
        events := created.2 ++ [Event.write conn ("[Error] " ++ err ++ "\n")],
        panicked := false }
    | none =>
      match GoMap.get joined.1.Rooms roomName with
      | none =>
        -- len(room.Clients) on a nil room
        { server := joined.1,
          events := created.2 ++ [Event.write conn ("--- Joined room: " ++ roomName ++ " ---\n")],
          panicked := true }
      | some room =>
        { server := joined.1,
          events := created.2
            ++ [Event.write conn ("--- Joined room: " ++ roomName ++ " ---\n"),
                Event.write conn ("Users in room (" ++ fmtInt room.Clients.length ++ "):\n")]
            ++ memberLines room.Clients username conn
            ++ [Event.write conn "------------------------\n"]
            ++ writeToOthers room.Clients username ("*** " ++ username ++ " joined the room ***\n"),
          panicked := false }
  | _ =>
    { server := s, events := [Event.write conn "[Error] Usage: /join <room_name>\n"],
      panicked := false }

/-- The `/leave` case. -/
def cmdLeave (username : String) (conn : Conn) (s : Server) : Outcome :=
  match GoMap.get s.Clients username with
  | none => { server := s, events := [], panicked := true }
  | some client =>
    let currentRoom := client.CurrentRoom
    if currentRoom = "" then
      { server := s, events := [Event.write conn "[Info] You are not in any room\n"],
        panicked := false }
    else
      let notified : List Event :=
        match GoMap.get s.Rooms currentRoom with
        | some room => writeToOthers room.Clients username ("*** " ++ username ++ " left the room ***\n")
        | none => []
      let left := LeaveRoom s username
      match left.2 with
      | some err =>
        { server := left.1, events := notified ++ [Event.write conn ("[Error] " ++ err ++ "\n")],
          panicked := false }
      | none =>
        { server := left.1,
          events := notified ++ [Event.write conn ("--- Left room: " ++ currentRoom ++ " ---\n")],
          panicked := false }

/-- The `/who` case. -/
def cmdWho (username : String) (conn : Conn) (s : Server) : Outcome :=
  match GoMap.get s.Clients username with
  | none => { server := s, events := [], panicked := true }
  | some client =>
    let currentRoom := client.CurrentRoom
    if currentRoom = "" then
      { server := s, events := [Event.write conn "[Info] You are not in any room\n"],
        panicked := false }
    else
      match GoMap.get s.Rooms currentRoom with
      | none => { server := s, events := [], panicked := true }
      | some room =>
        { server := s,
          events :=
            [Event.write conn
               ("Users in room \x27" ++ currentRoom ++ "\x27 (" ++ fmtInt room.Clients.length ++ "):\n"),
             Event.write conn "==========================\n"]
            ++ memberLines room.Clients username conn
            ++ [Event.write conn "==========================\n"],
          panicked := false }

/-- The `/help` case. -/
def cmdHelp (conn : Conn) (s : Server) : Outcome :=
  { server := s,
    events :=
      [Event.write conn "Available Commands:\n",
       Event.write conn "==================\n",
       Event.write conn "/help          - Show this help message\n",
       Event.write conn "/rooms         - List all available rooms\n",
       Event.write conn "/join <room>   - Join or create a room\n",
       Event.write conn "/leave         - Leave current room\n",
       Event.write conn "/who           - Show users in current room\n",
       Event.write conn "/quit          - Disconnect from server\n",
       Event.write conn "==================\n",
       Event.write conn "Type any message to chat with room members\n"],
    panicked := false }

/-- The `/quit` case. -/
def cmdQuit (username : String) (conn : Conn) (s : Server) : Outcome :=
  match GoMap.get s.Clients username with
  | none => { server := s, events := [], panicked := true }
  | some client =>
    let currentRoom := client.CurrentRoom
    let notified : List Event :=
      if currentRoom ≠ "" then
        match GoMap.get s.Rooms currentRoom with
        | some room => writeToOthers room.Clients username ("*** " ++ username ++ " disconnected ***\n")
        | none => []
      else []
    { server := (RemoveClient s username).1,
      events := notified
        ++ [Event.write conn "+-------------------+\n",
            Event.write conn "|  Thanks for chat! |\n",
            Event.write conn "+-------------------+\n",
            Event.close conn],
      panicked := false }

/-- Go `func handleCommand`. -/
def handleCommand (command username : String) (conn : Conn) (s : Server) : Outcome :=
  let parts := Split command
  let cmd := parts.headD ""
  if cmd = "/rooms" then cmdRooms conn s
  else if cmd = "/join" then cmdJoin parts username conn s
  else if cmd = "/leave" then cmdLeave username conn s
  else if cmd = "/who" then cmdWho username conn s
  else if cmd = "/help" then cmdHelp conn s
  else if cmd = "/quit" then cmdQuit username conn s
  else
    { server := s,
      events := [Event.write conn "[Error] Unknown command\n",
                 Event.write conn "Type /help for available commands\n"],
      panicked := false }

/-! ## Connection handler -/

/-- One iteration of the message loop of `handleClient` whose `conn.Read` returned
`data` without error. -/
def messageLoopData (data username : String) (conn : Conn) (s : Server) : Outcome :=
  let msgStr := TrimSpace data
  if msgStr = "" then { server := s, events := [], panicked := false }
  else if startsWithSlash msgStr then handleCommand msgStr username conn s
  else
    -- the error returned by BroadcastToRoom is discarded
    { server := s, events := (BroadcastToRoom s username msgStr).2, panicked := false }

/-- The iteration of the message loop whose `conn.Read` failed: deregister, leave
the loop, and run the deferred `conn.Close()`. -/
def messageLoopReadError (username : String) (conn : Conn) (s : Server) : Outcome :=
  { server := (RemoveClient s username).1, events := [Event.close conn], panicked := false }

/-- What `conn.Read` returns: the text that arrived, or an error. -/
inductive ReadResult where
  | data (text : String)
  | err
deriving DecidableEq

/-- Where the goroutine running `handleClient` for a connection stands: in the
username loop, in the message loop for `username`, or returned. -/
inductive Phase where
  | handshake
  | active (username : String)
  | returned
deriving DecidableEq

/-- A banner line: the character `c` 63 times and a newline. -/
def bannerRule (c : Char) : String :=
  String.mk (List.replicate 63 c) ++ "\n"

/-- The six `conn.Write` calls that follow a successful registration; the first,
third and last write a line of 63 `=`, `=` and `-`. -/
def welcomeBanner (conn : Conn) : List Event :=
  [Event.write conn (bannerRule '='),
   Event.write conn "|                    TERMINAL CHAT SERVER                    |\n",
   Event.write conn (bannerRule '='),
   Event.write conn "Connected to room: general\n",
   Event.write conn "Type messages or commands (type /help for command list)\n",
   Event.write conn (bannerRule '-')]

/-- One iteration of the username loop of `handleClient`: the prompt, the read,
and what follows it. -/
def handshakeStep (input : ReadResult) (conn : Conn) (s : Server) : Phase × Outcome :=
  match input with
  | .err =>
    -- return, which runs the deferred conn.Close()
    (.returned,
     { server := s, events := [Event.write conn "Enter Username: ", Event.close conn],
       panicked := false })
  | .data text =>
    let username := TrimSpace text
    if username = "" then
      (.handshake,
       { server := s,
         events := [Event.write conn "Enter Username: ",
                    Event.write conn "Username cannot be empty. Try again.\n"],
         panicked := false })
    else
      match AddClient s username conn "general" with
      | (s1, .error e) =>
        (.handshake,
         { server := s1,
           events := [Event.write conn "Enter Username: ",
                      Event.write conn
                        ("Error: " ++ e ++ "\nPlease try a different username.\n")],
           panicked := false })
      | (s1, .ok _) =>
        (.active username,
         { server := s1,
           events := Event.write conn "Enter Username: " :: welcomeBanner conn,
           panicked := false })

/-- One iteration of the message loop of `handleClient`.  A read error
deregisters and leaves the loop; after any text, `/quit` included, the loop
goes on to its next iteration. -/
def messageLoopStep (input : ReadResult) (username : String) (conn : Conn) (s : Server) :
    Phase × Outcome :=
  match input with
  | .err => (.returned, messageLoopReadError username conn s)
  | .data text => (.active username, messageLoopData text username conn s)

/-- Go `func handleClient`, one loop iteration at a time. -/
def handleClientStep (phase : Phase) (input : ReadResult) (conn : Conn) (s : Server) :
    Phase × Outcome :=
  match phase with
  | .handshake => handshakeStep input conn s
  | .active username => messageLoopStep input username conn s
  | .returned => (.returned, { server := s, events := [], panicked := false })

/-! ## The server with its connection handlers -/

/-- The shared directory together with the goroutines of `main`: one handler per
accepted connection (a connection that has not been read from yet is in the
username loop), the connections the server has closed, and whether a handler
has panicked, which ends the process. -/
structure System where
  server : Server
  phase : Conn → Phase
  closed : Conn → Bool
  crashed : Bool

/-- The state built by `main` before any connection is served. -/
def initSystem : System :=
  { server := initServer, phase := fun _ => .handshake, closed := fun _ => false,
    crashed := false }

/-- Whether `conn.Close()` is among the events for `conn`. -/
def closes (events : List Event) (conn : Conn) : Bool :=
  events.any fun e => decide (e = Event.close conn)

/-- One scheduling step: the handler of `conn` gets the result of its pending
`conn.Read` and runs one loop iteration.  A read on a connection the server
has closed fails whatever the peer sent.  Nothing runs after a panic. -/
def System.step (sys : System) (conn : Conn) (input : ReadResult) : System :=
  if sys.crashed then sys
  else
    let effective := if sys.closed conn then ReadResult.err else input
    let result := handleClientStep (sys.phase conn) effective conn sys.server
    { server := result.2.server,
      phase := fun k => if k = conn then result.1 else sys.phase k,
      closed := fun k => if k = conn then (sys.closed conn || closes result.2.events conn)
                         else sys.closed k,
      crashed := result.2.panicked }

/-- The system after a schedule of reads, first read first. -/
def System.run (sys : System) (schedule : List (Conn × ReadResult)) : System :=
  schedule.foldl (fun acc p => acc.step p.1 p.2) sys

/-! ## Sequences of directory operations -/

/-- A mutation of the directory: the four mutating operations and the room
creation performed by `/join`. -/
inductive Op where
  | addClient (name : String) (conn : Conn) (roomName : String)
  | removeClient (name : String)
  | joinRoom (clientName roomName : String)
  | leaveRoom (clientName : String)
  | createRoom (roomName : String) (conn : Conn)
deriving DecidableEq

/-- The directory after one operation (its result value is dropped). -/
def Op.apply (s : Server) : Op → Server
  | .addClient name conn roomName => (AddClient s name conn roomName).1
  | .removeClient name => (RemoveClient s name).1
  | .joinRoom clientName roomName => (JoinRoom s clientName roomName).1
  | .leaveRoom clientName => (LeaveRoom s clientName).1
  | .createRoom roomName conn => (TerminalChat.createRoom roomName conn s).1

/-- The directory after a sequence of operations, first operation first. -/
def run (s : Server) (ops : List Op) : Server :=
  ops.foldl Op.apply s

/-- Whether the operation creates a room under the empty name. -/
def Op.namesEmptyRoom : Op → Bool
  | .createRoom roomName _ => decide (roomName = "")
  | _ => false

/-- Whether the operation is a `RemoveClient`. -/
def Op.isRemove : Op → Bool
  | .removeClient _ => true
  | _ => false

/-- A step on the directory taken by some handler or caller: a mutation, a
command line handed to `handleCommand`, or a broadcast. -/
inductive Action where
  | op (o : Op)
  | command (line username : String) (conn : Conn)
  | broadcast (clientName message : String)

/-- The directory after an action; a broadcast only reads it. -/
def Action.apply (s : Server) : Action → Server
  | .op o => Op.apply s o
  | .command line username conn => (handleCommand line username conn s).server
  | .broadcast _ _ => s

/-- The directory after a sequence of actions, first action first. -/
def runActions (s : Server) (actions : List Action) : Server :=
  actions.foldl Action.apply s

/-- The results of a series of `AddClient` calls that all use the name `name`, each
with its own connection and room, run one after the other. -/
def addAll (s : Server) (name : String) : List (Conn × String) → List (Except String Client)
  | [] => []
  | (conn, roomName) :: rest =>
    (AddClient s name conn roomName).2 :: addAll (AddClient s name conn roomName).1 name rest

/-! ## Invariants -/

/-- The entry `rooms[roomName].Clients[name]`, when the room exists and has one:
the connection of the member. -/
def memberConn (rooms : List (String × Room)) (roomName name : String) : Option Conn :=
  (GoMap.get rooms roomName).bind fun r => GoMap.get r.Clients name

/-- Whether `name` has an entry in the member map of the room stored under `roomName`. -/
def isMember (s : Server) (roomName name : String) : Prop :=
  memberConn s.Rooms roomName name ≠ none

instance (s : Server) (roomName name : String) : Decidable (isMember s roomName name) :=
  inferInstanceAs (Decidable (memberConn s.Rooms roomName name ≠ none))

/-- Membership consistency (invariant 2 of the data model, with the clause that
members are registered sessions): a session whose `CurrentRoom` is a room name
is stored in that room, with its own connection (the embedding of
`rooms[R].members[name] == session`), and in no other room; a session whose
`CurrentRoom` is empty is in no room; every member entry of a room points to
the registered session of that name. -/
structure MembershipInv (s : Server) : Prop where
  inCurrent : ∀ name c, GoMap.get s.Clients name = some c → c.CurrentRoom ≠ "" →
    ∃ r, GoMap.get s.Rooms c.CurrentRoom = some r ∧ GoMap.get r.Clients name = some c.Conn
  inNoOther : ∀ name c roomName r, GoMap.get s.Clients name = some c →
    GoMap.get s.Rooms roomName = some r → roomName ≠ c.CurrentRoom →
    GoMap.get r.Clients name = none
  emptyInNone : ∀ name c roomName r, GoMap.get s.Clients name = some c →
    c.CurrentRoom = "" → GoMap.get s.Rooms roomName = some r →
    GoMap.get r.Clients name = none
  registered : ∀ roomName r name conn, GoMap.get s.Rooms roomName = some r →
    GoMap.get r.Clients name = some conn →
    ∃ c, GoMap.get s.Clients name = some c ∧ c.Conn = conn

/-- The membership invariant on names alone: a session whose `CurrentRoom` is a
room name is a member of that room and of no other room; a session whose
`CurrentRoom` is empty is a member of no room; every member of a room is a
registered session. -/
structure MembershipNames (s : Server) : Prop where
  inCurrent : ∀ name c, GoMap.get s.Clients name = some c → c.CurrentRoom ≠ "" →
    isMember s c.CurrentRoom name
  inNoOther : ∀ name c roomName, GoMap.get s.Clients name = some c →
    roomName ≠ c.CurrentRoom → ¬ isMember s roomName name
  emptyInNone : ∀ name c roomName, GoMap.get s.Clients name = some c →
    c.CurrentRoom = "" → ¬ isMember s roomName name
  registered : ∀ roomName name, isMember s roomName name → GoMap.get s.Clients name ≠ none

/-- The name `n` is a member of no room but the one named by its `CurrentRoom`. -/
def OnlyInCurrent (s : Server) (n : String) : Prop :=
  ∀ c x, GoMap.get s.Clients n = some c → x ≠ c.CurrentRoom ∨ c.CurrentRoom = "" →
    memberConn s.Rooms x n = none

/-- The directory `t` differs from `s` only in the session and the memberships of
the name `n`, and in `t` that name is consistent: stored in the room named by
its `CurrentRoom` with its own connection and in no other room, or in no room
at all when it is not registered. -/
structure Touches (s t : Server) (n : String) : Prop where
  clients : ∀ m, m ≠ n → GoMap.get t.Clients m = GoMap.get s.Clients m
  members : ∀ x m, m ≠ n → memberConn t.Rooms x m = memberConn s.Rooms x m
  current : ∀ c, GoMap.get t.Clients n = some c → c.CurrentRoom ≠ "" →
    memberConn t.Rooms c.CurrentRoom n = some c.Conn
  others : ∀ c x, GoMap.get t.Clients n = some c → x ≠ c.CurrentRoom ∨ c.CurrentRoom = "" →
    memberConn t.Rooms x n = none
  gone : GoMap.get t.Clients n = none → ∀ x, memberConn t.Rooms x n = none

/-- The reading of membership consistency in which the two alternatives are not
told apart by the emptiness of the room name: the session has an empty
`CurrentRoom` and is in no room, or it is in the room named by its
`CurrentRoom` and in no other. -/
def MembershipWeak (s : Server) : Prop :=
  ∀ name c, GoMap.get s.Clients name = some c →
    (c.CurrentRoom = "" ∧ ∀ roomName, ¬ isMember s roomName name) ∨
    (isMember s c.CurrentRoom name ∧
      ∀ roomName, roomName ≠ c.CurrentRoom → ¬ isMember s roomName name)

/-- Representation conditions of a directory state: the keys of every Go map
are pairwise distinct, and two sessions never share a connection (a handler
registers one name for the connection it serves). -/
structure WellFormed (s : Server) : Prop where
  roomKeys : (GoMap.keys s.Rooms).Nodup
  clientKeys : (GoMap.keys s.Clients).Nodup
  memberKeys : ∀ roomName r, GoMap.get s.Rooms roomName = some r → (GoMap.keys r.Clients).Nodup
  connsDistinct : ∀ n1 c1 n2 c2, GoMap.get s.Clients n1 = some c1 →
    GoMap.get s.Clients n2 = some c2 → c1.Conn = c2.Conn → n1 = n2

/-- Number of `Write` calls on connection `conn` carrying `text`. -/
def writesTo (events : List Event) (conn : Conn) (text : String) : Nat :=
  events.count (Event.write conn text)

/-- The texts written to connection `conn`, in order. -/
def textsTo (events : List Event) (conn : Conn) : List String :=
  events.filterMap fun e =>
    match e with
    | .write c text => if c = conn then some text else none
    | .close _ => none

/-- The directory after `alice` (connection 1) and `bob` (connection 2) registered. -/
def twoInGeneral : Server :=
  (AddClient (AddClient initServer "alice" 1 "general").1 "bob" 2 "general").1

/-- The directory after `alice` registered and left her room. -/
def aliceOutside : Server :=
  (LeaveRoom (AddClient initServer "alice" 1 "general").1 "alice").1

/-- The directory `twoInGeneral` with an empty room `lobby` created by `/join`. -/
def withLobby : Server :=
  (createRoom "lobby" 1 twoInGeneral).1

/-- The operations behind the lines `/join  lobby` (two spaces, so the room name
handed to the dispatcher is empty) and `/join general` typed by `alice` after
she registered on connection 1. -/
def emptyNameOps : List Op :=
  [Op.addClient "alice" 1 "general", Op.createRoom "" 1, Op.joinRoom "alice" "",
   Op.joinRoom "alice" "general"]

/-- A schedule of reads: connection 1 registers `alice` and sends `/quit`;
connection 2 registers `alice`; the next read of connection 1, now closed,
fails; connection 2 sends `/who`. -/
def quitSchedule : List (Conn × ReadResult) :=
  [(1, .data "alice\n"), (1, .data "/quit\n"), (2, .data "alice\n"), (1, .err),
   (2, .data "/who\n")]

/-- The directory after `alice` registered on connection 1 and sent the line
`/join  lobby` (two spaces). -/
def aliceInUnnamed : Server :=
  (handleCommand "/join  lobby" "alice" 1 (AddClient initServer "alice" 1 "general").1).server

/-- A schedule of reads: connection 1 registers `alice` and sends `/join  lobby`
(two spaces), then its read fails; connection 2 registers `bob`. -/
def unnamedSchedule : List (Conn × ReadResult) :=
  [(1, .data "alice\n"), (1, .data "/join  lobby\n"), (1, .err), (2, .data "bob\n")]

namespace GoMap

theorem get_put_self {V : Type} (m : List (String × V)) (k : String) (v : V) :
    get (put m k v) k = some v := by
  induction m with
  | nil => simp [put, get]
  | cons p rest ih =>
    obtain ⟨k1, v1⟩ := p
    by_cases h : k1 = k
    · simp [put, get, h]
    · simp [put, get, h, ih]

theorem get_put_ne {V : Type} (m : List (String × V)) (k k2 : String) (v : V) (h : k2 ≠ k) :
    get (put m k v) k2 = get m k2 := by
  induction m with
  | nil => simp [put, get, Ne.symm h]
  | cons p rest ih =>
    obtain ⟨k1, v1⟩ := p
    by_cases h1 : k1 = k
    · subst h1
      simp [put, get, Ne.symm h]
    · by_cases h2 : k1 = k2
      · subst h2
        simp [put, get, h1]
      · simp [put, get, h1, h2, ih]

theorem get_put {V : Type} (m : List (String × V)) (k k2 : String) (v : V) :
    get (put m k v) k2 = if k2 = k then some v else get m k2 := by
  by_cases h : k2 = k
  · subst h
    simp [get_put_self]
  · simp [h, get_put_ne m k k2 v h]

theorem get_del_self {V : Type} (m : List (String × V)) (k : String) :
    get (del m k) k = none := by
  induction m with
  | nil => simp [del, get]
  | cons p rest ih =>
    obtain ⟨k1, v1⟩ := p
    by_cases h : k1 = k
    · simp [del, h, ih]
    · simp [del, get, h, ih]

theorem get_del_ne {V : Type} (m : List (String × V)) (k k2 : String) (h : k2 ≠ k) :
    get (del m k) k2 = get m k2 := by
  induction m with
  | nil => simp [del, get]
  | cons p rest ih =>
    obtain ⟨k1, v1⟩ := p
    by_cases h1 : k1 = k
    · subst h1
      simp [del, get, Ne.symm h, ih]
    · by_cases h2 : k1 = k2
      · subst h2
        simp [del, get, h1]
      · simp [del, get, h1, h2, ih]

theorem get_del {V : Type} (m : List (String × V)) (k k2 : String) :
    get (del m k) k2 = if k2 = k then none else get m k2 := by
  by_cases h : k2 = k
  · subst h
    simp [get_del_self]
  · simp [h, get_del_ne m k k2 h]

theorem del_of_get_none {V : Type} (m : List (String × V)) (k : String)
    (h : get m k = none) : del m k = m := by
  induction m with
  | nil => simp [del]
  | cons p rest ih =>
    obtain ⟨k1, v1⟩ := p
    by_cases h1 : k1 = k
    · simp [get, h1] at h
    · simp [get, h1] at h
      simp [del, h1, ih h]

theorem keys_put_of_get_some {V : Type} (m : List (String × V)) (k : String) (v w : V)
    (h : get m k = some w) : keys (put m k v) = keys m := by
  induction m with
  | nil => simp [get] at h
  | cons p rest ih =>
    obtain ⟨k1, v1⟩ := p
    by_cases h1 : k1 = k
    · simp [put, keys, h1]
    · simp [get, h1] at h
      have := ih h
      simp [keys] at this
      simp [put, keys, h1, this]

theorem keys_put_of_get_none {V : Type} (m : List (String × V)) (k : String) (v : V)
    (h : get m k = none) : keys (put m k v) = keys m ++ [k] := by
  induction m with
  | nil => simp [put, keys]
  | cons p rest ih =>
    obtain ⟨k1, v1⟩ := p
    by_cases h1 : k1 = k
    · simp [get, h1] at h
    · simp [get, h1] at h
      have := ih h
      simp [keys] at this
      simp [put, keys, h1, this]

theorem mem_of_get_some {V : Type} (m : List (String × V)) (k : String) (v : V)
    (h : get m k = some v) : (k, v) ∈ m := by
  induction m with
  | nil => simp [get] at h
  | cons p rest ih =>
    obtain ⟨k1, v1⟩ := p
    by_cases h1 : k1 = k
    · simp [get, h1] at h
      simp [h1, h]
    · simp [get, h1] at h
      simp [ih h]

theorem get_none_of_not_mem_keys {V : Type} (m : List (String × V)) (k : String)
    (h : k ∉ keys m) : get m k = none := by
  induction m with
  | nil => simp [get]
  | cons p rest ih =>
    obtain ⟨k1, v1⟩ := p
    simp [keys] at h
    have h1 : ¬ k1 = k := fun e => h.1 e.symm
    have h2 : k ∉ keys rest := by
      simp [keys]
      exact h.2
    simp [get, h1, ih h2]

theorem get_some_of_mem {V : Type} (m : List (String × V)) (k : String) (v : V)
    (hnd : (keys m).Nodup) (h : (k, v) ∈ m) : get m k = some v := by
  induction m with
  | nil => simp at h
  | cons p rest ih =>
    obtain ⟨k1, v1⟩ := p
    simp only [keys, List.map_cons, List.nodup_cons] at hnd
    rcases List.mem_cons.mp h with h1 | h1
    · injection h1 with hk hv
      subst hk
      subst hv
      simp [get]
    · have hk : k ∈ keys rest := by
        simp only [keys, List.mem_map]
        exact ⟨(k, v), h1, rfl⟩
      have hne : ¬ k1 = k := by
        intro e
        subst e
        exact hnd.1 hk
      simp [get, hne]
      exact ih hnd.2 h1

end GoMap

/-! ## Lemmas on the directory operations -/

theorem isMember_iff (s : Server) (roomName name : String) :
    isMember s roomName name ↔
      ∃ r, GoMap.get s.Rooms roomName = some r ∧ GoMap.get r.Clients name ≠ none := by
  unfold isMember memberConn
  cases GoMap.get s.Rooms roomName with
  | none => simp
  | some r => simp


theorem get_dropFromRoom (rooms : List (String × Room)) (currentRoom name x : String) :
    GoMap.get (dropFromRoom rooms currentRoom name) x =
      (GoMap.get rooms x).map fun r =>
        if x = currentRoom ∧ currentRoom ≠ "" then
          { r with Clients := GoMap.del r.Clients name }
        else r := by
  unfold dropFromRoom
  by_cases hc : currentRoom = ""
  · simp [hc]
  · simp only [ne_eq, hc, not_false_eq_true, if_true, and_true]
    cases hg : GoMap.get rooms currentRoom with
    | none =>
      by_cases hx : x = currentRoom
      · subst hx
        simp [hg]
      · simp [hx]
    | some old =>
      by_cases hx : x = currentRoom
      · subst hx
        simp [GoMap.get_put_self, hg]
      · simp [GoMap.get_put_ne _ _ _ _ hx, hx]

theorem keys_dropFromRoom (rooms : List (String × Room)) (currentRoom name : String) :
    GoMap.keys (dropFromRoom rooms currentRoom name) = GoMap.keys rooms := by
  unfold dropFromRoom
  by_cases hc : currentRoom = ""
  · simp [hc]
  · simp only [ne_eq, hc, not_false_eq_true, if_true]
    cases hg : GoMap.get rooms currentRoom with
    | none => rfl
    | some old => exact GoMap.keys_put_of_get_some _ _ _ _ hg

theorem JoinRoom_of_member (s : Server) (clientName roomName : String) (r : Room) (c : Client)
    (conn : Conn) (hr : GoMap.get s.Rooms roomName = some r)
    (hc : GoMap.get s.Clients clientName = some c)
    (hm : GoMap.get r.Clients clientName = some conn) :
    JoinRoom s clientName roomName = (s, none) := by
  simp [JoinRoom, hr, hc, hm]

/-- The state produced by the moving branch of `JoinRoom`. -/
theorem JoinRoom_of_not_member (s : Server) (clientName roomName : String) (r : Room)
    (c : Client) (hr : GoMap.get s.Rooms roomName = some r)
    (hc : GoMap.get s.Clients clientName = some c)
    (hm : GoMap.get r.Clients clientName = none) :
    ∃ r1, GoMap.get (dropFromRoom s.Rooms c.CurrentRoom clientName) roomName = some r1 ∧
      r1.Name = r.Name ∧ r1.Clients = r.Clients ∧
      JoinRoom s clientName roomName =
        ({ Rooms := GoMap.put (dropFromRoom s.Rooms c.CurrentRoom clientName) roomName
                      { r1 with Clients := GoMap.put r1.Clients clientName c.Conn },
           Clients := GoMap.put s.Clients clientName { c with CurrentRoom := roomName } },
         none) := by
  have hg := get_dropFromRoom s.Rooms c.CurrentRoom clientName roomName
  rw [hr] at hg
  simp only [Option.map_some'] at hg
  refine ⟨_, hg, ?_, ?_, ?_⟩
  · split <;> rfl
  · split
    · exact GoMap.del_of_get_none _ _ hm
    · rfl
  · simp [JoinRoom, hr, hc, hm, hg]

theorem AddClient_keeps_registered (s : Server) (name : String) (conn : Conn)
    (roomName n : String) (h : GoMap.get s.Clients n ≠ none) :
    GoMap.get (AddClient s name conn roomName).1.Clients n ≠ none := by
  unfold AddClient
  cases hr : GoMap.get s.Rooms roomName with
  | none => simpa using h
  | some r =>
    cases hc : GoMap.get s.Clients name with
    | some c => simpa using h
    | none =>
      have hne : n ≠ name := by
        intro e
        subst e
        exact h hc
      simpa [GoMap.get_put_ne _ _ _ _ hne] using h

theorem JoinRoom_keeps_registered (s : Server) (clientName roomName n : String)
    (h : GoMap.get s.Clients n ≠ none) :
    GoMap.get (JoinRoom s clientName roomName).1.Clients n ≠ none := by
  cases hr : GoMap.get s.Rooms roomName with
  | none => simpa [JoinRoom, hr] using h
  | some r =>
    cases hc : GoMap.get s.Clients clientName with
    | none => simpa [JoinRoom, hr, hc] using h
    | some c =>
      cases hm : GoMap.get r.Clients clientName with
      | some x => simpa [JoinRoom, hr, hc, hm] using h
      | none =>
        simp only [JoinRoom, hr, hc, hm, GoMap.get_put]
        split
        · simp
        · exact h

theorem LeaveRoom_keeps_registered (s : Server) (clientName n : String)
    (h : GoMap.get s.Clients n ≠ none) :
    GoMap.get (LeaveRoom s clientName).1.Clients n ≠ none := by
  cases hc : GoMap.get s.Clients clientName with
  | none => simpa [LeaveRoom, hc] using h
  | some c =>
    by_cases he : c.CurrentRoom = ""
    · simpa [LeaveRoom, hc, he] using h
    · cases hr : GoMap.get s.Rooms c.CurrentRoom with
      | none => simpa [LeaveRoom, hc, he, hr] using h
      | some r =>
        cases hm : GoMap.get r.Clients clientName with
        | none => simpa [LeaveRoom, hc, he, hr, hm] using h
        | some x =>
          simp only [LeaveRoom, hc, he, hr, hm, GoMap.get_put, if_false]
          split
          · simp
          · exact h

theorem createRoom_clients (roomName : String) (conn : Conn) (s : Server) :
    (createRoom roomName conn s).1.Clients = s.Clients := by
  unfold createRoom
  cases GoMap.get s.Rooms roomName <;> rfl

theorem run_keeps_registered (ops : List Op) (s : Server) (n : String)
    (hops : ∀ op ∈ ops, op.isRemove = false) (h : GoMap.get s.Clients n ≠ none) :
    GoMap.get (run s ops).Clients n ≠ none := by
  induction ops generalizing s with
  | nil => simpa [run] using h
  | cons op rest ih =>
    have hrest : ∀ o ∈ rest, o.isRemove = false := fun o ho => hops o (List.mem_cons_of_mem _ ho)
    have hop := hops op (List.mem_cons_self _ _)
    have hstep : GoMap.get (Op.apply s op).Clients n ≠ none := by
      cases op with
      | addClient name conn roomName => exact AddClient_keeps_registered s name conn roomName n h
      | removeClient name => simp [Op.isRemove] at hop
      | joinRoom clientName roomName => exact JoinRoom_keeps_registered s clientName roomName n h
      | leaveRoom clientName => exact LeaveRoom_keeps_registered s clientName n h
      | createRoom roomName conn =>
        simp only [Op.apply, createRoom_clients]
        exact h
    have := ih (Op.apply s op) hrest hstep
    simpa [run] using this

theorem AddClient_fails_of_registered (s : Server) (name : String) (conn : Conn)
    (roomName : String) (h : GoMap.get s.Clients name ≠ none) :
    (AddClient s name conn roomName).2 = .error errRoomNotFound ∨
      (AddClient s name conn roomName).2 = .error errClientExists := by
  unfold AddClient
  cases hr : GoMap.get s.Rooms roomName with
  | none => simp
  | some r =>
    cases hc : GoMap.get s.Clients name with
    | none => exact absurd hc h
    | some c => simp

theorem AddClient_registers (s : Server) (name : String) (conn : Conn) (roomName : String)
    (c : Client) (h : (AddClient s name conn roomName).2 = .ok c) :
    GoMap.get (AddClient s name conn roomName).1.Clients name ≠ none := by
  unfold AddClient at h ⊢
  cases hr : GoMap.get s.Rooms roomName with
  | none => simp [hr] at h
  | some r =>
    cases hc : GoMap.get s.Clients name with
    | some c0 => simp [hr, hc] at h
    | none => simp [GoMap.get_put_self]

/-! ## Establishing the invariants from the entries of the maps -/

theorem MembershipInv_of_entries (s : Server)
    (h1 : ∀ p ∈ s.Clients, p.2.CurrentRoom ≠ "" →
      (GoMap.get s.Rooms p.2.CurrentRoom).bind (fun r => GoMap.get r.Clients p.1)
        = some p.2.Conn)
    (h2 : ∀ p ∈ s.Clients, ∀ q ∈ s.Rooms, q.1 ≠ p.2.CurrentRoom ∨ p.2.CurrentRoom = "" →
      GoMap.get q.2.Clients p.1 = none)
    (h3 : ∀ q ∈ s.Rooms, ∀ m ∈ q.2.Clients,
      (GoMap.get s.Clients m.1).map Client.Conn = some m.2) :
    MembershipInv s := by
  refine ⟨?_, ?_, ?_, ?_⟩
  · intro name c hc hne
    have := h1 (name, c) (GoMap.mem_of_get_some _ _ _ hc) hne
    cases hg : GoMap.get s.Rooms c.CurrentRoom with
    | none => simp [hg] at this
    | some r =>
      simp only [hg, Option.some_bind] at this
      exact ⟨r, rfl, this⟩
  · intro name c roomName r hc hr hx
    exact h2 (name, c) (GoMap.mem_of_get_some _ _ _ hc) (roomName, r)
      (GoMap.mem_of_get_some _ _ _ hr) (Or.inl hx)
  · intro name c roomName r hc he hr
    exact h2 (name, c) (GoMap.mem_of_get_some _ _ _ hc) (roomName, r)
      (GoMap.mem_of_get_some _ _ _ hr) (Or.inr he)
  · intro roomName r name conn hr hm
    have := h3 (roomName, r) (GoMap.mem_of_get_some _ _ _ hr) (name, conn)
      (GoMap.mem_of_get_some _ _ _ hm)
    cases hg : GoMap.get s.Clients name with
    | none => simp [hg] at this
    | some c =>
      simp only [hg, Option.map_some', Option.some.injEq] at this
      exact ⟨c, rfl, this⟩

theorem WellFormed_of_entries (s : Server)
    (h1 : (GoMap.keys s.Rooms).Nodup) (h2 : (GoMap.keys s.Clients).Nodup)
    (h3 : ∀ q ∈ s.Rooms, (GoMap.keys q.2.Clients).Nodup)
    (h4 : ∀ p ∈ s.Clients, ∀ q ∈ s.Clients, p.2.Conn = q.2.Conn → p.1 = q.1) :
    WellFormed s := by
  refine ⟨h1, h2, ?_, ?_⟩
  · intro roomName r hr
    exact h3 (roomName, r) (GoMap.mem_of_get_some _ _ _ hr)
  · intro n1 c1 n2 c2 hc1 hc2 he
    exact h4 (n1, c1) (GoMap.mem_of_get_some _ _ _ hc1) (n2, c2)
      (GoMap.mem_of_get_some _ _ _ hc2) he

/-! ## Preservation of the membership invariant -/

theorem memberConn_eq_some (rooms : List (String × Room)) (x m : String) (k : Conn) :
    memberConn rooms x m = some k ↔
      ∃ r, GoMap.get rooms x = some r ∧ GoMap.get r.Clients m = some k := by
  unfold memberConn
  cases GoMap.get rooms x with
  | none => simp
  | some r => simp

theorem memberConn_eq_none (rooms : List (String × Room)) (x m : String) :
    memberConn rooms x m = none ↔
      ∀ r, GoMap.get rooms x = some r → GoMap.get r.Clients m = none := by
  unfold memberConn
  cases GoMap.get rooms x with
  | none => simp
  | some r => simp

/-- The membership invariant stated on the two observations of a directory:
the session stored under a name and the member entry of a name in a room. -/
theorem MembershipInv_iff (s : Server) :
    MembershipInv s ↔
      (∀ n c, GoMap.get s.Clients n = some c → c.CurrentRoom ≠ "" →
        memberConn s.Rooms c.CurrentRoom n = some c.Conn) ∧
      (∀ n c x, GoMap.get s.Clients n = some c → x ≠ c.CurrentRoom ∨ c.CurrentRoom = "" →
        memberConn s.Rooms x n = none) ∧
      (∀ x m k, memberConn s.Rooms x m = some k →
        ∃ c, GoMap.get s.Clients m = some c ∧ c.Conn = k) := by
  constructor
  · intro h
    refine ⟨?_, ?_, ?_⟩
    · intro n c hn hne
      exact (memberConn_eq_some _ _ _ _).mpr (h.inCurrent n c hn hne)
    · intro n c x hn hx
      refine (memberConn_eq_none _ _ _).mpr ?_
      intro r hr
      rcases hx with hx | hx
      · exact h.inNoOther n c x r hn hr hx
      · exact h.emptyInNone n c x r hn hx hr
    · intro x m k hk
      obtain ⟨r, hr, hm⟩ := (memberConn_eq_some _ _ _ _).mp hk
      exact h.registered x r m k hr hm
  · rintro ⟨h1, h2, h3⟩
    refine ⟨?_, ?_, ?_, ?_⟩
    · intro n c hn hne
      exact (memberConn_eq_some _ _ _ _).mp (h1 n c hn hne)
    · intro n c x r hn hr hx
      exact (memberConn_eq_none _ _ _).mp (h2 n c x hn (Or.inl hx)) r hr
    · intro n c x r hn he hr
      exact (memberConn_eq_none _ _ _).mp (h2 n c x hn (Or.inr he)) r hr
    · intro x r m k hr hm
      exact h3 x m k ((memberConn_eq_some _ _ _ _).mpr ⟨r, hr, hm⟩)

/-- An operation that only touches the session and the memberships of one name
keeps the membership invariant when that name ends up consistent. -/
theorem MembershipInv_update (s t : Server) (n : String) (hinv : MembershipInv s)
    (hC : ∀ m, m ≠ n → GoMap.get t.Clients m = GoMap.get s.Clients m)
    (hM : ∀ x m, m ≠ n → memberConn t.Rooms x m = memberConn s.Rooms x m)
    (hcur : ∀ c, GoMap.get t.Clients n = some c → c.CurrentRoom ≠ "" →
      memberConn t.Rooms c.CurrentRoom n = some c.Conn)
    (hother : ∀ c x, GoMap.get t.Clients n = some c → x ≠ c.CurrentRoom ∨ c.CurrentRoom = "" →
      memberConn t.Rooms x n = none)
    (hgone : GoMap.get t.Clients n = none → ∀ x, memberConn t.Rooms x n = none) :
    MembershipInv t := by
  obtain ⟨h1, h2, h3⟩ := (MembershipInv_iff s).mp hinv
  refine (MembershipInv_iff t).mpr ⟨?_, ?_, ?_⟩
  · intro m c hm hne
    by_cases hmn : m = n
    · subst hmn
      exact hcur c hm hne
    · rw [hM _ _ hmn]
      rw [hC _ hmn] at hm
      exact h1 m c hm hne
  · intro m c x hm hx
    by_cases hmn : m = n
    · subst hmn
      exact hother c x hm hx
    · rw [hM _ _ hmn]
      rw [hC _ hmn] at hm
      exact h2 m c x hm hx
  · intro x m k hk
    by_cases hmn : m = n
    · subst hmn
      cases hc : GoMap.get t.Clients m with
      | none =>
        rw [hgone hc x] at hk
        exact absurd hk (by simp)
      | some c =>
        refine ⟨c, rfl, ?_⟩
        by_cases hx : x ≠ c.CurrentRoom ∨ c.CurrentRoom = ""
        · rw [hother c x hc hx] at hk
          exact absurd hk (by simp)
        · have hx1 : x = c.CurrentRoom := by
            by_contra hne
            exact hx (Or.inl hne)
          have hx2 : c.CurrentRoom ≠ "" := fun e => hx (Or.inr e)
          have := hcur c hc hx2
          rw [← hx1, hk] at this
          injection this with this
          exact this.symm
    · rw [hM _ _ hmn] at hk
      rw [hC _ hmn]
      exact h3 x m k hk

theorem memberConn_put (rooms : List (String × Room)) (y x m : String) (r : Room) :
    memberConn (GoMap.put rooms y r) x m =
      if x = y then GoMap.get r.Clients m else memberConn rooms x m := by
  unfold memberConn
  rw [GoMap.get_put]
  split <;> rfl

theorem memberConn_dropFromRoom (rooms : List (String × Room)) (cr n x m : String) :
    memberConn (dropFromRoom rooms cr n) x m =
      if x = cr ∧ cr ≠ "" ∧ m = n then none else memberConn rooms x m := by
  unfold memberConn
  rw [get_dropFromRoom]
  cases GoMap.get rooms x with
  | none => simp
  | some r =>
    simp only [Option.map_some', Option.some_bind]
    by_cases h1 : x = cr ∧ cr ≠ ""
    · rw [if_pos h1, GoMap.get_del]
      by_cases h2 : m = n
      · simp [h1.1, h1.2, h2]
      · simp [h2]
    · rw [if_neg h1]
      have : ¬ (x = cr ∧ cr ≠ "" ∧ m = n) := fun h => h1 ⟨h.1, h.2.1⟩
      rw [if_neg this]

theorem RemoveClient_preserves (s : Server) (name : String) (hinv : MembershipInv s) :
    MembershipInv (RemoveClient s name).1 := by
  cases hc : GoMap.get s.Clients name with
  | none => simpa [RemoveClient, hc] using hinv
  | some c =>
    have hs : (RemoveClient s name).1 =
        { Rooms := dropFromRoom s.Rooms c.CurrentRoom name,
          Clients := GoMap.del s.Clients name } := by
      simp [RemoveClient, hc]
    rw [hs]
    obtain ⟨_, h2, _⟩ := (MembershipInv_iff s).mp hinv
    have hdel : GoMap.get (GoMap.del s.Clients name) name = none := GoMap.get_del_self _ _
    refine MembershipInv_update s _ name hinv ?_ ?_ ?_ ?_ ?_
    · intro m hm
      exact GoMap.get_del_ne _ _ _ hm
    · intro x m hm
      simp only [memberConn_dropFromRoom, hm, and_false, if_false]
    · intro c1 h1
      simp only [hdel] at h1
      exact absurd h1 (by simp)
    · intro c1 x h1
      simp only [hdel] at h1
      exact absurd h1 (by simp)
    · intro _ x
      simp only [memberConn_dropFromRoom]
      split
      · rfl
      · rename_i hcond
        refine h2 name c x hc ?_
        by_contra hx
        exact hcond ⟨by_contra fun e => hx (Or.inl e), fun e => hx (Or.inr e), trivial⟩

theorem LeaveRoom_preserves (s : Server) (name : String) (hinv : MembershipInv s) :
    MembershipInv (LeaveRoom s name).1 := by
  cases hc : GoMap.get s.Clients name with
  | none => simpa [LeaveRoom, hc] using hinv
  | some c =>
    by_cases he : c.CurrentRoom = ""
    · simpa [LeaveRoom, hc, he] using hinv
    · cases hr : GoMap.get s.Rooms c.CurrentRoom with
      | none => simpa [LeaveRoom, hc, he, hr] using hinv
      | some r =>
        cases hm : GoMap.get r.Clients name with
        | none => simpa [LeaveRoom, hc, he, hr, hm] using hinv
        | some k =>
          have hs : (LeaveRoom s name).1 =
              { Rooms := GoMap.put s.Rooms c.CurrentRoom
                           { r with Clients := GoMap.del r.Clients name },
                Clients := GoMap.put s.Clients name { c with CurrentRoom := "" } } := by
            simp [LeaveRoom, hc, he, hr, hm]
          rw [hs]
          obtain ⟨_, h2, _⟩ := (MembershipInv_iff s).mp hinv
          have hnone : ∀ x, memberConn (GoMap.put s.Rooms c.CurrentRoom
              { r with Clients := GoMap.del r.Clients name }) x name = none := by
            intro x
            rw [memberConn_put]
            split
            · exact GoMap.get_del_self _ _
            · rename_i hx
              exact h2 name c x hc (Or.inl hx)
          refine MembershipInv_update s _ name hinv ?_ ?_ ?_ ?_ ?_
          · intro m hmn
            exact GoMap.get_put_ne _ _ _ _ hmn
          · intro x m hmn
            simp only [memberConn_put]
            split
            · rename_i hx
              subst hx
              simp [memberConn, hr, GoMap.get_del_ne _ _ _ hmn]
            · rfl
          · intro c1 h1 hne
            simp only [GoMap.get_put_self, Option.some.injEq] at h1
            subst h1
            exact absurd rfl hne
          · intro c1 x _ _
            exact hnone x
          · intro _ x
            exact hnone x

theorem JoinRoom_preserves (s : Server) (name roomName : String) (hinv : MembershipInv s)
    (h0 : GoMap.get s.Rooms "" = none) :
    MembershipInv (JoinRoom s name roomName).1 := by
  cases hr : GoMap.get s.Rooms roomName with
  | none => simpa [JoinRoom, hr] using hinv
  | some r =>
    cases hc : GoMap.get s.Clients name with
    | none => simpa [JoinRoom, hr, hc] using hinv
    | some c =>
      cases hm : GoMap.get r.Clients name with
      | some k => simpa [JoinRoom, hr, hc, hm] using hinv
      | none =>
        have hroom : roomName ≠ "" := by
          intro e
          rw [e, h0] at hr
          exact absurd hr (by simp)
        obtain ⟨r1, hr1, _, hcl, hj⟩ := JoinRoom_of_not_member s name roomName r c hr hc hm
        rw [hj]
        obtain ⟨_, h2, _⟩ := (MembershipInv_iff s).mp hinv
        refine MembershipInv_update s _ name hinv ?_ ?_ ?_ ?_ ?_
        · intro m hmn
          exact GoMap.get_put_ne _ _ _ _ hmn
        · intro x m hmn
          simp only [memberConn_put, memberConn_dropFromRoom, hmn, and_false, if_false]
          split
          · rename_i hx
            subst hx
            simp [memberConn, hr, hcl, GoMap.get_put_ne _ _ _ _ hmn]
          · rfl
        · intro c1 h1 _
          simp only [GoMap.get_put_self, Option.some.injEq] at h1
          subst h1
          simp only [memberConn_put, if_true]
          exact GoMap.get_put_self _ _ _
        · intro c1 x h1 hx
          simp only [GoMap.get_put_self, Option.some.injEq] at h1
          subst h1
          have hxr : x ≠ roomName := by
            rcases hx with hx | hx
            · exact hx
            · exact absurd hx hroom
          simp only [memberConn_put, hxr, if_false, memberConn_dropFromRoom]
          split
          · rfl
          · rename_i hcond
            refine h2 name c x hc ?_
            by_contra hx2
            exact hcond ⟨by_contra fun e => hx2 (Or.inl e), fun e => hx2 (Or.inr e), trivial⟩
        · intro h1
          simp only [GoMap.get_put_self] at h1
          exact absurd h1 (by simp)

theorem AddClient_preserves (s : Server) (name : String) (conn : Conn) (roomName : String)
    (hinv : MembershipInv s) (h0 : GoMap.get s.Rooms "" = none) :
    MembershipInv (AddClient s name conn roomName).1 := by
  cases hr : GoMap.get s.Rooms roomName with
  | none => simpa [AddClient, hr] using hinv
  | some r =>
    cases hc : GoMap.get s.Clients name with
    | some c0 => simpa [AddClient, hr, hc] using hinv
    | none =>
      have hroom : roomName ≠ "" := by
        intro e
        rw [e, h0] at hr
        exact absurd hr (by simp)
      have hs : (AddClient s name conn roomName).1 =
          { Rooms := GoMap.put s.Rooms roomName
                       { r with Clients := GoMap.put r.Clients name conn },
            Clients := GoMap.put s.Clients name ⟨name, conn, roomName⟩ } := by
        simp [AddClient, hr, hc]
      rw [hs]
      obtain ⟨_, _, h3⟩ := (MembershipInv_iff s).mp hinv
      refine MembershipInv_update s _ name hinv ?_ ?_ ?_ ?_ ?_
      · intro m hmn
        exact GoMap.get_put_ne _ _ _ _ hmn
      · intro x m hmn
        simp only [memberConn_put]
        split
        · rename_i hx
          subst hx
          simp [memberConn, hr, GoMap.get_put_ne _ _ _ _ hmn]
        · rfl
      · intro c1 h1 _
        simp only [GoMap.get_put_self, Option.some.injEq] at h1
        subst h1
        simp only [memberConn_put, if_true]
        exact GoMap.get_put_self _ _ _
      · intro c1 x h1 hx
        simp only [GoMap.get_put_self, Option.some.injEq] at h1
        subst h1
        have hxr : x ≠ roomName := by
          rcases hx with hx | hx
          · exact hx
          · exact absurd hx hroom
        simp only [memberConn_put, hxr, if_false]
        cases hk : memberConn s.Rooms x name with
        | none => rfl
        | some k =>
          obtain ⟨c2, hc2, _⟩ := h3 x name k hk
          rw [hc] at hc2
          exact absurd hc2 (by simp)
      · intro h1
        simp only [GoMap.get_put_self] at h1
        exact absurd h1 (by simp)

theorem createRoom_preserves (roomName : String) (conn : Conn) (s : Server)
    (hinv : MembershipInv s) : MembershipInv (createRoom roomName conn s).1 := by
  cases hr : GoMap.get s.Rooms roomName with
  | some r => simpa [createRoom, hr] using hinv
  | none =>
    have hs : (createRoom roomName conn s).1 =
        { s with Rooms := GoMap.put s.Rooms roomName { Name := roomName, Clients := [] } } := by
      simp [createRoom, hr]
    rw [hs]
    have hM : ∀ x m, memberConn (GoMap.put s.Rooms roomName
        { Name := roomName, Clients := [] }) x m = memberConn s.Rooms x m := by
      intro x m
      rw [memberConn_put]
      split
      · rename_i hx
        subst hx
        simp [memberConn, hr, GoMap.get]
      · rfl
    obtain ⟨h1, h2, h3⟩ := (MembershipInv_iff s).mp hinv
    refine (MembershipInv_iff _).mpr ⟨?_, ?_, ?_⟩
    · intro n c hn hne
      rw [hM]
      exact h1 n c hn hne
    · intro n c x hn hx
      rw [hM]
      exact h2 n c x hn hx
    · intro x m k hk
      rw [hM] at hk
      exact h3 x m k hk

theorem dropFromRoom_absent (rooms : List (String × Room)) (cr n x : String)
    (h : GoMap.get rooms x = none) : GoMap.get (dropFromRoom rooms cr n) x = none := by
  rw [get_dropFromRoom, h]
  rfl

theorem put_absent {V : Type} (m : List (String × V)) (y x : String) (v w : V)
    (hy : GoMap.get m y = some w) (h : GoMap.get m x = none) :
    GoMap.get (GoMap.put m y v) x = none := by
  have hxy : x ≠ y := by
    intro e
    rw [e, hy] at h
    exact absurd h (by simp)
  rw [GoMap.get_put_ne _ _ _ _ hxy]
  exact h

theorem AddClient_absent (s : Server) (name : String) (conn : Conn) (roomName x : String)
    (h : GoMap.get s.Rooms x = none) :
    GoMap.get (AddClient s name conn roomName).1.Rooms x = none := by
  cases hr : GoMap.get s.Rooms roomName with
  | none => simpa [AddClient, hr] using h
  | some r =>
    cases hc : GoMap.get s.Clients name with
    | some c0 => simpa [AddClient, hr, hc] using h
    | none =>
      simp only [AddClient, hr, hc]
      exact put_absent _ _ _ _ _ hr h

theorem RemoveClient_absent (s : Server) (name x : String)
    (h : GoMap.get s.Rooms x = none) : GoMap.get (RemoveClient s name).1.Rooms x = none := by
  cases hc : GoMap.get s.Clients name with
  | none => simpa [RemoveClient, hc] using h
  | some c =>
    simp only [RemoveClient, hc]
    exact dropFromRoom_absent _ _ _ _ h

theorem JoinRoom_absent (s : Server) (name roomName x : String)
    (h : GoMap.get s.Rooms x = none) :
    GoMap.get (JoinRoom s name roomName).1.Rooms x = none := by
  cases hr : GoMap.get s.Rooms roomName with
  | none => simpa [JoinRoom, hr] using h
  | some r =>
    cases hc : GoMap.get s.Clients name with
    | none => simpa [JoinRoom, hr, hc] using h
    | some c =>
      cases hm : GoMap.get r.Clients name with
      | some k => simpa [JoinRoom, hr, hc, hm] using h
      | none =>
        obtain ⟨r1, hr1, _, _, hj⟩ := JoinRoom_of_not_member s name roomName r c hr hc hm
        rw [hj]
        exact put_absent _ _ _ _ _ hr1 (dropFromRoom_absent _ _ _ _ h)

theorem LeaveRoom_absent (s : Server) (name x : String)
    (h : GoMap.get s.Rooms x = none) : GoMap.get (LeaveRoom s name).1.Rooms x = none := by
  cases hc : GoMap.get s.Clients name with
  | none => simpa [LeaveRoom, hc] using h
  | some c =>
    by_cases he : c.CurrentRoom = ""
    · simpa [LeaveRoom, hc, he] using h
    · cases hr : GoMap.get s.Rooms c.CurrentRoom with
      | none => simpa [LeaveRoom, hc, he, hr] using h
      | some r =>
        cases hm : GoMap.get r.Clients name with
        | none => simpa [LeaveRoom, hc, he, hr, hm] using h
        | some k =>
          simp only [LeaveRoom, hc, he, hr, hm, if_false]
          exact put_absent _ _ _ _ _ hr h

theorem createRoom_absent (roomName : String) (conn : Conn) (s : Server) (x : String)
    (hx : roomName ≠ x) (h : GoMap.get s.Rooms x = none) :
    GoMap.get (createRoom roomName conn s).1.Rooms x = none := by
  cases hr : GoMap.get s.Rooms roomName with
  | some r => simpa [createRoom, hr] using h
  | none =>
    simp only [createRoom, hr]
    rw [GoMap.get_put_ne _ _ _ _ (Ne.symm hx)]
    exact h

/-- Every operation keeps the membership invariant and the absence of a room
named by the empty string, unless it creates a room under the empty name. -/
theorem Op_apply_preserves (s : Server) (op : Op) (hop : op.namesEmptyRoom = false)
    (hinv : MembershipInv s) (h0 : GoMap.get s.Rooms "" = none) :
    MembershipInv (Op.apply s op) ∧ GoMap.get (Op.apply s op).Rooms "" = none := by
  cases op with
  | addClient name conn roomName =>
    exact ⟨AddClient_preserves s name conn roomName hinv h0, AddClient_absent s _ _ _ _ h0⟩
  | removeClient name =>
    exact ⟨RemoveClient_preserves s name hinv, RemoveClient_absent s _ _ h0⟩
  | joinRoom clientName roomName =>
    exact ⟨JoinRoom_preserves s clientName roomName hinv h0, JoinRoom_absent s _ _ _ h0⟩
  | leaveRoom clientName =>
    exact ⟨LeaveRoom_preserves s clientName hinv, LeaveRoom_absent s _ _ h0⟩
  | createRoom roomName conn =>
    have hne : roomName ≠ "" := by
      simpa [Op.namesEmptyRoom] using hop
    exact ⟨createRoom_preserves roomName conn s hinv, createRoom_absent roomName conn s "" hne h0⟩

theorem run_preserves (ops : List Op) (s : Server)
    (hops : ∀ op ∈ ops, op.namesEmptyRoom = false)
    (hinv : MembershipInv s) (h0 : GoMap.get s.Rooms "" = none) :
    MembershipInv (run s ops) ∧ GoMap.get (run s ops).Rooms "" = none := by
  induction ops generalizing s with
  | nil => exact ⟨hinv, h0⟩
  | cons op rest ih =>
    obtain ⟨h1, h2⟩ := Op_apply_preserves s op (hops op (List.mem_cons_self _ _)) hinv h0
    exact ih (Op.apply s op) (fun o ho => hops o (List.mem_cons_of_mem _ ho)) h1 h2

theorem MembershipNames_of_touches (s t : Server) (n : String) (hinv : MembershipNames s)
    (ht : Touches s t n) : MembershipNames t := by
  refine ⟨?_, ?_, ?_, ?_⟩
  · intro m c hm hne
    unfold isMember
    by_cases hmn : m = n
    · subst hmn
      rw [ht.current c hm hne]
      simp
    · rw [ht.members _ _ hmn]
      rw [ht.clients _ hmn] at hm
      exact hinv.inCurrent m c hm hne
  · intro m c x hm hx
    unfold isMember
    by_cases hmn : m = n
    · subst hmn
      rw [ht.others c x hm (Or.inl hx)]
      simp
    · rw [ht.members _ _ hmn]
      rw [ht.clients _ hmn] at hm
      exact hinv.inNoOther m c x hm hx
  · intro m c x hm he
    unfold isMember
    by_cases hmn : m = n
    · subst hmn
      rw [ht.others c x hm (Or.inr he)]
      simp
    · rw [ht.members _ _ hmn]
      rw [ht.clients _ hmn] at hm
      exact hinv.emptyInNone m c x hm he
  · intro x m hmem
    unfold isMember at hmem
    by_cases hmn : m = n
    · subst hmn
      intro hnone
      exact hmem (ht.gone hnone x)
    · rw [ht.members _ _ hmn] at hmem
      rw [ht.clients _ hmn]
      exact hinv.registered x m hmem

theorem MembershipInv_of_touches (s t : Server) (n : String) (hinv : MembershipInv s)
    (ht : Touches s t n) : MembershipInv t :=
  MembershipInv_update s t n hinv ht.clients ht.members ht.current ht.others ht.gone

theorem OnlyInCurrent_of_names (s : Server) (n : String) (hinv : MembershipNames s) :
    OnlyInCurrent s n := by
  intro c x hc hx
  by_contra hne
  rcases hx with hx | hx
  · exact hinv.inNoOther n c x hc hx hne
  · exact hinv.emptyInNone n c x hc hx hne

theorem fresh_of_names (s : Server) (n : String) (hinv : MembershipNames s)
    (hc : GoMap.get s.Clients n = none) (x : String) : memberConn s.Rooms x n = none := by
  by_contra hne
  exact hinv.registered x n hne hc

theorem RemoveClient_touches (s : Server) (name : String) (h2 : OnlyInCurrent s name) :
    (RemoveClient s name).1 = s ∨ Touches s (RemoveClient s name).1 name := by
  cases hc : GoMap.get s.Clients name with
  | none =>
    left
    simp [RemoveClient, hc]
  | some c =>
    right
    have hs : (RemoveClient s name).1 =
        { Rooms := dropFromRoom s.Rooms c.CurrentRoom name,
          Clients := GoMap.del s.Clients name } := by
      simp [RemoveClient, hc]
    rw [hs]
    have hdel : GoMap.get (GoMap.del s.Clients name) name = none := GoMap.get_del_self _ _
    refine ⟨?_, ?_, ?_, ?_, ?_⟩
    · intro m hm
      exact GoMap.get_del_ne _ _ _ hm
    · intro x m hm
      simp only [memberConn_dropFromRoom, hm, and_false, if_false]
    · intro c1 h1
      simp only [hdel] at h1
      exact absurd h1 (by simp)
    · intro c1 x h1
      simp only [hdel] at h1
      exact absurd h1 (by simp)
    · intro _ x
      simp only [memberConn_dropFromRoom]
      split
      · rfl
      · rename_i hcond
        refine h2 c x hc ?_
        by_contra hx
        exact hcond ⟨by_contra fun e => hx (Or.inl e), fun e => hx (Or.inr e), trivial⟩

theorem LeaveRoom_touches (s : Server) (name : String) (h2 : OnlyInCurrent s name) :
    (LeaveRoom s name).1 = s ∨ Touches s (LeaveRoom s name).1 name := by
  cases hc : GoMap.get s.Clients name with
  | none =>
    left
    simp [LeaveRoom, hc]
  | some c =>
    by_cases he : c.CurrentRoom = ""
    · left
      simp [LeaveRoom, hc, he]
    · cases hr : GoMap.get s.Rooms c.CurrentRoom with
      | none =>
        left
        simp [LeaveRoom, hc, he, hr]
      | some r =>
        cases hm : GoMap.get r.Clients name with
        | none =>
          left
          simp [LeaveRoom, hc, he, hr, hm]
        | some k =>
          right
          have hs : (LeaveRoom s name).1 =
              { Rooms := GoMap.put s.Rooms c.CurrentRoom
                           { r with Clients := GoMap.del r.Clients name },
                Clients := GoMap.put s.Clients name { c with CurrentRoom := "" } } := by
            simp [LeaveRoom, hc, he, hr, hm]
          rw [hs]
          have hnone : ∀ x, memberConn (GoMap.put s.Rooms c.CurrentRoom
              { r with Clients := GoMap.del r.Clients name }) x name = none := by
            intro x
            rw [memberConn_put]
            split
            · exact GoMap.get_del_self _ _
            · rename_i hx
              exact h2 c x hc (Or.inl hx)
          refine ⟨?_, ?_, ?_, ?_, ?_⟩
          · intro m hmn
            exact GoMap.get_put_ne _ _ _ _ hmn
          · intro x m hmn
            simp only [memberConn_put]
            split
            · rename_i hx
              subst hx
              simp [memberConn, hr, GoMap.get_del_ne _ _ _ hmn]
            · rfl
          · intro c1 h1 hne
            simp only [GoMap.get_put_self, Option.some.injEq] at h1
            subst h1
            exact absurd rfl hne
          · intro c1 x _ _
            exact hnone x
          · intro _ x
            exact hnone x

theorem JoinRoom_touches_named (s : Server) (name roomName : String)
    (h2 : OnlyInCurrent s name) (hroom : roomName ≠ "") :
    (JoinRoom s name roomName).1 = s ∨ Touches s (JoinRoom s name roomName).1 name := by
  cases hr : GoMap.get s.Rooms roomName with
  | none =>
    left
    simp [JoinRoom, hr]
  | some r =>
    cases hc : GoMap.get s.Clients name with
    | none =>
      left
      simp [JoinRoom, hr, hc]
    | some c =>
      cases hm : GoMap.get r.Clients name with
      | some k =>
        left
        simp [JoinRoom, hr, hc, hm]
      | none =>
        right
        obtain ⟨r1, hr1, _, hcl, hj⟩ := JoinRoom_of_not_member s name roomName r c hr hc hm
        rw [hj]
        refine ⟨?_, ?_, ?_, ?_, ?_⟩
        · intro m hmn
          exact GoMap.get_put_ne _ _ _ _ hmn
        · intro x m hmn
          simp only [memberConn_put, memberConn_dropFromRoom, hmn, and_false, if_false]
          split
          · rename_i hx
            subst hx
            simp [memberConn, hr, hcl, GoMap.get_put_ne _ _ _ _ hmn]
          · rfl
        · intro c1 h1 _
          simp only [GoMap.get_put_self, Option.some.injEq] at h1
          subst h1
          simp only [memberConn_put, if_true]
          exact GoMap.get_put_self _ _ _
        · intro c1 x h1 hx
          simp only [GoMap.get_put_self, Option.some.injEq] at h1
          subst h1
          have hxr : x ≠ roomName := by
            rcases hx with hx | hx
            · exact hx
            · exact absurd hx hroom
          simp only [memberConn_put, hxr, if_false, memberConn_dropFromRoom]
          split
          · rfl
          · rename_i hcond
            refine h2 c x hc ?_
            by_contra hx2
            exact hcond ⟨by_contra fun e => hx2 (Or.inl e), fun e => hx2 (Or.inr e), trivial⟩
        · intro h1
          simp only [GoMap.get_put_self] at h1
          exact absurd h1 (by simp)

theorem JoinRoom_touches (s : Server) (name roomName : String) (h2 : OnlyInCurrent s name)
    (h0 : GoMap.get s.Rooms "" = none) :
    (JoinRoom s name roomName).1 = s ∨ Touches s (JoinRoom s name roomName).1 name := by
  by_cases hroom : roomName = ""
  · left
    subst hroom
    simp [JoinRoom, h0]
  · exact JoinRoom_touches_named s name roomName h2 hroom

theorem AddClient_touches (s : Server) (name : String) (conn : Conn) (roomName : String)
    (hfresh : GoMap.get s.Clients name = none → ∀ x, memberConn s.Rooms x name = none)
    (h0 : GoMap.get s.Rooms "" = none) :
    (AddClient s name conn roomName).1 = s ∨
      Touches s (AddClient s name conn roomName).1 name := by
  cases hr : GoMap.get s.Rooms roomName with
  | none =>
    left
    simp [AddClient, hr]
  | some r =>
    cases hc : GoMap.get s.Clients name with
    | some c0 =>
      left
      simp [AddClient, hr, hc]
    | none =>
      right
      have hroom : roomName ≠ "" := by
        intro e
        rw [e, h0] at hr
        exact absurd hr (by simp)
      have hs : (AddClient s name conn roomName).1 =
          { Rooms := GoMap.put s.Rooms roomName
                       { r with Clients := GoMap.put r.Clients name conn },
            Clients := GoMap.put s.Clients name ⟨name, conn, roomName⟩ } := by
        simp [AddClient, hr, hc]
      rw [hs]
      refine ⟨?_, ?_, ?_, ?_, ?_⟩
      · intro m hmn
        exact GoMap.get_put_ne _ _ _ _ hmn
      · intro x m hmn
        simp only [memberConn_put]
        split
        · rename_i hx
          subst hx
          simp [memberConn, hr, GoMap.get_put_ne _ _ _ _ hmn]
        · rfl
      · intro c1 h1 _
        simp only [GoMap.get_put_self, Option.some.injEq] at h1
        subst h1
        simp only [memberConn_put, if_true]
        exact GoMap.get_put_self _ _ _
      · intro c1 x h1 hx
        simp only [GoMap.get_put_self, Option.some.injEq] at h1
        subst h1
        have hxr : x ≠ roomName := by
          rcases hx with hx | hx
          · exact hx
          · exact absurd hx hroom
        simp only [memberConn_put, hxr, if_false]
        exact hfresh hc x
      · intro h1
        simp only [GoMap.get_put_self] at h1
        exact absurd h1 (by simp)

theorem MembershipNames_of_inv (s : Server) (hinv : MembershipInv s) : MembershipNames s := by
  obtain ⟨h1, h2, h3⟩ := (MembershipInv_iff s).mp hinv
  refine ⟨?_, ?_, ?_, ?_⟩
  · intro n c hn hne
    unfold isMember
    rw [h1 n c hn hne]
    simp
  · intro n c x hn hx
    unfold isMember
    rw [h2 n c x hn (Or.inl hx)]
    simp
  · intro n c x hn he
    unfold isMember
    rw [h2 n c x hn (Or.inr he)]
    simp
  · intro x m hmem
    unfold isMember at hmem
    cases hk : memberConn s.Rooms x m with
    | none => exact absurd hk hmem
    | some k =>
      obtain ⟨c, hc, _⟩ := h3 x m k hk
      rw [hc]
      simp

theorem names_step (s t : Server) (n : String) (hinv : MembershipNames s)
    (h : t = s ∨ Touches s t n) : MembershipNames t := by
  rcases h with h | h
  · rw [h]
    exact hinv
  · exact MembershipNames_of_touches s t n hinv h

/-! ## Rooms stay in the directory; what a command does to it -/

theorem put_present {V : Type} (m : List (String × V)) (k x : String) (v : V)
    (hx : GoMap.get m x ≠ none) : GoMap.get (GoMap.put m k v) x ≠ none := by
  rw [GoMap.get_put]
  split
  · simp
  · exact hx

theorem dropFromRoom_present (rooms : List (String × Room)) (cr n x : String)
    (hx : GoMap.get rooms x ≠ none) : GoMap.get (dropFromRoom rooms cr n) x ≠ none := by
  rw [get_dropFromRoom]
  cases h : GoMap.get rooms x with
  | none => exact absurd h hx
  | some r => simp

theorem AddClient_present (s : Server) (name : String) (conn : Conn) (roomName x : String)
    (hx : GoMap.get s.Rooms x ≠ none) :
    GoMap.get (AddClient s name conn roomName).1.Rooms x ≠ none := by
  cases hr : GoMap.get s.Rooms roomName with
  | none => simpa [AddClient, hr] using hx
  | some r =>
    cases hc : GoMap.get s.Clients name with
    | some c0 => simpa [AddClient, hr, hc] using hx
    | none =>
      simp only [AddClient, hr, hc]
      exact put_present _ _ _ _ hx

theorem RemoveClient_present (s : Server) (name x : String)
    (hx : GoMap.get s.Rooms x ≠ none) :
    GoMap.get (RemoveClient s name).1.Rooms x ≠ none := by
  cases hc : GoMap.get s.Clients name with
  | none => simpa [RemoveClient, hc] using hx
  | some c =>
    simp only [RemoveClient, hc]
    exact dropFromRoom_present _ _ _ _ hx

theorem JoinRoom_present (s : Server) (name roomName x : String)
    (hx : GoMap.get s.Rooms x ≠ none) :
    GoMap.get (JoinRoom s name roomName).1.Rooms x ≠ none := by
  cases hr : GoMap.get s.Rooms roomName with
  | none => simpa [JoinRoom, hr] using hx
  | some r =>
    cases hc : GoMap.get s.Clients name with
    | none => simpa [JoinRoom, hr, hc] using hx
    | some c =>
      cases hm : GoMap.get r.Clients name with
      | some k => simpa [JoinRoom, hr, hc, hm] using hx
      | none =>
        obtain ⟨r1, _, _, _, hj⟩ := JoinRoom_of_not_member s name roomName r c hr hc hm
        rw [hj]
        exact put_present _ _ _ _ (dropFromRoom_present _ _ _ _ hx)

theorem LeaveRoom_present (s : Server) (name x : String)
    (hx : GoMap.get s.Rooms x ≠ none) :
    GoMap.get (LeaveRoom s name).1.Rooms x ≠ none := by
  cases hc : GoMap.get s.Clients name with
  | none => simpa [LeaveRoom, hc] using hx
  | some c =>
    by_cases he : c.CurrentRoom = ""
    · simpa [LeaveRoom, hc, he] using hx
    · cases hr : GoMap.get s.Rooms c.CurrentRoom with
      | none => simpa [LeaveRoom, hc, he, hr] using hx
      | some r =>
        cases hm : GoMap.get r.Clients name with
        | none => simpa [LeaveRoom, hc, he, hr, hm] using hx
        | some k =>
          simp only [LeaveRoom, hc, he, hr, hm, if_false]
          exact put_present _ _ _ _ hx

theorem createRoom_present (roomName : String) (conn : Conn) (s : Server) (x : String)
    (hx : GoMap.get s.Rooms x ≠ none) :
    GoMap.get (createRoom roomName conn s).1.Rooms x ≠ none := by
  cases hr : GoMap.get s.Rooms roomName with
  | some r => simpa [createRoom, hr] using hx
  | none =>
    simp only [createRoom, hr]
    exact put_present _ _ _ _ hx

theorem Op_present (s : Server) (o : Op) (x : String) (hx : GoMap.get s.Rooms x ≠ none) :
    GoMap.get (Op.apply s o).Rooms x ≠ none := by
  cases o with
  | addClient name conn roomName => exact AddClient_present s name conn roomName x hx
  | removeClient name => exact RemoveClient_present s name x hx
  | joinRoom clientName roomName => exact JoinRoom_present s clientName roomName x hx
  | leaveRoom clientName => exact LeaveRoom_present s clientName x hx
  | createRoom roomName conn => exact createRoom_present roomName conn s x hx

theorem cmdJoin_server (parts : List String) (username : String) (conn : Conn) (s : Server) :
    (cmdJoin parts username conn s).server = s ∨
      ∃ roomName, (cmdJoin parts username conn s).server =
        (JoinRoom (createRoom roomName conn s).1 username roomName).1 := by
  unfold cmdJoin
  split
  · rename_i roomName _
    right
    refine ⟨roomName, ?_⟩
    simp only
    split
    · rfl
    · split <;> rfl
  · left
    rfl

theorem cmdLeave_server (username : String) (conn : Conn) (s : Server) :
    (cmdLeave username conn s).server = s ∨
      (cmdLeave username conn s).server = (LeaveRoom s username).1 := by
  unfold cmdLeave
  split
  · left
    rfl
  · simp only
    split
    · left
      rfl
    · right
      split <;> rfl

theorem cmdWho_server (username : String) (conn : Conn) (s : Server) :
    (cmdWho username conn s).server = s := by
  unfold cmdWho
  split
  · rfl
  · simp only
    split
    · rfl
    · split <;> rfl

theorem cmdQuit_server (username : String) (conn : Conn) (s : Server) :
    (cmdQuit username conn s).server = s ∨
      (cmdQuit username conn s).server = (RemoveClient s username).1 := by
  unfold cmdQuit
  split
  · left
    rfl
  · right
    rfl

/-- The directory after a command line is the directory before, or the result
of the one mutation the command performs. -/
theorem handleCommand_server (command username : String) (conn : Conn) (s : Server) :
    (handleCommand command username conn s).server = s ∨
    (∃ roomName, (handleCommand command username conn s).server =
      (JoinRoom (createRoom roomName conn s).1 username roomName).1) ∨
    (handleCommand command username conn s).server = (LeaveRoom s username).1 ∨
    (handleCommand command username conn s).server = (RemoveClient s username).1 := by
  unfold handleCommand
  simp only
  split
  · left
    rfl
  · split
    · rcases cmdJoin_server (Split command) username conn s with h | h
      · exact Or.inl h
      · exact Or.inr (Or.inl h)
    · split
      · rcases cmdLeave_server username conn s with h | h
        · exact Or.inl h
        · exact Or.inr (Or.inr (Or.inl h))
      · split
        · exact Or.inl (cmdWho_server username conn s)
        · split
          · left
            rfl
          · split
            · rcases cmdQuit_server username conn s with h | h
              · exact Or.inl h
              · exact Or.inr (Or.inr (Or.inr h))
            · left
              rfl

theorem handleCommand_present (command username : String) (conn : Conn) (s : Server)
    (x : String) (hx : GoMap.get s.Rooms x ≠ none) :
    GoMap.get (handleCommand command username conn s).server.Rooms x ≠ none := by
  rcases handleCommand_server command username conn s with h | ⟨roomName, h⟩ | h | h
  · rw [h]
    exact hx
  · rw [h]
    exact JoinRoom_present _ _ _ _ (createRoom_present _ _ _ _ hx)
  · rw [h]
    exact LeaveRoom_present _ _ _ hx
  · rw [h]
    exact RemoveClient_present _ _ _ hx

theorem Action_present (s : Server) (a : Action) (x : String)
    (hx : GoMap.get s.Rooms x ≠ none) : GoMap.get (Action.apply s a).Rooms x ≠ none := by
  cases a with
  | op o => exact Op_present s o x hx
  | command line username conn => exact handleCommand_present line username conn s x hx
  | broadcast clientName message => exact hx

theorem runActions_present (actions : List Action) (s : Server) (x : String)
    (hx : GoMap.get s.Rooms x ≠ none) : GoMap.get (runActions s actions).Rooms x ≠ none := by
  induction actions generalizing s with
  | nil => exact hx
  | cons a rest ih => exact ih (Action.apply s a) (Action_present s a x hx)

theorem handleClientStep_present (phase : Phase) (input : ReadResult) (conn : Conn)
    (s : Server) (x : String) (hx : GoMap.get s.Rooms x ≠ none) :
    GoMap.get (handleClientStep phase input conn s).2.server.Rooms x ≠ none := by
  cases phase with
  | handshake =>
    cases input with
    | err => exact hx
    | data text =>
      simp only [handleClientStep, handshakeStep]
      split
      · exact hx
      · have := AddClient_present s (TrimSpace text) conn "general" x hx
        split
        · rename_i s1 e heq
          rw [heq] at this
          exact this
        · rename_i s1 c heq
          rw [heq] at this
          exact this
  | active username =>
    cases input with
    | err => exact RemoveClient_present s username x hx
    | data text =>
      simp only [handleClientStep, messageLoopStep, messageLoopData]
      split
      · exact hx
      · split
        · exact handleCommand_present _ _ _ _ _ hx
        · exact hx
  | returned => exact hx

theorem System_step_present (sys : System) (conn : Conn) (input : ReadResult) (x : String)
    (hx : GoMap.get sys.server.Rooms x ≠ none) :
    GoMap.get (sys.step conn input).server.Rooms x ≠ none := by
  unfold System.step
  split
  · exact hx
  · exact handleClientStep_present _ _ _ _ _ hx

theorem System_run_present (schedule : List (Conn × ReadResult)) (sys : System) (x : String)
    (hx : GoMap.get sys.server.Rooms x ≠ none) :
    GoMap.get (sys.run schedule).server.Rooms x ≠ none := by
  induction schedule generalizing sys with
  | nil => exact hx
  | cons p rest ih => exact ih (sys.step p.1 p.2) (System_step_present sys p.1 p.2 x hx)

/-! ## The `/join` command -/

theorem splitSpaces_no_space (l : List Char) (h : ' ' ∉ l) : splitSpaces l = [l] := by
  induction l with
  | nil => rfl
  | cons c cs ih =>
    have hc : c ≠ ' ' := fun e => h (by simp [e])
    have hcs : ' ' ∉ cs := fun e => h (List.mem_cons_of_mem _ e)
    simp [splitSpaces, hc, ih hcs]

theorem Split_join_line (R : String) (hR : ' ' ∉ R.data) :
    Split ("/join " ++ R) = ["/join", R] := by
  have h1 : ("/join " ++ R).data = '/' :: 'j' :: 'o' :: 'i' :: 'n' :: ' ' :: R.data := by
    rw [String.data_append]
    rfl
  unfold Split
  rw [h1]
  simp only [splitSpaces, splitSpaces_no_space R.data hR]
  simp

theorem handleCommand_join_line (R username : String) (conn : Conn) (s : Server)
    (hR : ' ' ∉ R.data) :
    handleCommand ("/join " ++ R) username conn s = cmdJoin ["/join", R] username conn s := by
  unfold handleCommand
  rw [Split_join_line R hR]
  have h1 : ¬ (("/join" : String) = "/rooms") := by decide
  simp [h1]

theorem memberConn_createRoom (roomName : String) (conn : Conn) (s : Server) (x m : String) :
    memberConn (createRoom roomName conn s).1.Rooms x m = memberConn s.Rooms x m := by
  cases hr : GoMap.get s.Rooms roomName with
  | some r => simp [createRoom, hr]
  | none =>
    simp only [createRoom, hr]
    rw [memberConn_put]
    split
    · rename_i hx
      subst hx
      simp [memberConn, hr, GoMap.get]
    · rfl

theorem createRoom_exists (roomName : String) (conn : Conn) (s : Server) :
    GoMap.get (createRoom roomName conn s).1.Rooms roomName ≠ none := by
  cases hr : GoMap.get s.Rooms roomName with
  | some r => simp [createRoom, hr]
  | none => simp [createRoom, hr, GoMap.get_put_self]

theorem JoinRoom_ok (s : Server) (clientName roomName : String)
    (hr : GoMap.get s.Rooms roomName ≠ none) (hc : GoMap.get s.Clients clientName ≠ none) :
    (JoinRoom s clientName roomName).2 = none := by
  cases hr1 : GoMap.get s.Rooms roomName with
  | none => exact absurd hr1 hr
  | some r =>
    cases hc1 : GoMap.get s.Clients clientName with
    | none => exact absurd hc1 hc
    | some c =>
      cases hm : GoMap.get r.Clients clientName with
      | some k => simp [JoinRoom, hr1, hc1, hm]
      | none => simp [JoinRoom, hr1, hc1, hm]

/-- What the `/join` case does for a registered user. -/
theorem cmdJoin_registered (s : Server) (username R : String) (conn : Conn) (c : Client)
    (hc : GoMap.get s.Clients username = some c) :
    ∃ room, GoMap.get (JoinRoom (createRoom R conn s).1 username R).1.Rooms R = some room ∧
      cmdJoin ["/join", R] username conn s =
        { server := (JoinRoom (createRoom R conn s).1 username R).1,
          events := (createRoom R conn s).2
            ++ [Event.write conn ("--- Joined room: " ++ R ++ " ---\n"),
                Event.write conn ("Users in room (" ++ fmtInt room.Clients.length ++ "):\n")]
            ++ memberLines room.Clients username conn
            ++ [Event.write conn "------------------------\n"]
            ++ writeToOthers room.Clients username ("*** " ++ username ++ " joined the room ***\n"),
          panicked := false } := by
  have hreg : GoMap.get (createRoom R conn s).1.Clients username ≠ none := by
    rw [createRoom_clients, hc]
    simp
  have hok := JoinRoom_ok (createRoom R conn s).1 username R (createRoom_exists R conn s) hreg
  have hpres := JoinRoom_present (createRoom R conn s).1 username R R (createRoom_exists R conn s)
  cases hroom : GoMap.get (JoinRoom (createRoom R conn s).1 username R).1.Rooms R with
  | none => exact absurd hroom hpres
  | some room =>
    refine ⟨room, rfl, ?_⟩
    simp only [cmdJoin, hok, hroom]

/-- In a state satisfying the membership invariant, a session that is a member of
a room has that room as its `CurrentRoom`. -/
theorem current_of_member (s : Server) (n x : String) (c : Client) (k : Conn)
    (hinv : MembershipNames s) (hc : GoMap.get s.Clients n = some c)
    (hm : memberConn s.Rooms x n = some k) : c.CurrentRoom = x := by
  have hmem : isMember s x n := by
    unfold isMember
    rw [hm]
    simp
  by_contra hne
  exact hinv.inNoOther n c x hc (fun e => hne e.symm) hmem

theorem JoinRoom_sets_current (s : Server) (n R : String) (c : Client)
    (hc : GoMap.get s.Clients n = some c) (hr : GoMap.get s.Rooms R ≠ none)
    (hcons : ∀ k, memberConn s.Rooms R n = some k → c.CurrentRoom = R) :
    GoMap.get (JoinRoom s n R).1.Clients n = some { c with CurrentRoom := R } := by
  cases hr1 : GoMap.get s.Rooms R with
  | none => exact absurd hr1 hr
  | some r =>
    cases hm : GoMap.get r.Clients n with
    | some k =>
      have : c.CurrentRoom = R := hcons k (by simp [memberConn, hr1, hm])
      rw [JoinRoom_of_member s n R r c k hr1 hc hm, hc]
      cases c
      simp at this
      simp [this]
    | none =>
      obtain ⟨r1, _, _, _, hj⟩ := JoinRoom_of_not_member s n R r c hr1 hc hm
      rw [hj]
      exact GoMap.get_put_self _ _ _

theorem tab_line_data (R : String) :
    ("/join\t" ++ R).data = '/' :: 'j' :: 'o' :: 'i' :: 'n' :: '\t' :: R.data := by
  rw [String.data_append]
  rfl

theorem Split_tab_line (R : String) (hR : ' ' ∉ R.data) :
    Split ("/join\t" ++ R) = ["/join\t" ++ R] := by
  unfold Split
  rw [splitSpaces_no_space]
  · rfl
  · rw [tab_line_data]
    simp [hR]

theorem tab_line_no_command (R w : String)
    (hw : w ∈ ["/rooms", "/join", "/leave", "/who", "/help", "/quit"]) :
    "/join\t" ++ R ≠ w := by
  intro e
  have hd := congrArg String.data e
  rw [tab_line_data] at hd
  simp only [List.mem_cons, List.mem_singleton, List.not_mem_nil, or_false] at hw
  rcases hw with h | h | h | h | h | h <;> rw [h] at hd <;> simp at hd

theorem handleCommand_tab_line (R username : String) (conn : Conn) (s : Server)
    (hR : ' ' ∉ R.data) :
    handleCommand ("/join\t" ++ R) username conn s =
      { server := s,
        events := [Event.write conn "[Error] Unknown command\n",
                   Event.write conn "Type /help for available commands\n"],
        panicked := false } := by
  unfold handleCommand
  rw [Split_tab_line R hR]
  have h1 := tab_line_no_command R "/rooms" (by simp)
  have h2 := tab_line_no_command R "/join" (by simp)
  have h3 := tab_line_no_command R "/leave" (by simp)
  have h4 := tab_line_no_command R "/who" (by simp)
  have h5 := tab_line_no_command R "/help" (by simp)
  have h6 := tab_line_no_command R "/quit" (by simp)
  simp [h1, h2, h3, h4, h5, h6]

theorem createRoom_names (roomName : String) (conn : Conn) (s : Server)
    (hinv : MembershipNames s) : MembershipNames (createRoom roomName conn s).1 := by
  constructor
  · intro name c hc hne
    rw [createRoom_clients] at hc
    unfold isMember
    rw [memberConn_createRoom]
    exact hinv.inCurrent name c hc hne
  · intro name c x hc hx
    rw [createRoom_clients] at hc
    unfold isMember
    rw [memberConn_createRoom]
    exact hinv.inNoOther name c x hc hx
  · intro name c x hc he
    rw [createRoom_clients] at hc
    unfold isMember
    rw [memberConn_createRoom]
    exact hinv.emptyInNone name c x hc he
  · intro x name hm
    rw [createRoom_clients]
    unfold isMember at hm
    rw [memberConn_createRoom] at hm
    exact hinv.registered x name hm

/-- A `/join` line with a non-empty room name keeps the membership invariant. -/
theorem join_line_names (s : Server) (username R : String) (conn : Conn) (c : Client)
    (hinv : MembershipNames s) (hc : GoMap.get s.Clients username = some c)
    (hne : R ≠ "") (hR : ' ' ∉ R.data) :
    MembershipNames (handleCommand ("/join " ++ R) username conn s).server := by
  obtain ⟨room, _, hcmd⟩ := cmdJoin_registered s username R conn c hc
  rw [handleCommand_join_line R username conn s hR, hcmd]
  have h1 := createRoom_names R conn s hinv
  exact names_step _ _ username h1
    (JoinRoom_touches_named _ username R (OnlyInCurrent_of_names _ username h1) hne)

/-! ## Notifications to the other members of a room -/

theorem writeToOthers_eq_map (members : List (String × Conn)) (sender text : String) :
    writeToOthers members sender text =
      (members.filter fun p => decide (sender ≠ p.1)).map fun p => Event.write p.2 text := by
  induction members with
  | nil => rfl
  | cons p rest ih =>
    obtain ⟨m, k⟩ := p
    by_cases h : sender = m
    · simp only [writeToOthers, h, ne_eq, not_true_eq_false, if_false, decide_False,
        Bool.false_eq_true, not_false_eq_true, List.filter_cons_of_neg]
      rw [← h]
      exact ih
    · simp only [writeToOthers, ne_eq, h, not_false_eq_true, if_true, decide_True,
        List.filter_cons_of_pos, List.map_cons]
      rw [ih]

theorem mem_writeToOthers (members : List (String × Conn)) (sender text : String) (e : Event) :
    e ∈ writeToOthers members sender text ↔
      ∃ m k, (m, k) ∈ members ∧ sender ≠ m ∧ e = Event.write k text := by
  rw [writeToOthers_eq_map]
  simp only [List.mem_map, List.mem_filter, decide_eq_true_eq]
  constructor
  · rintro ⟨⟨m, k⟩, ⟨hmem, hne⟩, rfl⟩
    exact ⟨m, k, hmem, hne, rfl⟩
  · rintro ⟨m, k, hmem, hne, rfl⟩
    exact ⟨(m, k), ⟨hmem, hne⟩, rfl⟩

theorem nodup_writeToOthers (members : List (String × Conn)) (sender text : String)
    (hkeys : (GoMap.keys members).Nodup)
    (hconn : ∀ p ∈ members, ∀ q ∈ members, p.2 = q.2 → p.1 = q.1) :
    (writeToOthers members sender text).Nodup := by
  rw [writeToOthers_eq_map]
  have hnd : members.Nodup := List.Nodup.of_map _ hkeys
  refine List.Nodup.map_on ?_ (hnd.filter _)
  intro p hp q hq he
  have hp1 := (List.mem_filter.mp hp).1
  have hq1 := (List.mem_filter.mp hq).1
  injection he with hk _
  exact Prod.ext (hconn p hp1 q hq1 hk) hk

theorem head_append (a b : String) (c : Char) (h : a.data.head? = some c) :
    (a ++ b).data.head? = some c := by
  rw [String.data_append]
  cases hd : a.data with
  | nil => simp [hd] at h
  | cons x t =>
    rw [hd] at h
    simpa using h

theorem ne_of_head (a b : String) (x y : Char) (ha : a.data.head? = some x)
    (hb : b.data.head? = some y) (hxy : x ≠ y) : a ≠ b := by
  intro e
  rw [e, hb] at ha
  injection ha with h1
  exact hxy h1.symm

theorem left_reply_ne_notice (R n : String) :
    ("--- Left room: " ++ R ++ " ---\n") ≠ ("*** " ++ n ++ " left the room ***\n") :=
  ne_of_head _ _ '-' '*' (head_append _ _ _ (head_append _ _ _ rfl))
    (head_append _ _ _ (head_append _ _ _ rfl)) (by decide)

/-- The room of a session, in a well-formed state satisfying the membership
invariant: its entries have distinct keys, each is found by its key, each is a
registered session with that connection, and no two share a connection. -/
theorem current_room_core (s : Server) (n : String) (c : Client)
    (hwf : WellFormed s) (hinv : MembershipInv s)
    (hn : GoMap.get s.Clients n = some c) (hne : c.CurrentRoom ≠ "") :
    ∃ r, GoMap.get s.Rooms c.CurrentRoom = some r ∧
      GoMap.get r.Clients n = some c.Conn ∧
      (GoMap.keys r.Clients).Nodup ∧
      (∀ p ∈ r.Clients, GoMap.get r.Clients p.1 = some p.2) ∧
      (∀ p ∈ r.Clients, ∃ cp, GoMap.get s.Clients p.1 = some cp ∧ cp.Conn = p.2) ∧
      (∀ p ∈ r.Clients, ∀ q ∈ r.Clients, p.2 = q.2 → p.1 = q.1) := by
  obtain ⟨r, hr, hmem⟩ := hinv.inCurrent n c hn hne
  have hkeys := hwf.memberKeys _ r hr
  have hget : ∀ p ∈ r.Clients, GoMap.get r.Clients p.1 = some p.2 := fun p hp =>
    GoMap.get_some_of_mem _ _ _ hkeys hp
  have hreg : ∀ p ∈ r.Clients, ∃ cp, GoMap.get s.Clients p.1 = some cp ∧ cp.Conn = p.2 :=
    fun p hp => hinv.registered _ r p.1 p.2 hr (hget p hp)
  refine ⟨r, hr, hmem, hkeys, hget, hreg, ?_⟩
  intro p hp q hq he
  obtain ⟨cp, hcp, hcpc⟩ := hreg p hp
  obtain ⟨cq, hcq, hcqc⟩ := hreg q hq
  exact hwf.connsDistinct _ cp _ cq hcp hcq (by rw [hcpc, hcqc, he])

/-- A notification to the others of a room reaches every other member exactly
once, and reaches no connection that is not the connection of another member. -/
theorem notify_counts (s : Server) (n text : String) (c : Client)
    (hwf : WellFormed s) (hinv : MembershipInv s)
    (hn : GoMap.get s.Clients n = some c) (hne : c.CurrentRoom ≠ "") :
    ∃ r, GoMap.get s.Rooms c.CurrentRoom = some r ∧
      GoMap.get r.Clients n = some c.Conn ∧
      (∀ m cm, m ≠ n → isMember s c.CurrentRoom m → GoMap.get s.Clients m = some cm →
        writesTo (writeToOthers r.Clients n text) cm.Conn text = 1) ∧
      (∀ k, (¬ ∃ m cm, m ≠ n ∧ isMember s c.CurrentRoom m ∧
          GoMap.get s.Clients m = some cm ∧ cm.Conn = k) →
        ∀ t, Event.write k t ∉ writeToOthers r.Clients n text) ∧
      (∀ e ∈ writeToOthers r.Clients n text, ∃ k, e = Event.write k text) := by
  obtain ⟨r, hr, hmem, hkeys, hget, hreg, hconn⟩ := current_room_core s n c hwf hinv hn hne
  have hnd := nodup_writeToOthers r.Clients n text hkeys hconn
  refine ⟨r, hr, hmem, ?_, ?_, ?_⟩
  · intro m cm hmn hm hcm
    obtain ⟨r0, hr0, hk0⟩ := (isMember_iff _ _ _).mp hm
    rw [hr] at hr0
    injection hr0 with hr0
    subst hr0
    cases hk : GoMap.get r.Clients m with
    | none => exact absurd hk hk0
    | some k =>
      obtain ⟨c1, hc1, hc1c⟩ := hinv.registered _ r m k hr hk
      rw [hcm] at hc1
      injection hc1 with hc1
      subst hc1
      rw [hc1c]
      exact List.count_eq_one_of_mem hnd
        ((mem_writeToOthers _ _ _ _).mpr ⟨m, k, GoMap.mem_of_get_some _ _ _ hk, Ne.symm hmn, rfl⟩)
  · intro k hnot t he
    obtain ⟨m, k1, hmem1, hmn, heq⟩ := (mem_writeToOthers _ _ _ _).mp he
    injection heq with hk _
    obtain ⟨cm, hcm, hcmc⟩ := hreg (m, k1) hmem1
    refine hnot ⟨m, cm, Ne.symm hmn, ?_, hcm, ?_⟩
    · refine (isMember_iff _ _ _).mpr ⟨r, hr, ?_⟩
      rw [hget (m, k1) hmem1]
      simp
    · rw [hcmc, hk]
  · intro e he
    obtain ⟨m, k, _, _, rfl⟩ := (mem_writeToOthers _ _ _ _).mp he
    exact ⟨k, rfl⟩

theorem writesTo_append (a b : List Event) (k : Conn) (t : String) :
    writesTo (a ++ b) k t = writesTo a k t + writesTo b k t := by
  unfold writesTo
  exact List.count_append _ _ _

theorem textsTo_append (a b : List Event) (k : Conn) :
    textsTo (a ++ b) k = textsTo a k ++ textsTo b k := by
  unfold textsTo
  exact List.filterMap_append _ _ _

theorem textsTo_nil_of_no_write (a : List Event) (k : Conn)
    (h : ∀ t, Event.write k t ∉ a) : textsTo a k = [] := by
  induction a with
  | nil => rfl
  | cons e rest ih =>
    have hrest : ∀ t, Event.write k t ∉ rest := fun t ht => h t (List.mem_cons_of_mem _ ht)
    cases e with
    | write c text =>
      have hck : c ≠ k := by
        intro e1
        subst e1
        exact h text (List.mem_cons_self _ _)
      simp only [textsTo, List.filterMap_cons, hck, if_false]
      exact ih hrest
    | close c =>
      simp only [textsTo, List.filterMap_cons]
      exact ih hrest

theorem writesTo_zero_of_no_write (a : List Event) (k : Conn) (t : String)
    (h : ∀ t1, Event.write k t1 ∉ a) : writesTo a k t = 0 :=
  List.count_eq_zero.mpr (h t)

theorem handleCommand_leave (username : String) (conn : Conn) (s : Server) :
    handleCommand "/leave" username conn s = cmdLeave username conn s := by
  have h1 : Split "/leave" = ["/leave"] := by decide
  unfold handleCommand
  rw [h1]
  have h2 : ¬ (("/leave" : String) = "/rooms") := by decide
  have h3 : ¬ (("/leave" : String) = "/join") := by decide
  simp [h2, h3]

theorem LeaveRoom_in_room (s : Server) (n : String) (c : Client) (r : Room) (k : Conn)
    (hn : GoMap.get s.Clients n = some c) (hne : c.CurrentRoom ≠ "")
    (hr : GoMap.get s.Rooms c.CurrentRoom = some r) (hm : GoMap.get r.Clients n = some k) :
    LeaveRoom s n =
      ({ Rooms := GoMap.put s.Rooms c.CurrentRoom
                    { r with Clients := GoMap.del r.Clients n },
         Clients := GoMap.put s.Clients n { c with CurrentRoom := "" } }, none) := by
  simp [LeaveRoom, hn, hne, hr, hm]

theorem writesTo_single_other (k1 k : Conn) (t1 t : String) (h : t1 ≠ t) :
    writesTo [Event.write k1 t1] k t = 0 := by
  unfold writesTo
  refine List.count_eq_zero.mpr ?_
  intro hmem
  simp only [List.mem_singleton] at hmem
  injection hmem with _ h2
  exact h h2.symm

theorem own_conn_not_other (s : Server) (n : String) (c : Client) (hwf : WellFormed s)
    (hn : GoMap.get s.Clients n = some c) (x : String) :
    ¬ ∃ m cm, m ≠ n ∧ isMember s x m ∧ GoMap.get s.Clients m = some cm ∧ cm.Conn = c.Conn := by
  rintro ⟨m, cm, hmn, _, hcm, hconn⟩
  exact hmn (hwf.connsDistinct m cm n c hcm hn hconn)

theorem handleCommand_quit (username : String) (conn : Conn) (s : Server) :
    handleCommand "/quit" username conn s = cmdQuit username conn s := by
  have h1 : Split "/quit" = ["/quit"] := by decide
  unfold handleCommand
  rw [h1]
  have h2 : ¬ (("/quit" : String) = "/rooms") := by decide
  have h3 : ¬ (("/quit" : String) = "/join") := by decide
  have h4 : ¬ (("/quit" : String) = "/leave") := by decide
  have h5 : ¬ (("/quit" : String) = "/who") := by decide
  have h6 : ¬ (("/quit" : String) = "/help") := by decide
  simp [h2, h3, h4, h5, h6]

theorem AddClient_ok (s : Server) (name : String) (conn : Conn) (roomName : String)
    (hr : GoMap.get s.Rooms roomName ≠ none) (hc : GoMap.get s.Clients name = none) :
    (AddClient s name conn roomName).2 = .ok ⟨name, conn, roomName⟩ := by
  cases hr1 : GoMap.get s.Rooms roomName with
  | none => exact absurd hr1 hr
  | some r => simp [AddClient, hr1, hc]

theorem quit_banner_no_notice (conn k : Conn) :
    writesTo [Event.write conn "+-------------------+\n",
              Event.write conn "|  Thanks for chat! |\n",
              Event.write conn "+-------------------+\n",
              Event.close conn] k "*** alice disconnected ***\n" = 0 := by
  unfold writesTo
  refine List.count_eq_zero.mpr ?_
  intro hmem
  simp only [List.mem_cons, List.mem_singleton, List.mem_nil_iff, or_false] at hmem
  rcases hmem with h | h | h | h
  · injection h with _ h2
    exact absurd h2 (by decide)
  · injection h with _ h2
    exact absurd h2 (by decide)
  · injection h with _ h2
    exact absurd h2 (by decide)
  · cases h

/-! ## The `/rooms` listing -/

theorem digitChar_ne_paren (m : Nat) (hm : m < 10) : Nat.digitChar m ≠ '(' := by
  interval_cases m <;> decide

theorem toDigitsCore_no_paren (fuel n : Nat) (acc : List Char) (h : '(' ∉ acc) :
    '(' ∉ Nat.toDigitsCore 10 fuel n acc := by
  induction fuel generalizing n acc with
  | zero => simpa [Nat.toDigitsCore] using h
  | succ f ih =>
    have hcons : '(' ∉ Nat.digitChar (n % 10) :: acc := by
      intro hm
      rcases List.mem_cons.mp hm with h1 | h1
      · exact digitChar_ne_paren _ (Nat.mod_lt _ (by decide)) h1.symm
      · exact h h1
    simp only [Nat.toDigitsCore]
    split
    · exact hcons
    · exact ih _ _ hcons

theorem fmtInt_no_paren (n : Nat) : '(' ∉ (fmtInt n).data := by
  unfold fmtInt Nat.repr Nat.toDigits
  exact toDigitsCore_no_paren _ _ _ (by simp)

theorem split_at_marker (c : Char) (u v a b : List Char) (ha : c ∉ a) (hb : c ∉ b)
    (h : u ++ c :: a = v ++ c :: b) : u = v := by
  induction u generalizing v with
  | nil =>
    cases v with
    | nil => rfl
    | cons y v1 =>
      simp only [List.nil_append, List.cons_append, List.cons.injEq] at h
      exact absurd (by rw [h.2]; simp) ha
  | cons x u1 ih =>
    cases v with
    | nil =>
      simp only [List.nil_append, List.cons_append, List.cons.injEq] at h
      exact absurd (by rw [← h.2]; simp) hb
    | cons y v1 =>
      simp only [List.cons_append, List.cons.injEq] at h
      rw [h.1, ih v1 h.2]

/-- The line of `/rooms` for a room determines the name of the room. -/
theorem roomLine_inj (x y : String) (a b : Nat)
    (h : "* " ++ x ++ " (" ++ fmtInt a ++ " users)\n" = "* " ++ y ++ " (" ++ fmtInt b ++ " users)\n") :
    x = y := by
  have hd := congrArg String.data h
  simp only [String.data_append] at hd
  have h1 := List.append_cancel_right hd
  simp only [List.append_assoc, List.cons_append, List.nil_append, List.cons.injEq,
    true_and] at h1
  have h2 := h1
  have h3 : (x.data ++ [' ']) ++ '(' :: (fmtInt a).data = (y.data ++ [' ']) ++ '(' :: (fmtInt b).data := by
    simpa using h2
  have h4 := split_at_marker '(' _ _ _ _ (fmtInt_no_paren a) (fmtInt_no_paren b) h3
  have h5 := List.append_cancel_right h4
  exact String.ext h5

theorem roomLines_eq_map (rooms : List (String × Room)) (conn : Conn) :
    roomLines rooms conn = rooms.map fun p =>
      Event.write conn ("* " ++ p.1 ++ " (" ++ fmtInt p.2.Clients.length ++ " users)\n") := by
  induction rooms with
  | nil => rfl
  | cons p rest ih =>
    obtain ⟨x, r⟩ := p
    simp only [roomLines, List.map_cons, ih]

/-- With distinct room keys, the line of a room of the directory occurs exactly
once among the lines of `/rooms`. -/
theorem roomLines_count (rooms : List (String × Room)) (conn : Conn) (x : String) (r : Room)
    (hkeys : (GoMap.keys rooms).Nodup) (hx : GoMap.get rooms x = some r) :
    writesTo (roomLines rooms conn) conn
      ("* " ++ x ++ " (" ++ fmtInt r.Clients.length ++ " users)\n") = 1 := by
  unfold writesTo
  rw [roomLines_eq_map]
  have hnd : rooms.Nodup := List.Nodup.of_map _ hkeys
  refine List.count_eq_one_of_mem (List.Nodup.map_on ?_ hnd) ?_
  · intro p hp q hq he
    injection he with _ hline
    have hname : p.1 = q.1 := roomLine_inj _ _ _ _ hline
    have h1 := GoMap.get_some_of_mem rooms p.1 p.2 hkeys hp
    have h2 := GoMap.get_some_of_mem rooms q.1 q.2 hkeys hq
    rw [hname, h2] at h1
    injection h1 with h1
    exact Prod.ext hname h1.symm
  · exact List.mem_map.mpr ⟨(x, r), GoMap.mem_of_get_some _ _ _ hx, rfl⟩

theorem length_del {V : Type} (m : List (String × V)) (k : String) (v : V)
    (hkeys : (GoMap.keys m).Nodup) (hk : GoMap.get m k = some v) :
    (GoMap.del m k).length + 1 = m.length := by
  induction m with
  | nil => simp [GoMap.get] at hk
  | cons p rest ih =>
    obtain ⟨k1, v1⟩ := p
    simp only [GoMap.keys, List.map_cons, List.nodup_cons] at hkeys
    by_cases h1 : k1 = k
    · subst h1
      have hnot : GoMap.get rest k1 = none :=
        GoMap.get_none_of_not_mem_keys rest k1 hkeys.1
      simp [GoMap.del, GoMap.del_of_get_none rest k1 hnot]
    · simp only [GoMap.get, h1, if_false] at hk
      simp only [GoMap.del, h1, if_false, List.length_cons]
      rw [ih hkeys.2 hk]

theorem keys_put_nodup {V : Type} (m : List (String × V)) (k : String) (v : V)
    (hkeys : (GoMap.keys m).Nodup) : (GoMap.keys (GoMap.put m k v)).Nodup := by
  cases hk : GoMap.get m k with
  | some w =>
    rw [GoMap.keys_put_of_get_some m k v w hk]
    exact hkeys
  | none =>
    rw [GoMap.keys_put_of_get_none m k v hk]
    refine List.Nodup.append hkeys (List.nodup_singleton k) ?_
    intro a ha hb
    simp only [List.mem_singleton] at hb
    subst hb
    simp only [GoMap.keys, List.mem_map] at ha
    obtain ⟨⟨a1, w⟩, hmem, rfl⟩ := ha
    have := GoMap.get_some_of_mem m a1 w hkeys hmem
    rw [hk] at this
    exact absurd this (by simp)

theorem handleCommand_rooms (username : String) (conn : Conn) (s : Server) :
    handleCommand "/rooms" username conn s = cmdRooms conn s := by
  have h1 : Split "/rooms" = ["/rooms"] := by decide
  unfold handleCommand
  rw [h1]
  simp

/-- The directory and the writes of `/join lobby` for `alice` in `general`, when
no room `lobby` exists. -/
theorem join_lobby_outcome (s : Server) (c : Client) (rg : Room) (conn : Conn)
    (ha : GoMap.get s.Clients "alice" = some c) (hcr : c.CurrentRoom = "general")
    (hg : GoMap.get s.Rooms "general" = some rg) (hl : GoMap.get s.Rooms "lobby" = none) :
    handleCommand "/join lobby" "alice" conn s =
      { server :=
          { Rooms := GoMap.put
              (GoMap.put (GoMap.put s.Rooms "lobby" { Name := "lobby", Clients := [] })
                "general" { rg with Clients := GoMap.del rg.Clients "alice" })
              "lobby" { Name := "lobby", Clients := [("alice", c.Conn)] },
            Clients := GoMap.put s.Clients "alice" { c with CurrentRoom := "lobby" } },
        events :=
          [Event.write conn "[Server] Created new room: lobby\n",
           Event.write conn "--- Joined room: lobby ---\n",
           Event.write conn "Users in room (1):\n",
           Event.write conn "* alice (you)\n",
           Event.write conn "------------------------\n"],
        panicked := false } := by
  have e : ("/join lobby" : String) = "/join " ++ "lobby" := by decide
  rw [e, handleCommand_join_line "lobby" "alice" conn s (by decide)]
  have hgl : ("general" : String) ≠ "lobby" := by decide
  have hge : ("general" : String) ≠ "" := by decide
  have hcreate : createRoom "lobby" conn s =
      ({ s with Rooms := GoMap.put s.Rooms "lobby" { Name := "lobby", Clients := [] } },
       [Event.write conn "[Server] Created new room: lobby\n"]) := by
    simp only [createRoom, hl]
    rfl
  have hg1 : GoMap.get (GoMap.put s.Rooms "lobby" { Name := "lobby", Clients := [] }) "general"
      = some rg := by
    rw [GoMap.get_put_ne _ _ _ _ hgl]
    exact hg
  have hdrop : dropFromRoom (GoMap.put s.Rooms "lobby" { Name := "lobby", Clients := [] })
      c.CurrentRoom "alice" =
      GoMap.put (GoMap.put s.Rooms "lobby" { Name := "lobby", Clients := [] }) "general"
        { rg with Clients := GoMap.del rg.Clients "alice" } := by
    simp [dropFromRoom, hcr, hge, hg1]
  have hjoin : JoinRoom
      { s with Rooms := GoMap.put s.Rooms "lobby" { Name := "lobby", Clients := [] } }
      "alice" "lobby" =
      ({ Rooms := GoMap.put
            (GoMap.put (GoMap.put s.Rooms "lobby" { Name := "lobby", Clients := [] })
              "general" { rg with Clients := GoMap.del rg.Clients "alice" })
            "lobby" { Name := "lobby", Clients := [("alice", c.Conn)] },
         Clients := GoMap.put s.Clients "alice" { c with CurrentRoom := "lobby" } }, none) := by
    simp only [JoinRoom, GoMap.get_put_self, ha, GoMap.get, hdrop]
    rw [GoMap.get_put_ne _ _ _ _ hgl.symm, GoMap.get_put_self]
    simp [GoMap.put]
  simp only [cmdJoin, hcreate, hjoin, GoMap.get_put_self, memberLines, writeToOthers,
    List.length_singleton]
  rfl

theorem rooms_frame_no_line (conn k : Conn) (lines : List Event) (t : String)
    (ht : t.data.head? = some '*') :
    writesTo ([Event.write conn "Available Rooms:\n", Event.write conn "================\n"]
      ++ lines ++ [Event.write conn "================\n"]) k t = writesTo lines k t := by
  have h1 : ("Available Rooms:\n" : String) ≠ t := ne_of_head _ _ 'A' '*' rfl ht (by decide)
  have h2 : ("================\n" : String) ≠ t := ne_of_head _ _ '=' '*' rfl ht (by decide)
  have e1 : writesTo [Event.write conn "Available Rooms:\n",
      Event.write conn "================\n"] k t = 0 := by
    unfold writesTo
    refine List.count_eq_zero.mpr ?_
    intro hmem
    simp only [List.mem_cons, List.mem_singleton, List.mem_nil_iff, or_false] at hmem
    rcases hmem with h | h
    · injection h with _ h3
      exact h1 h3.symm
    · injection h with _ h3
      exact h2 h3.symm
  rw [writesTo_append, writesTo_append, e1, writesTo_single_other _ _ _ _ h2]
  simp

/-! ## The member list -/

theorem marked_line_inj (a b : String)
    (h : "* " ++ a ++ " (you)\n" = "* " ++ b ++ " (you)\n") : a = b := by
  have hd := congrArg String.data h
  simp only [String.data_append] at hd
  have h1 := List.append_cancel_right hd
  simp only [List.cons_append, List.nil_append, List.cons.injEq, true_and] at h1
  exact String.ext h1

theorem AddClient_taken (s : Server) (name : String) (conn : Conn) (roomName : String)
    (hr : GoMap.get s.Rooms roomName ≠ none) (hc : GoMap.get s.Clients name ≠ none) :
    AddClient s name conn roomName = (s, .error errClientExists) := by
  cases hr1 : GoMap.get s.Rooms roomName with
  | none => exact absurd hr1 hr
  | some r =>
    cases hc1 : GoMap.get s.Clients name with
    | none => exact absurd hc1 hc
    | some c => simp [AddClient, hr1, hc1]

theorem addAll_taken (s : Server) (name : String) (calls : List (Conn × String))
    (hrooms : ∀ p ∈ calls, GoMap.get s.Rooms p.2 ≠ none)
    (hc : GoMap.get s.Clients name ≠ none) :
    addAll s name calls = calls.map fun _ => .error errClientExists := by
  induction calls with
  | nil => rfl
  | cons p rest ih =>
    obtain ⟨conn, roomName⟩ := p
    have h1 := AddClient_taken s name conn roomName
      (hrooms (conn, roomName) (List.mem_cons_self _ _)) hc
    simp only [addAll, h1, List.map_cons]
    rw [ih (fun q hq => hrooms q (List.mem_cons_of_mem _ hq))]

/-- Run one after the other, `AddClient` calls for one unregistered name and
existing rooms succeed for the first call and return the name-taken error for
every other call. -/
theorem addAll_first_only (s : Server) (name : String) (conn : Conn) (roomName : String)
    (rest : List (Conn × String))
    (hrooms : ∀ p ∈ (conn, roomName) :: rest, GoMap.get s.Rooms p.2 ≠ none)
    (hc : GoMap.get s.Clients name = none) :
    addAll s name ((conn, roomName) :: rest) =
      .ok ⟨name, conn, roomName⟩ :: rest.map fun _ => .error errClientExists := by
  have hok := AddClient_ok s name conn roomName
    (hrooms (conn, roomName) (List.mem_cons_self _ _)) hc
  simp only [addAll, hok]
  rw [addAll_taken _ name rest
    (fun q hq => AddClient_present s name conn roomName q.2
      (hrooms q (List.mem_cons_of_mem _ hq)))
    (AddClient_registers s name conn roomName _ hok)]

/-! ## C1: membership consistency over reachable states -/

/-- C1, the state that breaks it. After `alice` registers, creates and joins a room
whose name is the empty string (the room name that `/join  lobby`, with two
spaces, hands to the dispatcher) and joins `general` again, she is registered
with `CurrentRoom = general` and is a member of both the room named by the
empty string and `general`; membership consistency fails in that reachable
state, in either reading. -/
theorem membership_broken_by_empty_room_name :
    run initServer emptyNameOps =
      (handleCommand "/join general" "alice" 1
        (handleCommand "/join  lobby" "alice" 1
          (AddClient initServer "alice" 1 "general").1).server).server ∧
    GoMap.get (run initServer emptyNameOps).Clients "alice" = some ⟨"alice", 1, "general"⟩ ∧
    isMember (run initServer emptyNameOps) "general" "alice" ∧
    isMember (run initServer emptyNameOps) "" "alice" ∧
    ¬ MembershipWeak (run initServer emptyNameOps) ∧
    ¬ MembershipInv (run initServer emptyNameOps) := by
  refine ⟨by decide, by decide, by decide, by decide, ?_, ?_⟩
  · intro h
    rcases h "alice" ⟨"alice", 1, "general"⟩ (by decide) with ⟨he, _⟩ | ⟨_, hno⟩
    · exact absurd he (by decide)
    · exact hno "" (by decide) (by decide)
  · intro h
    have := h.inNoOther "alice" ⟨"alice", 1, "general"⟩ "" ⟨"", [("alice", 1)]⟩
      (by decide) (by decide) (by decide)
    exact absurd this (by decide)

/-- Membership consistency does hold in every state reached from `initServer()` by
operations that create no room under the empty name. -/
theorem membership_reachable (ops : List Op) (hops : ∀ op ∈ ops, op.namesEmptyRoom = false) :
    MembershipInv (run initServer ops) ∧ GoMap.get (run initServer ops).Rooms "" = none :=
  run_preserves ops initServer hops
    (MembershipInv_of_entries initServer (by decide) (by decide) (by decide)) (by decide)

/-! ## C2: registration -/

/-- C2. `AddClient(name, conn, room)` returns the room-not-found error when `room`
is not in `Rooms`, the name-taken error when `room` exists and `name` is already
registered, and leaves the directory as it was in both cases.  Otherwise it
returns the new client, after which `name` is registered with
`CurrentRoom = room`, `name` is a member of `Rooms[room]`, and every other
session, every other member entry and every other room is as before.  After a
successful registration of `name`, whatever operations other than
`RemoveClient` follow, a further `AddClient` of `name` fails; and of two
successive calls with the same name and room the second always fails. -/
theorem AddClient_contract (s : Server) (name : String) (conn : Conn) (roomName : String) :
    (GoMap.get s.Rooms roomName = none →
      AddClient s name conn roomName = (s, .error errRoomNotFound)) ∧
    (GoMap.get s.Rooms roomName ≠ none → GoMap.get s.Clients name ≠ none →
      AddClient s name conn roomName = (s, .error errClientExists)) ∧
    (∀ r, GoMap.get s.Rooms roomName = some r → GoMap.get s.Clients name = none →
      (AddClient s name conn roomName).2 = .ok ⟨name, conn, roomName⟩ ∧
      GoMap.get (AddClient s name conn roomName).1.Clients name = some ⟨name, conn, roomName⟩ ∧
      GoMap.get (AddClient s name conn roomName).1.Rooms roomName =
        some { r with Clients := GoMap.put r.Clients name conn } ∧
      GoMap.get (GoMap.put r.Clients name conn) name = some conn ∧
      (∀ n, n ≠ name → GoMap.get (GoMap.put r.Clients name conn) n = GoMap.get r.Clients n) ∧
      (∀ n, n ≠ name →
        GoMap.get (AddClient s name conn roomName).1.Clients n = GoMap.get s.Clients n) ∧
      (∀ x, x ≠ roomName →
        GoMap.get (AddClient s name conn roomName).1.Rooms x = GoMap.get s.Rooms x) ∧
      GoMap.keys (AddClient s name conn roomName).1.Rooms = GoMap.keys s.Rooms) ∧
    (∀ (ops : List Op) (conn2 : Conn) (roomName2 : String),
      (∃ c, (AddClient s name conn roomName).2 = .ok c) →
      (∀ op ∈ ops, op.isRemove = false) →
      ∃ e, (AddClient (run (AddClient s name conn roomName).1 ops) name conn2 roomName2).2
        = .error e) ∧
    (∀ conn2 : Conn,
      ∃ e, (AddClient (AddClient s name conn roomName).1 name conn2 roomName).2 = .error e) := by
  refine ⟨?_, ?_, ?_, ?_, ?_⟩
  · intro hr
    simp [AddClient, hr]
  · intro hr hc
    cases hr1 : GoMap.get s.Rooms roomName with
    | none => exact absurd hr1 hr
    | some r =>
      cases hc1 : GoMap.get s.Clients name with
      | none => exact absurd hc1 hc
      | some c => simp [AddClient, hr1, hc1]
  · intro r hr hc
    refine ⟨?_, ?_, ?_, ?_, ?_, ?_, ?_, ?_⟩
    · simp [AddClient, hr, hc]
    · simp [AddClient, hr, hc, GoMap.get_put_self]
    · simp [AddClient, hr, hc, GoMap.get_put_self]
    · exact GoMap.get_put_self _ _ _
    · intro n hn
      exact GoMap.get_put_ne _ _ _ _ hn
    · intro n hn
      simp [AddClient, hr, hc, GoMap.get_put_ne _ _ _ _ hn]
    · intro x hx
      simp [AddClient, hr, hc, GoMap.get_put_ne _ _ _ _ hx]
    · simp only [AddClient, hr, hc]
      exact GoMap.keys_put_of_get_some _ _ _ _ hr
  · intro ops conn2 roomName2 hok hops
    obtain ⟨c, hc⟩ := hok
    have h1 := AddClient_registers s name conn roomName c hc
    have h2 := run_keeps_registered ops _ name hops h1
    rcases AddClient_fails_of_registered _ name conn2 roomName2 h2 with h | h
    · exact ⟨_, h⟩
    · exact ⟨_, h⟩
  · intro conn2
    cases hr : GoMap.get s.Rooms roomName with
    | none => exact ⟨errRoomNotFound, by simp [AddClient, hr]⟩
    | some r =>
      cases hc : GoMap.get s.Clients name with
      | some c => exact ⟨errClientExists, by simp [AddClient, hr, hc]⟩
      | none =>
        have hok : (AddClient s name conn roomName).2 = .ok ⟨name, conn, roomName⟩ := by
          simp [AddClient, hr, hc]
        have h1 := AddClient_registers s name conn roomName _ hok
        rcases AddClient_fails_of_registered _ name conn2 roomName h1 with h | h
        · exact ⟨_, h⟩
        · exact ⟨_, h⟩

/-- Witness for C2: `carol` registers in `general` next to `alice` and `bob`, and a
second registration of `carol` after a join and a leave is refused. -/
theorem AddClient_contract_witness :
    (AddClient twoInGeneral "carol" 3 "general").2 = .ok ⟨"carol", 3, "general"⟩ ∧
    ∃ e, (AddClient (run (AddClient twoInGeneral "carol" 3 "general").1
        [Op.createRoom "lobby" 3, Op.joinRoom "carol" "lobby", Op.leaveRoom "carol"])
        "carol" 4 "general").2 = .error e :=
  ⟨((AddClient_contract twoInGeneral "carol" 3 "general").2.2.1
      ⟨"general", [("alice", 1), ("bob", 2)]⟩ (by decide) (by decide)).1,
   (AddClient_contract twoInGeneral "carol" 3 "general").2.2.2.1
      [Op.createRoom "lobby" 3, Op.joinRoom "carol" "lobby", Op.leaveRoom "carol"] 4 "general"
      ⟨⟨"carol", 3, "general"⟩, rfl⟩ (by decide)⟩

/-! ## C3: broadcast -/

/-- C3. In a well-formed directory state satisfying the membership invariant, for a
registered sender `S` whose `CurrentRoom` is the room `R`, `BroadcastToRoom(S,
text)` returns success; every write it performs carries the formatted message;
the message is written exactly once to the connection of every member of `R`
other than `S`; nothing is written to the connection of `S`, nor to the
connection of a session that is not a member of `R`. -/
theorem BroadcastToRoom_exclusion (s : Server) (S R text : String) (c : Client)
    (hwf : WellFormed s) (hinv : MembershipInv s)
    (hS : GoMap.get s.Clients S = some c) (hR : c.CurrentRoom = R) (hne : R ≠ "") :
    (BroadcastToRoom s S text).1 = none ∧
    (∀ e ∈ (BroadcastToRoom s S text).2, ∃ k, e = Event.write k (formatMessage S text)) ∧
    (∀ r m k, GoMap.get s.Rooms R = some r → GoMap.get r.Clients m = some k → m ≠ S →
      writesTo (BroadcastToRoom s S text).2 k (formatMessage S text) = 1) ∧
    (∀ m cm, isMember s R m → m ≠ S → GoMap.get s.Clients m = some cm →
      writesTo (BroadcastToRoom s S text).2 cm.Conn (formatMessage S text) = 1) ∧
    (∀ t, Event.write c.Conn t ∉ (BroadcastToRoom s S text).2) ∧
    (∀ m cm, GoMap.get s.Clients m = some cm → ¬ isMember s R m →
      ∀ t, Event.write cm.Conn t ∉ (BroadcastToRoom s S text).2) := by
  subst hR
  obtain ⟨r, hr, hSmem⟩ := hinv.inCurrent S c hS hne
  have hb : BroadcastToRoom s S text =
      (none, writeToOthers r.Clients S (formatMessage S text)) := by
    simp [BroadcastToRoom, hS, hne, hr]
  have hkeys := hwf.memberKeys _ r hr
  have hget : ∀ p ∈ r.Clients, GoMap.get r.Clients p.1 = some p.2 := fun p hp =>
    GoMap.get_some_of_mem _ _ _ hkeys hp
  have hreg : ∀ p ∈ r.Clients, ∃ cp, GoMap.get s.Clients p.1 = some cp ∧ cp.Conn = p.2 :=
    fun p hp => hinv.registered _ r p.1 p.2 hr (hget p hp)
  have hconn : ∀ p ∈ r.Clients, ∀ q ∈ r.Clients, p.2 = q.2 → p.1 = q.1 := by
    intro p hp q hq he
    obtain ⟨cp, hcp, hcpc⟩ := hreg p hp
    obtain ⟨cq, hcq, hcqc⟩ := hreg q hq
    exact hwf.connsDistinct _ cp _ cq hcp hcq (by rw [hcpc, hcqc, he])
  have hnd := nodup_writeToOthers r.Clients S (formatMessage S text) hkeys hconn
  have honce : ∀ m k, GoMap.get r.Clients m = some k → m ≠ S →
      writesTo (writeToOthers r.Clients S (formatMessage S text)) k (formatMessage S text)
        = 1 := by
    intro m k hm hmS
    refine List.count_eq_one_of_mem hnd ?_
    exact (mem_writeToOthers _ _ _ _).mpr
      ⟨m, k, GoMap.mem_of_get_some _ _ _ hm, Ne.symm hmS, rfl⟩
  rw [hb]
  refine ⟨rfl, ?_, ?_, ?_, ?_, ?_⟩
  · intro e he
    obtain ⟨m, k, _, _, rfl⟩ := (mem_writeToOthers _ _ _ _).mp he
    exact ⟨k, rfl⟩
  · intro r0 m k hr0 hm hmS
    rw [hr] at hr0
    injection hr0 with hr0
    subst hr0
    exact honce m k hm hmS
  · intro m cm hmem0 hmS hcm
    obtain ⟨r0, hr0, hmem⟩ := (isMember_iff _ _ _).mp hmem0
    rw [hr] at hr0
    injection hr0 with hr0
    subst hr0
    cases hk : GoMap.get r.Clients m with
    | none => exact absurd hk hmem
    | some k =>
      obtain ⟨c1, hc1, hc1c⟩ := hinv.registered _ r m k hr hk
      rw [hcm] at hc1
      injection hc1 with hc1
      subst hc1
      rw [hc1c]
      exact honce m k hk hmS
  · intro t he
    obtain ⟨m, k, hmem, hmS, heq⟩ := (mem_writeToOthers _ _ _ _).mp he
    injection heq with hk _
    obtain ⟨cm, hcm, hcmc⟩ := hreg (m, k) hmem
    exact hmS (hwf.connsDistinct _ c _ cm hS hcm (by rw [hcmc, hk]))
  · intro n cn hcn hnot t he
    obtain ⟨m, k, hmem, _, heq⟩ := (mem_writeToOthers _ _ _ _).mp he
    injection heq with hk _
    obtain ⟨cm, hcm, hcmc⟩ := hreg (m, k) hmem
    have hnm : n = m := hwf.connsDistinct _ cn _ cm hcn hcm (by rw [hcmc, hk])
    subst hnm
    exact hnot ((isMember_iff _ _ _).mpr ⟨r, hr, by rw [hget (n, k) hmem]; simp⟩)

/-- Witness for C3: `alice` broadcasts in `general`, which she shares with `bob`. -/
theorem BroadcastToRoom_exclusion_witness :
    (BroadcastToRoom twoInGeneral "alice" "hello").1 = none ∧
    writesTo (BroadcastToRoom twoInGeneral "alice" "hello").2 2
      (formatMessage "alice" "hello") = 1 ∧
    ∀ t, Event.write 1 t ∉ (BroadcastToRoom twoInGeneral "alice" "hello").2 :=
  ⟨(BroadcastToRoom_exclusion twoInGeneral "alice" "general" "hello" ⟨"alice", 1, "general"⟩
      (WellFormed_of_entries twoInGeneral (by decide) (by decide) (by decide) (by decide))
      (MembershipInv_of_entries twoInGeneral (by decide) (by decide) (by decide))
      (by decide) rfl (by decide)).1,
   (BroadcastToRoom_exclusion twoInGeneral "alice" "general" "hello" ⟨"alice", 1, "general"⟩
      (WellFormed_of_entries twoInGeneral (by decide) (by decide) (by decide) (by decide))
      (MembershipInv_of_entries twoInGeneral (by decide) (by decide) (by decide))
      (by decide) rfl (by decide)).2.2.1
      ⟨"general", [("alice", 1), ("bob", 2)]⟩ "bob" 2 (by decide) (by decide) (by decide),
   (BroadcastToRoom_exclusion twoInGeneral "alice" "general" "hello" ⟨"alice", 1, "general"⟩
      (WellFormed_of_entries twoInGeneral (by decide) (by decide) (by decide) (by decide))
      (MembershipInv_of_entries twoInGeneral (by decide) (by decide) (by decide))
      (by decide) rfl (by decide)).2.2.2.2.1⟩

/-! ## C4: the chat line -/

theorem textsTo_writeToOthers (members : List (String × Conn)) (sender text : String)
    (k : Conn) :
    textsTo (writeToOthers members sender text) k =
      List.replicate (writesTo (writeToOthers members sender text) k text) text := by
  induction members with
  | nil => rfl
  | cons p rest ih =>
    obtain ⟨m, k1⟩ := p
    unfold textsTo writesTo at ih ⊢
    by_cases h : sender = m
    · simp only [writeToOthers, h, ne_eq, not_true_eq_false, if_false]
      rw [← h]
      exact ih
    · simp only [writeToOthers, ne_eq, h, not_false_eq_true, if_true]
      by_cases hk : k1 = k
      · subst hk
        simp only [List.filterMap_cons, if_true, List.count_cons_self, List.replicate_succ]
        rw [ih]
      · have hne : (Event.write k1 text == Event.write k text) = false := by
          simp [hk]
        simp only [List.filterMap_cons, hk, if_false, List.count_cons, hne]
        simpa using ih

/-- What `BroadcastToRoom` does for a sender in a room, in a well-formed state that
satisfies the membership invariant. -/
theorem broadcast_core (s : Server) (S text : String) (c : Client)
    (hwf : WellFormed s) (hinv : MembershipInv s)
    (hS : GoMap.get s.Clients S = some c) (hne : c.CurrentRoom ≠ "") :
    ∃ r, GoMap.get s.Rooms c.CurrentRoom = some r ∧
      BroadcastToRoom s S text = (none, writeToOthers r.Clients S (formatMessage S text)) ∧
      (writeToOthers r.Clients S (formatMessage S text)).Nodup ∧
      (∀ p ∈ r.Clients, GoMap.get r.Clients p.1 = some p.2) ∧
      (∀ p ∈ r.Clients, ∃ cp, GoMap.get s.Clients p.1 = some cp ∧ cp.Conn = p.2) := by
  obtain ⟨r, hr, _⟩ := hinv.inCurrent S c hS hne
  have hkeys := hwf.memberKeys _ r hr
  have hget : ∀ p ∈ r.Clients, GoMap.get r.Clients p.1 = some p.2 := fun p hp =>
    GoMap.get_some_of_mem _ _ _ hkeys hp
  have hreg : ∀ p ∈ r.Clients, ∃ cp, GoMap.get s.Clients p.1 = some cp ∧ cp.Conn = p.2 :=
    fun p hp => hinv.registered _ r p.1 p.2 hr (hget p hp)
  have hconn : ∀ p ∈ r.Clients, ∀ q ∈ r.Clients, p.2 = q.2 → p.1 = q.1 := by
    intro p hp q hq he
    obtain ⟨cp, hcp, hcpc⟩ := hreg p hp
    obtain ⟨cq, hcq, hcqc⟩ := hreg q hq
    exact hwf.connsDistinct _ cp _ cq hcp hcq (by rw [hcpc, hcqc, he])
  refine ⟨r, hr, ?_, nodup_writeToOthers _ _ _ hkeys hconn, hget, hreg⟩
  simp [BroadcastToRoom, hS, hne, hr]

/-- C4, as the code has it. In a well-formed state satisfying the membership
invariant in which `alice` and `bob` are registered in room `general`, when the
handler of `alice` reads `hello`, what is written to the connection of `bob` is
exactly `<alice> hello` followed by a newline (the sender name between angle
brackets, one space, the message, a newline), and nothing is written to the
connection of `alice`. -/
theorem chat_line_format (s : Server) (ca cb : Conn)
    (hwf : WellFormed s) (hinv : MembershipInv s)
    (ha : GoMap.get s.Clients "alice" = some ⟨"alice", ca, "general"⟩)
    (hb : GoMap.get s.Clients "bob" = some ⟨"bob", cb, "general"⟩) :
    textsTo (messageLoopData "hello\n" "alice" ca s).events cb = ["<alice> hello\n"] ∧
    textsTo (messageLoopData "hello\n" "alice" ca s).events ca = [] := by
  have hgen : "general" ≠ "" := by decide
  have hne : (⟨"alice", ca, "general"⟩ : Client).CurrentRoom ≠ "" := hgen
  obtain ⟨r, hr, hbc, hnd, hget, hreg⟩ := broadcast_core s "alice" "hello" _ hwf hinv ha hne
  have htrim : TrimSpace "hello\n" = "hello" := by decide
  have hev : (messageLoopData "hello\n" "alice" ca s).events =
      writeToOthers r.Clients "alice" (formatMessage "alice" "hello") := by
    unfold messageLoopData
    rw [htrim]
    have h1 : ¬ ("hello" = "") := by decide
    have h2 : startsWithSlash "hello" = false := by decide
    simp only [h1, h2, if_false, hbc, Bool.false_eq_true]
  have hfmt : formatMessage "alice" "hello" = "<alice> hello\n" := by decide
  rw [hev, textsTo_writeToOthers, textsTo_writeToOthers, hfmt]
  constructor
  · obtain ⟨rb, hrb, hbmem⟩ := hinv.inCurrent "bob" _ hb hgen
    have hrb2 : GoMap.get s.Rooms "general" = some rb := hrb
    have hr2 : GoMap.get s.Rooms "general" = some r := hr
    rw [hr2] at hrb2
    injection hrb2 with hrb2
    subst hrb2
    have hin : Event.write cb "<alice> hello\n" ∈
        writeToOthers r.Clients "alice" "<alice> hello\n" :=
      (mem_writeToOthers _ _ _ _).mpr
        ⟨"bob", cb, GoMap.mem_of_get_some _ _ _ hbmem, by decide, rfl⟩
    rw [hfmt] at hnd
    have hone : writesTo (writeToOthers r.Clients "alice" "<alice> hello\n") cb
        "<alice> hello\n" = 1 := List.count_eq_one_of_mem hnd hin
    rw [hone]
    rfl
  · have hzero : writesTo (writeToOthers r.Clients "alice" "<alice> hello\n") ca
        "<alice> hello\n" = 0 := by
      refine List.count_eq_zero.mpr ?_
      intro hin
      obtain ⟨m, k, hmem, hmS, heq⟩ := (mem_writeToOthers _ _ _ _).mp hin
      injection heq with hk _
      obtain ⟨cm, hcm, hcmc⟩ := hreg (m, k) hmem
      exact hmS (hwf.connsDistinct _ _ _ cm ha hcm (by rw [hcmc]; exact hk))
    rw [hzero]
    rfl

/-- Witness for C4: `alice` on connection 1 and `bob` on connection 2, both in `general`. -/
theorem chat_line_format_witness :
    textsTo (messageLoopData "hello\n" "alice" 1 twoInGeneral).events 2 = ["<alice> hello\n"] ∧
    textsTo (messageLoopData "hello\n" "alice" 1 twoInGeneral).events 1 = [] :=
  chat_line_format twoInGeneral 1 2
    (WellFormed_of_entries twoInGeneral (by decide) (by decide) (by decide) (by decide))
    (MembershipInv_of_entries twoInGeneral (by decide) (by decide) (by decide))
    (by decide) (by decide)

/-- Counterexample to C4 as stated: with `alice` and `bob` in `general`, what `bob`
receives for the message `hello` of `alice` is not the line `alice hello`. -/
theorem chat_line_counterexample :
    GoMap.get twoInGeneral.Clients "alice" = some ⟨"alice", 1, "general"⟩ ∧
    GoMap.get twoInGeneral.Clients "bob" = some ⟨"bob", 2, "general"⟩ ∧
    textsTo (messageLoopData "hello\n" "alice" 1 twoInGeneral).events 2 ≠ ["alice hello\n"] ∧
    textsTo (BroadcastToRoom twoInGeneral "alice" "hello").2 2 ≠ ["alice hello\n"] := by
  decide

/-! ## C5: joining twice -/

/-- C5. Calling `JoinRoom(name, room)` twice in a row returns the same value and
leaves the same directory as calling it once. -/
theorem JoinRoom_idempotent (s : Server) (clientName roomName : String) :
    JoinRoom (JoinRoom s clientName roomName).1 clientName roomName =
      JoinRoom s clientName roomName := by
  cases hr : GoMap.get s.Rooms roomName with
  | none => simp [JoinRoom, hr]
  | some r =>
    cases hc : GoMap.get s.Clients clientName with
    | none => simp [JoinRoom, hr, hc]
    | some c =>
      cases hm : GoMap.get r.Clients clientName with
      | some x =>
        rw [JoinRoom_of_member s clientName roomName r c x hr hc hm]
        exact JoinRoom_of_member s clientName roomName r c x hr hc hm
      | none =>
        obtain ⟨r1, _, _, _, hj⟩ := JoinRoom_of_not_member s clientName roomName r c hr hc hm
        rw [hj]
        exact JoinRoom_of_member _ clientName roomName
          { r1 with Clients := GoMap.put r1.Clients clientName c.Conn }
          { c with CurrentRoom := roomName } c.Conn
          (GoMap.get_put_self _ _ _) (GoMap.get_put_self _ _ _) (GoMap.get_put_self _ _ _)

/-! ## C6: moving between rooms -/

/-- C6. In a state satisfying the membership invariant, for a registered session
`n` whose `CurrentRoom` is `A` (possibly empty) and an existing room `B` of
which `n` is not a member, `JoinRoom(n, B)` succeeds; afterwards `n` has
`CurrentRoom = B`, is a member of `B`, is no longer a member of `A` (when `A` is
non-empty), the other members of `A` and `B`, every other room, every other
session and every membership of another name are as before, the keys of
`Rooms` and of `Clients` are as before, and `n` is a member of `B` and of no
other room. -/
theorem JoinRoom_moves (s : Server) (n A B : String) (c : Client) (rB : Room)
    (hinv : MembershipInv s) (hc : GoMap.get s.Clients n = some c)
    (hA : c.CurrentRoom = A) (hB : GoMap.get s.Rooms B = some rB)
    (hm : GoMap.get rB.Clients n = none) :
    (JoinRoom s n B).2 = none ∧
    GoMap.get (JoinRoom s n B).1.Clients n = some { c with CurrentRoom := B } ∧
    (∃ rB1, GoMap.get (JoinRoom s n B).1.Rooms B = some rB1 ∧ rB1.Name = rB.Name ∧
      GoMap.get rB1.Clients n = some c.Conn ∧
      ∀ m, m ≠ n → GoMap.get rB1.Clients m = GoMap.get rB.Clients m) ∧
    (A ≠ "" → ∃ rA rA1, GoMap.get s.Rooms A = some rA ∧
      GoMap.get (JoinRoom s n B).1.Rooms A = some rA1 ∧ rA1.Name = rA.Name ∧
      GoMap.get rA.Clients n = some c.Conn ∧ GoMap.get rA1.Clients n = none ∧
      ∀ m, m ≠ n → GoMap.get rA1.Clients m = GoMap.get rA.Clients m) ∧
    (∀ x, x ≠ A → x ≠ B → GoMap.get (JoinRoom s n B).1.Rooms x = GoMap.get s.Rooms x) ∧
    (∀ m, m ≠ n → GoMap.get (JoinRoom s n B).1.Clients m = GoMap.get s.Clients m) ∧
    (∀ x m, m ≠ n →
      (GoMap.get (JoinRoom s n B).1.Rooms x).map (fun r => GoMap.get r.Clients m) =
        (GoMap.get s.Rooms x).map (fun r => GoMap.get r.Clients m)) ∧
    GoMap.keys (JoinRoom s n B).1.Rooms = GoMap.keys s.Rooms ∧
    GoMap.keys (JoinRoom s n B).1.Clients = GoMap.keys s.Clients ∧
    (∀ x, isMember (JoinRoom s n B).1 x n ↔ x = B) := by
  obtain ⟨r1, hr1, hname, hcl, hj⟩ := JoinRoom_of_not_member s n B rB c hB hc hm
  subst hA
  have hAB : c.CurrentRoom ≠ "" → B ≠ c.CurrentRoom := by
    intro hne e
    obtain ⟨r, hr, hmem⟩ := hinv.inCurrent n c hc hne
    rw [← e, hB] at hr
    injection hr with hr
    subst hr
    rw [hm] at hmem
    exact absurd hmem (by simp)
  have hrooms : ∀ x, GoMap.get (JoinRoom s n B).1.Rooms x =
      if x = B then some { r1 with Clients := GoMap.put r1.Clients n c.Conn }
      else (GoMap.get s.Rooms x).map fun r =>
        if x = c.CurrentRoom ∧ c.CurrentRoom ≠ "" then
          { r with Clients := GoMap.del r.Clients n }
        else r := by
    intro x
    rw [hj]
    simp only [GoMap.get_put, get_dropFromRoom]
  rw [hcl] at hrooms
  refine ⟨by rw [hj], ?_, ?_, ?_, ?_, ?_, ?_, ?_, ?_, ?_⟩
  · rw [hj]
    exact GoMap.get_put_self _ _ _
  · refine ⟨{ r1 with Clients := GoMap.put rB.Clients n c.Conn },
      by rw [hrooms B, if_pos rfl], hname, GoMap.get_put_self _ _ _, ?_⟩
    intro m hmn
    exact GoMap.get_put_ne _ _ _ _ hmn
  · intro hne
    obtain ⟨rA, hrA, hmem⟩ := hinv.inCurrent n c hc hne
    have hBA := hAB hne
    refine ⟨rA, { rA with Clients := GoMap.del rA.Clients n }, hrA, ?_, rfl, hmem,
      GoMap.get_del_self _ _, ?_⟩
    · rw [hrooms c.CurrentRoom, if_neg (Ne.symm hBA), hrA]
      simp [hne]
    · intro m hmn
      exact GoMap.get_del_ne _ _ _ hmn
  · intro x hxA hxB
    rw [hrooms x, if_neg hxB]
    cases GoMap.get s.Rooms x with
    | none => rfl
    | some r => simp [hxA]
  · intro m hmn
    rw [hj]
    exact GoMap.get_put_ne _ _ _ _ hmn
  · intro x m hmn
    rw [hrooms x]
    by_cases hxB : x = B
    · subst hxB
      simp [hB, GoMap.get_put_ne _ _ _ _ hmn]
    · rw [if_neg hxB]
      cases GoMap.get s.Rooms x with
      | none => rfl
      | some r =>
        simp only [Option.map_some']
        split
        · simp [GoMap.get_del_ne _ _ _ hmn]
        · rfl
  · rw [hj]
    simp only
    rw [GoMap.keys_put_of_get_some _ _ _ _ hr1, keys_dropFromRoom]
  · rw [hj]
    exact GoMap.keys_put_of_get_some _ _ _ _ hc
  · intro x
    rw [isMember_iff]
    constructor
    · rintro ⟨r, hr, hmem⟩
      by_contra hxB
      rw [hrooms x, if_neg hxB] at hr
      cases hg : GoMap.get s.Rooms x with
      | none => simp [hg] at hr
      | some r0 =>
        rw [hg] at hr
        simp only [Option.map_some', Option.some.injEq] at hr
        by_cases hcond : x = c.CurrentRoom ∧ c.CurrentRoom ≠ ""
        · rw [if_pos hcond] at hr
          subst hr
          exact hmem (GoMap.get_del_self _ _)
        · rw [if_neg hcond] at hr
          subst hr
          by_cases he : c.CurrentRoom = ""
          · exact hmem (hinv.emptyInNone n c x r0 hc he hg)
          · have hx : x ≠ c.CurrentRoom := fun e => hcond ⟨e, he⟩
            exact hmem (hinv.inNoOther n c x r0 hc hg hx)
    · intro hx
      subst hx
      refine ⟨_, by rw [hrooms x, if_pos rfl], ?_⟩
      simp [GoMap.get_put_self]

/-- Witness for C6: `alice` moves from `general`, which she shares with `bob`, to
the empty room `lobby`. -/
theorem JoinRoom_moves_witness :
    (JoinRoom withLobby "alice" "lobby").2 = none ∧
    ∀ x, isMember (JoinRoom withLobby "alice" "lobby").1 x "alice" ↔ x = "lobby" :=
  ⟨(JoinRoom_moves withLobby "alice" "general" "lobby" ⟨"alice", 1, "general"⟩ ⟨"lobby", []⟩
      (MembershipInv_of_entries withLobby (by decide) (by decide) (by decide))
      (by decide) rfl (by decide) (by decide)).1,
   (JoinRoom_moves withLobby "alice" "general" "lobby" ⟨"alice", 1, "general"⟩ ⟨"lobby", []⟩
      (MembershipInv_of_entries withLobby (by decide) (by decide) (by decide))
      (by decide) rfl (by decide) (by decide)).2.2.2.2.2.2.2.2.2⟩

/-! ## C7: errors of JoinRoom -/

/-- C7. `JoinRoom(name, room)` returns an error exactly when `room` is not in
`Rooms` (the room-not-found error) or `name` is not in `Clients` (the
client-not-found error), and a call that returns an error leaves the directory
as it was. -/
theorem JoinRoom_error_iff (s : Server) (clientName roomName : String) :
    ((JoinRoom s clientName roomName).2 ≠ none ↔
      (GoMap.get s.Rooms roomName = none ∨ GoMap.get s.Clients clientName = none)) ∧
    (GoMap.get s.Rooms roomName = none →
      (JoinRoom s clientName roomName).2 = some errRoomNotFound) ∧
    (GoMap.get s.Rooms roomName ≠ none → GoMap.get s.Clients clientName = none →
      (JoinRoom s clientName roomName).2 = some errClientNotFound) ∧
    ((JoinRoom s clientName roomName).2 ≠ none → (JoinRoom s clientName roomName).1 = s) := by
  cases hr : GoMap.get s.Rooms roomName with
  | none => simp [JoinRoom, hr]
  | some r =>
    cases hc : GoMap.get s.Clients clientName with
    | none => simp [JoinRoom, hr, hc]
    | some c =>
      cases hm : GoMap.get r.Clients clientName with
      | some x => simp [JoinRoom, hr, hc, hm]
      | none => simp [JoinRoom, hr, hc, hm]

/-- Witness for C7: joining a room that does not exist, and joining as a name
that is not registered. -/
theorem JoinRoom_error_iff_witness :
    (JoinRoom twoInGeneral "alice" "lobby").2 = some errRoomNotFound ∧
    (JoinRoom twoInGeneral "carol" "general").2 = some errClientNotFound ∧
    (JoinRoom twoInGeneral "carol" "general").1 = twoInGeneral :=
  ⟨(JoinRoom_error_iff twoInGeneral "alice" "lobby").2.1 (by decide),
   (JoinRoom_error_iff twoInGeneral "carol" "general").2.2.1 (by decide) (by decide),
   (JoinRoom_error_iff twoInGeneral "carol" "general").2.2.2 (by decide)⟩

/-! ## C8: leaving when in no room -/

/-- C8. For a registered session whose `CurrentRoom` is empty, `LeaveRoom(name)`
returns success and the directory afterwards is the directory before; for a
name that is not registered it returns the client-not-found error and the
directory is the directory before as well. -/
theorem LeaveRoom_absent_noop (s : Server) (clientName : String) :
    (∀ c, GoMap.get s.Clients clientName = some c → c.CurrentRoom = "" →
      LeaveRoom s clientName = (s, none)) ∧
    (GoMap.get s.Clients clientName = none →
      LeaveRoom s clientName = (s, some errClientNotFound)) := by
  constructor
  · intro c hc he
    simp [LeaveRoom, hc, he]
  · intro hc
    simp [LeaveRoom, hc]

/-- Witness for C8: `alice` has left her room and leaves again; `carol` never registered. -/
theorem LeaveRoom_absent_noop_witness :
    LeaveRoom aliceOutside "alice" = (aliceOutside, none) ∧
    LeaveRoom aliceOutside "carol" = (aliceOutside, some errClientNotFound) :=
  ⟨(LeaveRoom_absent_noop aliceOutside "alice").1 ⟨"alice", 1, ""⟩ (by decide) (by decide),
   (LeaveRoom_absent_noop aliceOutside "carol").2 (by decide)⟩

/-! ## C9: deregistration -/

/-- What `RemoveClient` does in every state.  For a registered `name`,
`RemoveClient(name)` succeeds; afterwards `name` is not in `Clients` and, when
its former `CurrentRoom` is non-empty, not in the member map of the room of
that name; with an empty `CurrentRoom` no room is touched; the rooms keep
their keys and names, every other session and every membership of another
name is as before, rooms other than the former `CurrentRoom` are untouched, and
a second `RemoveClient(name)` returns the not-found error and changes nothing.
For a name that is not registered `RemoveClient` returns the not-found error and
changes nothing. -/
theorem RemoveClient_contract (s : Server) (name : String) :
    (∀ c, GoMap.get s.Clients name = some c →
      (RemoveClient s name).2 = none ∧
      GoMap.get (RemoveClient s name).1.Clients name = none ∧
      (c.CurrentRoom ≠ "" → ∀ r1, GoMap.get (RemoveClient s name).1.Rooms c.CurrentRoom = some r1 →
        GoMap.get r1.Clients name = none) ∧
      (∀ n, n ≠ name →
        GoMap.get (RemoveClient s name).1.Clients n = GoMap.get s.Clients n) ∧
      GoMap.keys (RemoveClient s name).1.Rooms = GoMap.keys s.Rooms ∧
      (∀ x, (GoMap.get (RemoveClient s name).1.Rooms x).map Room.Name =
        (GoMap.get s.Rooms x).map Room.Name) ∧
      (∀ x n, n ≠ name →
        (GoMap.get (RemoveClient s name).1.Rooms x).map (fun r => GoMap.get r.Clients n) =
          (GoMap.get s.Rooms x).map (fun r => GoMap.get r.Clients n)) ∧
      (∀ x, x ≠ c.CurrentRoom →
        GoMap.get (RemoveClient s name).1.Rooms x = GoMap.get s.Rooms x) ∧
      (c.CurrentRoom = "" → (RemoveClient s name).1.Rooms = s.Rooms) ∧
      RemoveClient (RemoveClient s name).1 name =
        ((RemoveClient s name).1, some errClientNotFoundRemove)) ∧
    (GoMap.get s.Clients name = none →
      RemoveClient s name = (s, some errClientNotFoundRemove)) := by
  constructor
  · intro c hc
    have hs : RemoveClient s name =
        ({ Rooms := dropFromRoom s.Rooms c.CurrentRoom name,
           Clients := GoMap.del s.Clients name }, none) := by
      simp [RemoveClient, hc]
    rw [hs]
    refine ⟨rfl, GoMap.get_del_self _ _, ?_, ?_, keys_dropFromRoom _ _ _, ?_, ?_, ?_, ?_, ?_⟩
    · intro hne r1 hr1
      simp only [get_dropFromRoom] at hr1
      cases hg : GoMap.get s.Rooms c.CurrentRoom with
      | none => simp [hg] at hr1
      | some r =>
        simp [hg, hne] at hr1
        subst hr1
        exact GoMap.get_del_self _ _
    · intro n hn
      exact GoMap.get_del_ne _ _ _ hn
    · intro x
      simp only [get_dropFromRoom]
      cases GoMap.get s.Rooms x with
      | none => rfl
      | some r =>
        simp only [Option.map_some']
        split <;> rfl
    · intro x n hn
      simp only [get_dropFromRoom]
      cases GoMap.get s.Rooms x with
      | none => rfl
      | some r =>
        simp only [Option.map_some']
        split
        · simp [GoMap.get_del_ne _ _ _ hn]
        · rfl
    · intro x hx
      simp only [get_dropFromRoom]
      cases GoMap.get s.Rooms x with
      | none => rfl
      | some r => simp [hx]
    · intro he
      simp [dropFromRoom, he]
    · simp [RemoveClient, GoMap.get_del_self]
  · intro hc
    simp [RemoveClient, hc]

/-- An instance: `alice` is removed from the room she shares with `bob`; `carol` never
registered. -/
theorem RemoveClient_contract_witness :
    (RemoveClient twoInGeneral "alice").2 = none ∧
    GoMap.get (RemoveClient twoInGeneral "alice").1.Clients "alice" = none ∧
    RemoveClient twoInGeneral "carol" = (twoInGeneral, some errClientNotFoundRemove) :=
  ⟨((RemoveClient_contract twoInGeneral "alice").1 ⟨"alice", 1, "general"⟩ (by decide)).1,
   ((RemoveClient_contract twoInGeneral "alice").1 ⟨"alice", 1, "general"⟩ (by decide)).2.1,
   (RemoveClient_contract twoInGeneral "carol").2 (by decide)⟩

/-- C9, on the schedule `unnamedSchedule`. After `alice` registered and sent
`/join  lobby` (two spaces) she is registered with an empty `CurrentRoom` and is
the one member of the room stored under the empty name.  `RemoveClient("alice")`
succeeds and takes her out of `Clients`, but it skips the room because her
`CurrentRoom` is the empty string: she is still a member of that room.  This is
the state the server is in after the next read of connection 1 failed and its
handler returned: `bob`, who registers afterwards and is the only session, is
told by `/rooms` that the room with the empty name has one user. -/
theorem RemoveClient_skips_unnamed_room :
    (initSystem.run (unnamedSchedule.take 2)).server = aliceInUnnamed ∧
    GoMap.get aliceInUnnamed.Clients "alice" = some ⟨"alice", 1, ""⟩ ∧
    GoMap.get aliceInUnnamed.Rooms "" = some ⟨"", [("alice", 1)]⟩ ∧
    isMember aliceInUnnamed "" "alice" ∧
    (RemoveClient aliceInUnnamed "alice").2 = none ∧
    GoMap.get (RemoveClient aliceInUnnamed "alice").1.Clients "alice" = none ∧
    GoMap.get (RemoveClient aliceInUnnamed "alice").1.Rooms "" = some ⟨"", [("alice", 1)]⟩ ∧
    isMember (RemoveClient aliceInUnnamed "alice").1 "" "alice" ∧
    (initSystem.run (unnamedSchedule.take 3)).server = (RemoveClient aliceInUnnamed "alice").1 ∧
    (initSystem.run (unnamedSchedule.take 3)).phase 1 = Phase.returned ∧
    GoMap.keys (initSystem.run unnamedSchedule).server.Clients = ["bob"] ∧
    writesTo (handleCommand "/rooms" "bob" 2 (initSystem.run unnamedSchedule).server).events 2
      "*  (1 users)\n" = 1 := by
  decide

/-! ## C10: a message sent from outside every room -/

/-- For every registered session with an empty `CurrentRoom` and every line that,
once trimmed, is non-empty and does not start with `/`, the message loop writes
nothing and leaves the directory as it was. -/
theorem messageLoopData_not_in_room (s : Server) (data username : String) (conn : Conn)
    (c : Client) (hc : GoMap.get s.Clients username = some c) (he : c.CurrentRoom = "")
    (h1 : TrimSpace data ≠ "") (h2 : startsWithSlash (TrimSpace data) = false) :
    messageLoopData data username conn s = { server := s, events := [], panicked := false } := by
  simp [messageLoopData, h1, h2, BroadcastToRoom, hc, he]


/-- C10, on a session outside every room. `alice` is registered with an empty `CurrentRoom` and
sends `hello`: `BroadcastToRoom` returns an error, the message loop drops it,
nothing at all is written (to no peer, and not to the connection of `alice`
either), the directory is unchanged and `alice` stays registered. -/
theorem not_in_room_is_silent :
    GoMap.get aliceOutside.Clients "alice" = some ⟨"alice", 1, ""⟩ ∧
    (BroadcastToRoom aliceOutside "alice" "hello").1 = some errRoomNotFound ∧
    messageLoopData "hello\n" "alice" 1 aliceOutside =
      { server := aliceOutside, events := [], panicked := false } ∧
    textsTo (messageLoopData "hello\n" "alice" 1 aliceOutside).events 1 = [] := by
  decide

/-! ## C11: the tokens of a `/join` line -/

/-- C11, as the code has it. In a state satisfying the membership invariant, for a
registered session: for a line made of `/join`, exactly one space, and a
non-empty room name `R` without a space, `handleCommand` splits the line into
`/join` and `R` and runs the join command with `R` as its argument: it does not
panic, room `R` exists afterwards, the `CurrentRoom` of the session is `R`, and
the membership invariant holds again.  A tab does not separate: for every `T`
without a space, the line made of `/join`, a tab and `T` is one token, and
`handleCommand` answers that the command is unknown and leaves the directory
as it was. -/
theorem join_line_single_space (s : Server) (username : String) (conn : Conn) (c : Client)
    (hinv : MembershipNames s) (hc : GoMap.get s.Clients username = some c) :
    (∀ R : String, R ≠ "" → ' ' ∉ R.data →
      Split ("/join " ++ R) = ["/join", R] ∧
      handleCommand ("/join " ++ R) username conn s = cmdJoin ["/join", R] username conn s ∧
      (handleCommand ("/join " ++ R) username conn s).panicked = false ∧
      GoMap.get (handleCommand ("/join " ++ R) username conn s).server.Rooms R ≠ none ∧
      GoMap.get (handleCommand ("/join " ++ R) username conn s).server.Clients username =
        some { c with CurrentRoom := R } ∧
      MembershipNames (handleCommand ("/join " ++ R) username conn s).server) ∧
    (∀ T : String, ' ' ∉ T.data →
      Split ("/join\t" ++ T) = ["/join\t" ++ T] ∧
      handleCommand ("/join\t" ++ T) username conn s =
        { server := s,
          events := [Event.write conn "[Error] Unknown command\n",
                     Event.write conn "Type /help for available commands\n"],
          panicked := false }) := by
  constructor
  · intro R hne hR
    obtain ⟨room, hroom, hcmd⟩ := cmdJoin_registered s username R conn c hc
    have hline := handleCommand_join_line R username conn s hR
    refine ⟨Split_join_line R hR, hline, ?_, ?_, ?_,
      join_line_names s username R conn c hinv hc hne hR⟩
    · rw [hline, hcmd]
    · rw [hline, hcmd]
      simp [hroom]
    · rw [hline, hcmd]
      refine JoinRoom_sets_current _ username R c ?_ (createRoom_exists R conn s) ?_
      · rw [createRoom_clients]
        exact hc
      · intro k hk
        rw [memberConn_createRoom] at hk
        exact current_of_member s username R c k hinv hc hk
  · intro T hT
    exact ⟨Split_tab_line T hT, handleCommand_tab_line T username conn s hT⟩

/-- Witness for C11: `alice`, in `general` with `bob`, sends `/join lobby`, and
sends `/join`, a tab and `lobby`. -/
theorem join_line_single_space_witness :
    GoMap.get (handleCommand ("/join " ++ "lobby") "alice" 1 twoInGeneral).server.Rooms "lobby"
      ≠ none ∧
    GoMap.get (handleCommand ("/join " ++ "lobby") "alice" 1 twoInGeneral).server.Clients "alice"
      = some ⟨"alice", 1, "lobby"⟩ ∧
    handleCommand ("/join\t" ++ "lobby") "alice" 1 twoInGeneral =
      { server := twoInGeneral,
        events := [Event.write 1 "[Error] Unknown command\n",
                   Event.write 1 "Type /help for available commands\n"],
        panicked := false } :=
  ⟨((join_line_single_space twoInGeneral "alice" 1 ⟨"alice", 1, "general"⟩
      (MembershipNames_of_inv twoInGeneral
        (MembershipInv_of_entries twoInGeneral (by decide) (by decide) (by decide)))
      (by decide)).1 "lobby" (by decide) (by decide)).2.2.2.1,
   ((join_line_single_space twoInGeneral "alice" 1 ⟨"alice", 1, "general"⟩
      (MembershipNames_of_inv twoInGeneral
        (MembershipInv_of_entries twoInGeneral (by decide) (by decide) (by decide)))
      (by decide)).1 "lobby" (by decide) (by decide)).2.2.2.2.1,
   ((join_line_single_space twoInGeneral "alice" 1 ⟨"alice", 1, "general"⟩
      (MembershipNames_of_inv twoInGeneral
        (MembershipInv_of_entries twoInGeneral (by decide) (by decide) (by decide)))
      (by decide)).2 "lobby" (by decide)).2⟩

/-- Counterexample to C11 as stated. With `alice` registered in `general`: after
`/join`, a tab and `lobby`, the line is one token, the command is unknown,
nothing changes and no room `lobby` exists; after `/join`, two spaces and
`lobby`, the argument is the empty string, no room `lobby` exists and the
`CurrentRoom` of `alice` is empty. -/
theorem join_line_counterexample :
    GoMap.get twoInGeneral.Clients "alice" = some ⟨"alice", 1, "general"⟩ ∧
    Split "/join\tlobby" = ["/join\tlobby"] ∧
    handleCommand "/join\tlobby" "alice" 1 twoInGeneral =
      { server := twoInGeneral,
        events := [Event.write 1 "[Error] Unknown command\n",
                   Event.write 1 "Type /help for available commands\n"],
        panicked := false } ∧
    GoMap.get (handleCommand "/join\tlobby" "alice" 1 twoInGeneral).server.Rooms "lobby" = none ∧
    Split "/join  lobby" = ["/join", "", "lobby"] ∧
    GoMap.get (handleCommand "/join  lobby" "alice" 1 twoInGeneral).server.Rooms "lobby" = none ∧
    GoMap.get (handleCommand "/join  lobby" "alice" 1 twoInGeneral).server.Clients "alice" =
      some ⟨"alice", 1, ""⟩ := by
  decide

/-! ## C12: `/join` creates the room -/

/-- C12. In a well-formed state satisfying the membership invariant in which
`alice` is in room `general` and no room `lobby` exists, `/join lobby` handled
for `alice` succeeds: it reports the creation and the join and lists `alice`
alone; afterwards room `lobby` has `alice` as its only member, `alice` is no
longer in `general`, which has one member less, and her `CurrentRoom` is
`lobby`.  A following `/rooms` leaves the directory as it is and writes, between
the header and the footer, one line per room of the directory, among them
exactly one line `* lobby (1 users)` and exactly one line
`* general (k users)` where `k` is the former number of members less one. -/
theorem join_creates_lobby (s : Server) (c : Client) (rg : Room) (conn : Conn)
    (hwf : WellFormed s) (hinv : MembershipInv s)
    (ha : GoMap.get s.Clients "alice" = some c) (hcr : c.CurrentRoom = "general")
    (hg : GoMap.get s.Rooms "general" = some rg) (hl : GoMap.get s.Rooms "lobby" = none) :
    (handleCommand "/join lobby" "alice" conn s).panicked = false ∧
    (handleCommand "/join lobby" "alice" conn s).events =
      [Event.write conn "[Server] Created new room: lobby\n",
       Event.write conn "--- Joined room: lobby ---\n",
       Event.write conn "Users in room (1):\n",
       Event.write conn "* alice (you)\n",
       Event.write conn "------------------------\n"] ∧
    GoMap.get (handleCommand "/join lobby" "alice" conn s).server.Rooms "lobby" =
      some { Name := "lobby", Clients := [("alice", c.Conn)] } ∧
    (∃ rg1, GoMap.get (handleCommand "/join lobby" "alice" conn s).server.Rooms "general"
        = some rg1 ∧
      GoMap.get rg1.Clients "alice" = none ∧ rg1.Clients.length + 1 = rg.Clients.length ∧
      ∀ m, m ≠ "alice" → GoMap.get rg1.Clients m = GoMap.get rg.Clients m) ∧
    GoMap.get (handleCommand "/join lobby" "alice" conn s).server.Clients "alice" =
      some { c with CurrentRoom := "lobby" } ∧
    GoMap.keys (handleCommand "/join lobby" "alice" conn s).server.Rooms =
      GoMap.keys s.Rooms ++ ["lobby"] ∧
    (GoMap.keys (handleCommand "/join lobby" "alice" conn s).server.Rooms).Nodup ∧
    (handleCommand "/rooms" "alice" conn
        (handleCommand "/join lobby" "alice" conn s).server).server =
      (handleCommand "/join lobby" "alice" conn s).server ∧
    (handleCommand "/rooms" "alice" conn
        (handleCommand "/join lobby" "alice" conn s).server).events =
      [Event.write conn "Available Rooms:\n", Event.write conn "================\n"]
        ++ roomLines (handleCommand "/join lobby" "alice" conn s).server.Rooms conn
        ++ [Event.write conn "================\n"] ∧
    (roomLines (handleCommand "/join lobby" "alice" conn s).server.Rooms conn).length =
      (GoMap.keys (handleCommand "/join lobby" "alice" conn s).server.Rooms).length ∧
    writesTo (handleCommand "/rooms" "alice" conn
        (handleCommand "/join lobby" "alice" conn s).server).events conn
      "* lobby (1 users)\n" = 1 ∧
    writesTo (handleCommand "/rooms" "alice" conn
        (handleCommand "/join lobby" "alice" conn s).server).events conn
      ("* general (" ++ fmtInt (rg.Clients.length - 1) ++ " users)\n") = 1 := by
  have hout := join_lobby_outcome s c rg conn ha hcr hg hl
  have hgl : ("general" : String) ≠ "lobby" := by decide
  have hge : c.CurrentRoom ≠ "" := by
    rw [hcr]
    decide
  obtain ⟨r0, hr0, hmem⟩ := hinv.inCurrent "alice" c ha hge
  rw [hcr, hg] at hr0
  injection hr0 with hr0
  subst hr0
  have hlen := length_del rg.Clients "alice" c.Conn (hwf.memberKeys _ rg hg) hmem
  have hk1 : GoMap.keys (GoMap.put s.Rooms "lobby" ({ Name := "lobby", Clients := [] } : Room))
      = GoMap.keys s.Rooms ++ ["lobby"] := GoMap.keys_put_of_get_none _ _ _ hl
  have hg1 : GoMap.get (GoMap.put s.Rooms "lobby" ({ Name := "lobby", Clients := [] } : Room))
      "general" = some rg := by
    rw [GoMap.get_put_ne _ _ _ _ hgl]
    exact hg
  have hkeys : GoMap.keys (handleCommand "/join lobby" "alice" conn s).server.Rooms =
      GoMap.keys s.Rooms ++ ["lobby"] := by
    rw [hout]
    simp only
    rw [GoMap.keys_put_of_get_some _ _ _ { Name := "lobby", Clients := [] }
      (by rw [GoMap.get_put_ne _ _ _ _ hgl.symm, GoMap.get_put_self]),
      GoMap.keys_put_of_get_some _ _ _ rg hg1, hk1]
  have hnd : (GoMap.keys (handleCommand "/join lobby" "alice" conn s).server.Rooms).Nodup := by
    rw [hout]
    exact keys_put_nodup _ _ _ (keys_put_nodup _ _ _ (keys_put_nodup _ _ _ hwf.roomKeys))
  have hlobby : GoMap.get (handleCommand "/join lobby" "alice" conn s).server.Rooms "lobby" =
      some { Name := "lobby", Clients := [("alice", c.Conn)] } := by
    rw [hout]
    exact GoMap.get_put_self _ _ _
  have hgen : GoMap.get (handleCommand "/join lobby" "alice" conn s).server.Rooms "general" =
      some { rg with Clients := GoMap.del rg.Clients "alice" } := by
    rw [hout]
    simp only
    rw [GoMap.get_put_ne _ _ _ _ hgl, GoMap.get_put_self]
  have hrooms := handleCommand_rooms "alice" conn
    (handleCommand "/join lobby" "alice" conn s).server
  have e1 : ("* " ++ "lobby" ++ " (" ++ fmtInt 1 ++ " users)\n" : String) =
      "* lobby (1 users)\n" := by decide
  have e2 : ("* " ++ "general" ++ " (" : String) = "* general (" := by decide
  have hc1 := roomLines_count _ conn "lobby" _ hnd hlobby
  have hc2 := roomLines_count _ conn "general" _ hnd hgen
  simp only [List.length_singleton] at hc1
  rw [e1] at hc1
  rw [e2] at hc2
  have hl2 : (GoMap.del rg.Clients "alice").length = rg.Clients.length - 1 := by omega
  simp only [hl2] at hc2
  refine ⟨by rw [hout], by rw [hout], hlobby, ?_, by rw [hout]; exact GoMap.get_put_self _ _ _,
    hkeys, hnd, by rw [hrooms]; rfl, by rw [hrooms]; rfl, ?_, ?_, ?_⟩
  · exact ⟨_, hgen, GoMap.get_del_self _ _, hlen, fun m hm => GoMap.get_del_ne _ _ _ hm⟩
  · rw [roomLines_eq_map]
    simp [GoMap.keys]
  · rw [hrooms]
    simp only [cmdRooms]
    rw [rooms_frame_no_line conn conn _ "* lobby (1 users)\n" rfl]
    exact hc1
  · rw [hrooms]
    simp only [cmdRooms]
    rw [rooms_frame_no_line conn conn _
      ("* general (" ++ fmtInt (rg.Clients.length - 1) ++ " users)\n")
      (head_append _ _ _ (head_append "* general (" _ _ rfl))]
    exact hc2

/-- Witness for C12: `alice`, in `general` with `bob`, sends `/join lobby` and then
`/rooms`. -/
theorem join_creates_lobby_witness :
    GoMap.get (handleCommand "/join lobby" "alice" 1 twoInGeneral).server.Rooms "lobby" =
      some { Name := "lobby", Clients := [("alice", 1)] } ∧
    writesTo (handleCommand "/rooms" "alice" 1
        (handleCommand "/join lobby" "alice" 1 twoInGeneral).server).events 1
      "* lobby (1 users)\n" = 1 ∧
    writesTo (handleCommand "/rooms" "alice" 1
        (handleCommand "/join lobby" "alice" 1 twoInGeneral).server).events 1
      "* general (1 users)\n" = 1 :=
  ⟨(join_creates_lobby twoInGeneral ⟨"alice", 1, "general"⟩
      ⟨"general", [("alice", 1), ("bob", 2)]⟩ 1
      (WellFormed_of_entries twoInGeneral (by decide) (by decide) (by decide) (by decide))
      (MembershipInv_of_entries twoInGeneral (by decide) (by decide) (by decide))
      (by decide) rfl (by decide) (by decide)).2.2.1,
   (join_creates_lobby twoInGeneral ⟨"alice", 1, "general"⟩
      ⟨"general", [("alice", 1), ("bob", 2)]⟩ 1
      (WellFormed_of_entries twoInGeneral (by decide) (by decide) (by decide) (by decide))
      (MembershipInv_of_entries twoInGeneral (by decide) (by decide) (by decide))
      (by decide) rfl (by decide) (by decide)).2.2.2.2.2.2.2.2.2.2.1,
   (join_creates_lobby twoInGeneral ⟨"alice", 1, "general"⟩
      ⟨"general", [("alice", 1), ("bob", 2)]⟩ 1
      (WellFormed_of_entries twoInGeneral (by decide) (by decide) (by decide) (by decide))
      (MembershipInv_of_entries twoInGeneral (by decide) (by decide) (by decide))
      (by decide) rfl (by decide) (by decide)).2.2.2.2.2.2.2.2.2.2.2⟩

/-! ## C13: the `/quit` command -/

/-- C13. In a well-formed state satisfying the membership invariant in which
`alice` and `bob` are members of the same room `R`, `/quit` handled for
`alice` writes `*** alice disconnected ***` and a newline exactly once to the
connection of `bob`, and exactly once to the connection of every other member
of `R`; it writes nothing to a session that is not a member of `R`; afterwards
`alice` is not in `Clients` and is a member of no room, and, the room
`general` being there, `AddClient("alice", conn, "general")` succeeds. -/
theorem quit_scenario (s : Server) (R : String) (ca cb : Client)
    (hwf : WellFormed s) (hinv : MembershipInv s)
    (ha : GoMap.get s.Clients "alice" = some ca) (hb : GoMap.get s.Clients "bob" = some cb)
    (hRa : isMember s R "alice") (hRb : isMember s R "bob") :
    (handleCommand "/quit" "alice" ca.Conn s).panicked = false ∧
    writesTo (handleCommand "/quit" "alice" ca.Conn s).events cb.Conn
      "*** alice disconnected ***\n" = 1 ∧
    (∀ m cm, m ≠ "alice" → isMember s R m → GoMap.get s.Clients m = some cm →
      writesTo (handleCommand "/quit" "alice" ca.Conn s).events cm.Conn
        "*** alice disconnected ***\n" = 1) ∧
    (∀ m cm, GoMap.get s.Clients m = some cm → ¬ isMember s R m →
      ∀ t, Event.write cm.Conn t ∉ (handleCommand "/quit" "alice" ca.Conn s).events) ∧
    GoMap.get (handleCommand "/quit" "alice" ca.Conn s).server.Clients "alice" = none ∧
    (∀ x, ¬ isMember (handleCommand "/quit" "alice" ca.Conn s).server x "alice") ∧
    (∀ conn, GoMap.get s.Rooms "general" ≠ none →
      (AddClient (handleCommand "/quit" "alice" ca.Conn s).server "alice" conn "general").2 =
        .ok ⟨"alice", conn, "general"⟩) := by
  rw [handleCommand_quit]
  have hk : ∃ k, memberConn s.Rooms R "alice" = some k := by
    unfold isMember at hRa
    cases h : memberConn s.Rooms R "alice" with
    | none => exact absurd h hRa
    | some k => exact ⟨k, rfl⟩
  obtain ⟨k, hk⟩ := hk
  have hcur : ca.CurrentRoom = R :=
    current_of_member s "alice" R ca k (MembershipNames_of_inv s hinv) ha hk
  have hne : ca.CurrentRoom ≠ "" := by
    intro he
    have := ((MembershipInv_iff s).mp hinv).2.1 "alice" ca R ha (Or.inr he)
    rw [hk] at this
    exact absurd this (by simp)
  subst hcur
  obtain ⟨r, hr, hmem, hone, hnone, hall⟩ :=
    notify_counts s "alice" "*** alice disconnected ***\n" ca hwf hinv ha hne
  have htext : ("*** " ++ "alice" ++ " disconnected ***\n" : String) =
      "*** alice disconnected ***\n" := by decide
  have hcmd : cmdQuit "alice" ca.Conn s =
      { server := { Rooms := dropFromRoom s.Rooms ca.CurrentRoom "alice",
                    Clients := GoMap.del s.Clients "alice" },
        events := writeToOthers r.Clients "alice" "*** alice disconnected ***\n"
          ++ [Event.write ca.Conn "+-------------------+\n",
              Event.write ca.Conn "|  Thanks for chat! |\n",
              Event.write ca.Conn "+-------------------+\n",
              Event.close ca.Conn],
        panicked := false } := by
    simp [cmdQuit, ha, hne, hr, htext, RemoveClient]
  rw [hcmd]
  have hbob : ("bob" : String) ≠ "alice" := by decide
  refine ⟨rfl, ?_, ?_, ?_, GoMap.get_del_self _ _, ?_, ?_⟩
  · simp only [writesTo_append, quit_banner_no_notice, Nat.add_zero]
    exact hone "bob" cb hbob hRb hb
  · intro m cm hmn hm hcm
    simp only [writesTo_append, quit_banner_no_notice, Nat.add_zero]
    exact hone m cm hmn hm hcm
  · intro m cm hcm hnot t ht
    simp only [List.mem_append, List.mem_cons, List.mem_singleton, List.mem_nil_iff,
      or_false] at ht
    have hma : m ≠ "alice" := by
      intro e
      subst e
      exact hnot hRa
    have hconn : cm.Conn ≠ ca.Conn := fun e => hma (hwf.connsDistinct m cm "alice" ca hcm ha e)
    rcases ht with ht | ht | ht | ht | ht
    · refine hnone cm.Conn ?_ t ht
      rintro ⟨m1, cm1, _, hm1, hcm1, hc1⟩
      have : m1 = m := hwf.connsDistinct m1 cm1 m cm hcm1 hcm hc1
      subst this
      exact hnot hm1
    · injection ht with h1 _
      exact hconn h1
    · injection ht with h1 _
      exact hconn h1
    · injection ht with h1 _
      exact hconn h1
    · cases ht
  · intro x
    unfold isMember
    simp only [memberConn_dropFromRoom, ne_eq, not_not]
    split
    · rfl
    · rename_i hcond
      refine ((MembershipInv_iff s).mp hinv).2.1 "alice" ca x ha (Or.inl ?_)
      intro hx
      exact hcond ⟨hx, hne, trivial⟩
  · intro conn hg
    refine AddClient_ok _ "alice" conn "general" ?_ (GoMap.get_del_self _ _)
    exact dropFromRoom_present _ _ _ _ hg

/-- Witness for C13: `alice` quits the room `general` she shares with `bob`. -/
theorem quit_scenario_witness :
    writesTo (handleCommand "/quit" "alice" 1 twoInGeneral).events 2
      "*** alice disconnected ***\n" = 1 ∧
    GoMap.get (handleCommand "/quit" "alice" 1 twoInGeneral).server.Clients "alice" = none ∧
    (AddClient (handleCommand "/quit" "alice" 1 twoInGeneral).server "alice" 3 "general").2 =
      .ok ⟨"alice", 3, "general"⟩ :=
  ⟨(quit_scenario twoInGeneral "general" ⟨"alice", 1, "general"⟩ ⟨"bob", 2, "general"⟩
      (WellFormed_of_entries twoInGeneral (by decide) (by decide) (by decide) (by decide))
      (MembershipInv_of_entries twoInGeneral (by decide) (by decide) (by decide))
      (by decide) (by decide) (by decide) (by decide)).2.1,
   (quit_scenario twoInGeneral "general" ⟨"alice", 1, "general"⟩ ⟨"bob", 2, "general"⟩
      (WellFormed_of_entries twoInGeneral (by decide) (by decide) (by decide) (by decide))
      (MembershipInv_of_entries twoInGeneral (by decide) (by decide) (by decide))
      (by decide) (by decide) (by decide) (by decide)).2.2.2.2.1,
   (quit_scenario twoInGeneral "general" ⟨"alice", 1, "general"⟩ ⟨"bob", 2, "general"⟩
      (WellFormed_of_entries twoInGeneral (by decide) (by decide) (by decide) (by decide))
      (MembershipInv_of_entries twoInGeneral (by decide) (by decide) (by decide))
      (by decide) (by decide) (by decide) (by decide)).2.2.2.2.2.2 3 (by decide)⟩

/-! ## C14: what a handler does after `/quit` -/

/-- C14, on the schedule `quitSchedule`. After the handler of connection 1 has
processed `/quit` for `alice`, the session is deregistered and the connection
closed, but the handler is still in its message loop.  Connection 2 then
registers `alice`.  The next iteration of the first handler, whose read
fails, calls `RemoveClient("alice")` a second time and returns: the session of
connection 2 is gone from the directory while its handler is in the message
loop for `alice`.  A handler that saw a read error, in contrast, has returned
and does nothing more. -/
theorem quit_is_not_absorbing :
    (messageLoopStep (.data "/quit\n") "alice" 1 twoInGeneral).1 = Phase.active "alice" ∧
    (messageLoopStep .err "alice" 1 twoInGeneral).1 = Phase.returned ∧
    (initSystem.run (quitSchedule.take 2)).phase 1 = Phase.active "alice" ∧
    (initSystem.run (quitSchedule.take 2)).closed 1 = true ∧
    GoMap.get (initSystem.run (quitSchedule.take 2)).server.Clients "alice" = none ∧
    GoMap.get (initSystem.run (quitSchedule.take 3)).server.Clients "alice" =
      some ⟨"alice", 2, "general"⟩ ∧
    (initSystem.run (quitSchedule.take 3)).phase 2 = Phase.active "alice" ∧
    (initSystem.run (quitSchedule.take 4)).server =
      (RemoveClient (initSystem.run (quitSchedule.take 3)).server "alice").1 ∧
    GoMap.get (initSystem.run (quitSchedule.take 4)).server.Clients "alice" = none ∧
    (initSystem.run (quitSchedule.take 4)).phase 2 = Phase.active "alice" ∧
    (initSystem.run (quitSchedule.take 4)).phase 1 = Phase.returned := by
  decide

/-! ## C15: the `/leave` command -/

/-- C15. In a well-formed state satisfying the membership invariant, for a
registered session `n` whose `CurrentRoom` is the room `R` (non-empty),
`/leave` handled for `n` writes `*** n left the room ***` and a newline exactly
once to the connection of every other member of `R` and to no other
connection, leaves `n` registered with an empty `CurrentRoom` and a member of
no room, and what it writes to `n` is the one line `--- Left room: R ---`.
When the `CurrentRoom` of `n` is empty, it writes the `[Info]` notice to `n`,
nothing else, and the directory is unchanged. -/
theorem leave_command (s : Server) (n : String) (c : Client)
    (hwf : WellFormed s) (hinv : MembershipInv s) (hn : GoMap.get s.Clients n = some c) :
    (c.CurrentRoom ≠ "" →
      (handleCommand "/leave" n c.Conn s).panicked = false ∧
      (∀ m cm, m ≠ n → isMember s c.CurrentRoom m → GoMap.get s.Clients m = some cm →
        writesTo (handleCommand "/leave" n c.Conn s).events cm.Conn
          ("*** " ++ n ++ " left the room ***\n") = 1) ∧
      (∀ k, (¬ ∃ m cm, m ≠ n ∧ isMember s c.CurrentRoom m ∧
          GoMap.get s.Clients m = some cm ∧ cm.Conn = k) →
        writesTo (handleCommand "/leave" n c.Conn s).events k
          ("*** " ++ n ++ " left the room ***\n") = 0) ∧
      (∀ k, k ≠ c.Conn → ∀ t, Event.write k t ∈ (handleCommand "/leave" n c.Conn s).events →
        t = "*** " ++ n ++ " left the room ***\n") ∧
      GoMap.get (handleCommand "/leave" n c.Conn s).server.Clients n =
        some { c with CurrentRoom := "" } ∧
      (∀ x, ¬ isMember (handleCommand "/leave" n c.Conn s).server x n) ∧
      textsTo (handleCommand "/leave" n c.Conn s).events c.Conn =
        ["--- Left room: " ++ c.CurrentRoom ++ " ---\n"]) ∧
    (c.CurrentRoom = "" →
      handleCommand "/leave" n c.Conn s =
        { server := s, events := [Event.write c.Conn "[Info] You are not in any room\n"],
          panicked := false }) := by
  rw [handleCommand_leave]
  constructor
  · intro hne
    obtain ⟨r, hr, hmem, hone, hnone, hall⟩ :=
      notify_counts s n ("*** " ++ n ++ " left the room ***\n") c hwf hinv hn hne
    have hleave := LeaveRoom_in_room s n c r c.Conn hn hne hr hmem
    have hcmd : cmdLeave n c.Conn s =
        { server := { Rooms := GoMap.put s.Rooms c.CurrentRoom
                                 { r with Clients := GoMap.del r.Clients n },
                      Clients := GoMap.put s.Clients n { c with CurrentRoom := "" } },
          events := writeToOthers r.Clients n ("*** " ++ n ++ " left the room ***\n")
            ++ [Event.write c.Conn ("--- Left room: " ++ c.CurrentRoom ++ " ---\n")],
          panicked := false } := by
      simp [cmdLeave, hn, hne, hr, hleave]
    rw [hcmd]
    have htail : ∀ k, writesTo
        [Event.write c.Conn ("--- Left room: " ++ c.CurrentRoom ++ " ---\n")] k
        ("*** " ++ n ++ " left the room ***\n") = 0 :=
      fun k => writesTo_single_other _ _ _ _ (left_reply_ne_notice _ _)
    refine ⟨rfl, ?_, ?_, ?_, ?_, ?_, ?_⟩
    · intro m cm hmn hm hcm
      simp only [writesTo_append, htail, Nat.add_zero]
      exact hone m cm hmn hm hcm
    · intro k hk
      simp only [writesTo_append, htail, Nat.add_zero]
      exact writesTo_zero_of_no_write _ _ _ (hnone k hk)
    · intro k hk t ht
      simp only [List.mem_append, List.mem_singleton] at ht
      rcases ht with ht | ht
      · obtain ⟨k1, hk1⟩ := hall _ ht
        injection hk1 with _ h2
      · injection ht with h1 _
        exact absurd h1 hk
    · exact GoMap.get_put_self _ _ _
    · intro x
      unfold isMember
      simp only [memberConn_put, ne_eq, not_not]
      split
      · exact GoMap.get_del_self _ _
      · rename_i hx
        exact ((MembershipInv_iff s).mp hinv).2.1 n c x hn (Or.inl hx)
    · rw [textsTo_append,
        textsTo_nil_of_no_write _ _ (hnone c.Conn (own_conn_not_other s n c hwf hn _))]
      simp [textsTo]
  · intro he
    simp [cmdLeave, hn, he]

/-- Witness for C15: `alice` leaves `general`, which she shares with `bob`; and
`alice` outside every room asks to leave. -/
theorem leave_command_witness :
    writesTo (handleCommand "/leave" "alice" 1 twoInGeneral).events 2
      ("*** " ++ "alice" ++ " left the room ***\n") = 1 ∧
    textsTo (handleCommand "/leave" "alice" 1 twoInGeneral).events 1 =
      ["--- Left room: " ++ "general" ++ " ---\n"] ∧
    handleCommand "/leave" "alice" 1 aliceOutside =
      { server := aliceOutside, events := [Event.write 1 "[Info] You are not in any room\n"],
        panicked := false } :=
  ⟨((leave_command twoInGeneral "alice" ⟨"alice", 1, "general"⟩
      (WellFormed_of_entries twoInGeneral (by decide) (by decide) (by decide) (by decide))
      (MembershipInv_of_entries twoInGeneral (by decide) (by decide) (by decide))
      (by decide)).1 (by decide)).2.1 "bob" ⟨"bob", 2, "general"⟩
      (by decide) (by decide) (by decide),
   ((leave_command twoInGeneral "alice" ⟨"alice", 1, "general"⟩
      (WellFormed_of_entries twoInGeneral (by decide) (by decide) (by decide) (by decide))
      (MembershipInv_of_entries twoInGeneral (by decide) (by decide) (by decide))
      (by decide)).1 (by decide)).2.2.2.2.2.2,
   (leave_command aliceOutside "alice" ⟨"alice", 1, ""⟩
      (WellFormed_of_entries aliceOutside (by decide) (by decide) (by decide) (by decide))
      (MembershipInv_of_entries aliceOutside (by decide) (by decide) (by decide))
      (by decide)).2 (by decide)⟩

/-! ## C16: the member list of `/who` and `/join` -/

/-- C18. For every directory state and every room name present in `Rooms`, the name
is still present after `AddClient`, `RemoveClient`, `JoinRoom`, `LeaveRoom`, the
room creation of `/join`, a broadcast (which only reads the directory), any
command line handled by `handleCommand`, and any loop iteration of a
connection handler; hence the room `general` exists in every state reached
from `initServer()` by such steps, in any number and order. -/
theorem rooms_are_immortal :
    (∀ (s : Server) (x : String), GoMap.get s.Rooms x ≠ none →
      (∀ name conn roomName, GoMap.get (AddClient s name conn roomName).1.Rooms x ≠ none) ∧
      (∀ name, GoMap.get (RemoveClient s name).1.Rooms x ≠ none) ∧
      (∀ clientName roomName, GoMap.get (JoinRoom s clientName roomName).1.Rooms x ≠ none) ∧
      (∀ clientName, GoMap.get (LeaveRoom s clientName).1.Rooms x ≠ none) ∧
      (∀ a : Action, GoMap.get (Action.apply s a).Rooms x ≠ none) ∧
      (∀ command username conn,
        GoMap.get (handleCommand command username conn s).server.Rooms x ≠ none) ∧
      (∀ phase input conn,
        GoMap.get (handleClientStep phase input conn s).2.server.Rooms x ≠ none)) ∧
    (∀ actions : List Action, GoMap.get (runActions initServer actions).Rooms "general" ≠ none) ∧
    (∀ schedule : List (Conn × ReadResult),
      GoMap.get (initSystem.run schedule).server.Rooms "general" ≠ none) := by
  refine ⟨?_, ?_, ?_⟩
  · intro s x hx
    exact ⟨fun name conn roomName => AddClient_present s name conn roomName x hx,
      fun name => RemoveClient_present s name x hx,
      fun clientName roomName => JoinRoom_present s clientName roomName x hx,
      fun clientName => LeaveRoom_present s clientName x hx,
      fun a => Action_present s a x hx,
      fun command username conn => handleCommand_present command username conn s x hx,
      fun phase input conn => handleClientStep_present phase input conn s x hx⟩
  · intro actions
    exact runActions_present actions initServer "general" (by decide)
  · intro schedule
    exact System_run_present schedule initSystem "general" (by decide)

/-- Witness for C18: `lobby` survives the departure of its only member, and
`general` survives a session of `alice` that empties it. -/
theorem rooms_are_immortal_witness :
    GoMap.get (RemoveClient (JoinRoom withLobby "alice" "lobby").1 "alice").1.Rooms "lobby"
      ≠ none ∧
    GoMap.get (runActions initServer
      [Action.op (Op.addClient "alice" 1 "general"), Action.command "/join lobby" "alice" 1,
       Action.broadcast "alice" "hello", Action.command "/quit" "alice" 1]).Rooms "general"
      ≠ none :=
  ⟨(rooms_are_immortal.1 (JoinRoom withLobby "alice" "lobby").1 "lobby" (by decide)).2.1 "alice",
   rooms_are_immortal.2.1 _⟩

/-! ## C19: the unchecked session lookup of the dispatcher -/

/-- C19, on the schedule `quitSchedule`. The handler of connection 2 is in the
message loop for `alice`, whose session the handler of connection 1 removed
with its second `RemoveClient`; when connection 2 sends `/who`, `handleCommand`
reads `s.Clients["alice"].CurrentRoom` on a missing entry and panics. -/
theorem dispatcher_nil_dereference :
    (initSystem.run (quitSchedule.take 4)).crashed = false ∧
    (initSystem.run (quitSchedule.take 4)).phase 2 = Phase.active "alice" ∧
    GoMap.get (initSystem.run (quitSchedule.take 4)).server.Clients "alice" = none ∧
    (handleCommand "/who" "alice" 2 (initSystem.run (quitSchedule.take 4)).server).panicked
      = true ∧
    (handleCommand "/leave" "alice" 2 (initSystem.run (quitSchedule.take 4)).server).panicked
      = true ∧
    (handleCommand "/quit" "alice" 2 (initSystem.run (quitSchedule.take 4)).server).panicked
      = true ∧
    (initSystem.run quitSchedule).crashed = true := by
  decide

/-! ## C20: the four mutating operations keep the membership invariant -/

/-- C20. In a directory state with no room named by the empty string that
satisfies the membership invariant (a session with a non-empty `CurrentRoom`
is a member of that room and of no other; a session with an empty
`CurrentRoom` is a member of no room; every room member is a registered
session), each of `AddClient`, `RemoveClient`, `JoinRoom` and `LeaveRoom`,
with any arguments, gives a state that satisfies the invariant again and has
no room named by the empty string.  The same holds for the invariant that
also asks a member entry to carry the connection of its session. -/
theorem operations_keep_membership (s : Server) (h0 : GoMap.get s.Rooms "" = none)
    (hinv : MembershipNames s) :
    (∀ name conn roomName,
      MembershipNames (AddClient s name conn roomName).1 ∧
      GoMap.get (AddClient s name conn roomName).1.Rooms "" = none) ∧
    (∀ name,
      MembershipNames (RemoveClient s name).1 ∧
      GoMap.get (RemoveClient s name).1.Rooms "" = none) ∧
    (∀ clientName roomName,
      MembershipNames (JoinRoom s clientName roomName).1 ∧
      GoMap.get (JoinRoom s clientName roomName).1.Rooms "" = none) ∧
    (∀ clientName,
      MembershipNames (LeaveRoom s clientName).1 ∧
      GoMap.get (LeaveRoom s clientName).1.Rooms "" = none) ∧
    (MembershipInv s →
      (∀ name conn roomName, MembershipInv (AddClient s name conn roomName).1) ∧
      (∀ name, MembershipInv (RemoveClient s name).1) ∧
      (∀ clientName roomName, MembershipInv (JoinRoom s clientName roomName).1) ∧
      (∀ clientName, MembershipInv (LeaveRoom s clientName).1)) := by
  refine ⟨?_, ?_, ?_, ?_, ?_⟩
  · intro name conn roomName
    exact ⟨names_step s _ name hinv
        (AddClient_touches s name conn roomName (fun hc x => fresh_of_names s name hinv hc x) h0),
      AddClient_absent s name conn roomName "" h0⟩
  · intro name
    exact ⟨names_step s _ name hinv
        (RemoveClient_touches s name (OnlyInCurrent_of_names s name hinv)),
      RemoveClient_absent s name "" h0⟩
  · intro clientName roomName
    exact ⟨names_step s _ clientName hinv
        (JoinRoom_touches s clientName roomName (OnlyInCurrent_of_names s clientName hinv) h0),
      JoinRoom_absent s clientName roomName "" h0⟩
  · intro clientName
    exact ⟨names_step s _ clientName hinv
        (LeaveRoom_touches s clientName (OnlyInCurrent_of_names s clientName hinv)),
      LeaveRoom_absent s clientName "" h0⟩
  · intro hstrong
    exact ⟨fun name conn roomName => AddClient_preserves s name conn roomName hstrong h0,
      fun name => RemoveClient_preserves s name hstrong,
      fun clientName roomName => JoinRoom_preserves s clientName roomName hstrong h0,
      fun clientName => LeaveRoom_preserves s clientName hstrong⟩

/-- Witness for C20: from the state with `alice` and `bob` in `general` and an empty
`lobby`, `alice` moves to `lobby`, and `bob` is deregistered. -/
theorem operations_keep_membership_witness :
    (MembershipNames (JoinRoom withLobby "alice" "lobby").1 ∧
      GoMap.get (JoinRoom withLobby "alice" "lobby").1.Rooms "" = none) ∧
    (MembershipNames (RemoveClient withLobby "bob").1 ∧
      GoMap.get (RemoveClient withLobby "bob").1.Rooms "" = none) :=
  ⟨(operations_keep_membership withLobby (by decide)
      (MembershipNames_of_inv withLobby
        (MembershipInv_of_entries withLobby (by decide) (by decide) (by decide)))).2.2.1
      "alice" "lobby",
   (operations_keep_membership withLobby (by decide)
      (MembershipNames_of_inv withLobby
        (MembershipInv_of_entries withLobby (by decide) (by decide) (by decide)))).2.1 "bob"⟩

end TerminalChat
